import Mathlib

/-!
# kluctl: the `seal` command

A shallow embedding of `cmd/kluctl/commands/cmd_seal.go` (`findSecretsEntry`,
`loadSecrets`, `sealCmd.runCmdSealForTarget`, `sealCmd.Run`) together with the
properties of the sealing orchestrator that the specification states, and of
`pkg/utils/prettytable.go` (`PrettyTable.SortRows`, `PrettyTable.Render`).

Go pointers that the code tests against `nil` are `Option`s.  A Go `error`
result is `Outcome.error`; a nil-pointer dereference is `Outcome.panic`.
External collaborators (templating, secret loading, base-target lookup, the
effect of one sealing) are fields of an environment structure, so every theorem
holds for all behaviours of those collaborators.
-/

set_option autoImplicit false

namespace Kluctl

/-! ## Data model -/

/-- Go `types.SealingConfig`: the ordered secret-set names and the tri-state
`DynamicSealing` pointer. -/
structure SealingConfig where
  SecretSets : List String
  DynamicSealing : Option Bool
  deriving DecidableEq, Repr

/-- Go `types.Target`, restricted to the fields the seal command reads. -/
structure Target where
  Name : String
  Cluster : Option String
  SealingConfig : Option SealingConfig
  deriving DecidableEq, Repr

/-- Go `types.DynamicTarget`: a target and the name of the target it was expanded from. -/
structure DynamicTarget where
  Target : Target
  BaseTargetName : String
  deriving DecidableEq, Repr

/-- Go `args.TargetFlags` plus the two flags of `sealCmd`. -/
structure sealCmd where
  Target : String
  Cluster : String
  ForceReseal : Bool
  deriving DecidableEq, Repr

/-- Result of a Go call that returns an `error` and may also dereference nil. -/
inductive Outcome (α : Type) where
  | ok (a : α)
  | error (msg : String)
  | panic
  deriving DecidableEq, Repr

/-! ## Secrets configuration -/

/-- Modelled from the spec: `types.SecretSource` is declared outside the
sources at hand; the spec calls it a source-type-tagged descriptor whose fields
may hold template expressions.  Only its identity matters here. -/
structure SecretSource where
  descriptor : String
  deriving DecidableEq, Repr

/-- Go `types.SecretSet`: a named, ordered group of sources. -/
structure SecretSet where
  Name : String
  Sources : List SecretSource
  deriving DecidableEq, Repr

/-- Go `types.GlobalSealedSecretsConfig`: three optional project-level settings. -/
structure GlobalSealedSecretsConfig where
  Bootstrap : Option Bool
  Namespace : Option String
  ControllerName : Option String
  deriving DecidableEq, Repr

/-- Go `types.SecretsConfig`, reached through the pointer `Config.SecretsConfig`. -/
structure SecretsConfig where
  SecretSets : List SecretSet
  SealedSecrets : Option GlobalSealedSecretsConfig
  deriving DecidableEq, Repr

/-- The part of `LoadedKluctlProject` the seal command reads: `p.Config.SecretsConfig`. -/
structure LoadedKluctlProject where
  SecretsConfig : Option SecretsConfig
  deriving DecidableEq, Repr

/-- Go `types.SealedSecretsConfig` of the deployment project. -/
structure SealedSecretsConfig where
  OutputPattern : Option String
  deriving DecidableEq, Repr

/-- The part of `commandCtx` used while sealing: `ctx.targetCtx.KluctlProject`,
`ctx.targetCtx.Target` and `ctx.targetCtx.DeploymentProject.Config.SealedSecrets`. -/
structure commandCtx where
  KluctlProject : LoadedKluctlProject
  Target : Target
  SealedSecrets : Option SealedSecretsConfig
  deriving DecidableEq, Repr

/-- A secret bundle: an ordered key/value mapping. -/
abbrev SecretBundle := List (String × String)

/-- Modelled from the spec: writing one key into a bundle.  An existing key
keeps its position and takes the new value, a new key goes to the end. -/
def SecretBundle.set : SecretBundle → String → String → SecretBundle
  | [], k, v => [(k, v)]
  | (k', v') :: rest, k, v =>
    if k' = k then (k, v) :: rest else (k', v') :: SecretBundle.set rest k v

/-- Modelled from the spec: `uo.UnstructuredObject.Merge` is declared outside
the sources at hand; the spec gives it override semantics on a flat key/value
bundle (later key wins, no duplicate-key error). -/
def Merge (acc other : SecretBundle) : SecretBundle :=
  other.foldl (fun a kv => SecretBundle.set a kv.1 kv.2) acc

/-- The value a bundle holds for a key. -/
def SecretBundle.get (b : SecretBundle) (k : String) : Option String := b.lookup k

/-- The keys of a bundle, in order. -/
def SecretBundle.keys (b : SecretBundle) : List String := b.map Prod.fst

/-! ## `findSecretsEntry` and `loadSecrets` -/

/-- Message of line 38. -/
def secretSetNotFoundMsg (name : String) : String :=
  "secret Set with name " ++ name ++ " was not found"

/-- Lines 32-39.  `Config.SecretsConfig` is a pointer that line 94 tests against
nil; reading `.SecretSets` through it when it is nil is a nil dereference. -/
def findSecretsEntry (ctx : commandCtx) (name : String) : Outcome SecretSet :=
  match ctx.KluctlProject.SecretsConfig with
  | none => .panic
  | some cfg =>
    match cfg.SecretSets.find? (fun e => e.Name == name) with
    | some e => .ok e
    | none => .error (secretSetNotFoundMsg name)

/-- The external capabilities one sealing uses.  Each returns `none` or
`Except.ok` on success and an error message otherwise. -/
structure SealEnv where
  withProjectTargetCommandContext : String → Except String commandCtx
  RenderStruct : SecretSource → Except String SecretSource
  LoadSecrets : SecretSource → Except String SecretBundle
  RenderDeployments : Option String
  BootstrapSealedSecrets : String → Option String
  LoadClusterConfig : Option String → Except String String
  NewSealer : String → String → String → Bool → Option String
  SealCommandRun : String → Option String

/-- Calls to collaborators that change or consume the render context, in the
order they are made. -/
inductive SealEvent where
  | MergeSecretsIntoAllChildren (secrets : SecretBundle)
  | RenderDeployments
  | BootstrapSealedSecrets (sealedSecretsNamespace : String)
  | LoadClusterConfig (cluster : Option String)
  | NewSealer (sealedSecretsNamespace sealedSecretsControllerName cluster : String)
      (forceReseal : Bool)
  | SealCommandRun (outputPattern : String)
  deriving DecidableEq, Repr

/-- Lines 48-59: the inner loop over the sources of one secret set. -/
def loadSources (env : SealEnv) : List SecretSource → SecretBundle → Outcome SecretBundle
  | [], secrets => .ok secrets
  | source :: rest, secrets =>
    match env.RenderStruct source with
    | .error err => .error err
    | .ok renderedSource =>
      match env.LoadSecrets renderedSource with
      | .error err => .error err
      | .ok s => loadSources env rest (Merge secrets s)

/-- Lines 43-60: the outer loop over `target.SealingConfig.SecretSets`. -/
def loadSecretSets (env : SealEnv) (ctx : commandCtx) :
    List String → SecretBundle → Outcome SecretBundle
  | [], secrets => .ok secrets
  | secretSetName :: rest, secrets =>
    match findSecretsEntry ctx secretSetName with
    | .panic => .panic
    | .error err => .error err
    | .ok secretEntry =>
      match loadSources env secretEntry.Sources secrets with
      | .panic => .panic
      | .error err => .error err
      | .ok secrets => loadSecretSets env ctx rest secrets

/-- Lines 41-63.  Returns the Go result and the calls made on the deployment
project.  `target.SealingConfig` is a pointer, dereferenced at line 43. -/
def loadSecrets (env : SealEnv) (ctx : commandCtx) (target : Target) :
    Outcome Unit × List SealEvent :=
  match target.SealingConfig with
  | none => (.panic, [])
  | some sc =>
    match loadSecretSets env ctx sc.SecretSets [] with
    | .panic => (.panic, [])
    | .error err => (.error err, [])
    | .ok secrets => (.ok (), [.MergeSecretsIntoAllChildren secrets])

/-! ## `sealCmd.runCmdSealForTarget` -/

/-- Lines 92, 94-97: the namespace of the sealed-secrets controller. -/
def sealedSecretsNamespace (p : LoadedKluctlProject) : String :=
  match p.SecretsConfig with
  | none => "kube-system"
  | some cfg =>
    match cfg.SealedSecrets with
    | none => "kube-system"
    | some ss => ss.Namespace.getD "kube-system"

/-- Lines 93, 94, 98-100: the name of the sealed-secrets controller. -/
def sealedSecretsControllerName (p : LoadedKluctlProject) : String :=
  match p.SecretsConfig with
  | none => "sealed-secrets-controller"
  | some cfg =>
    match cfg.SealedSecrets with
    | none => "sealed-secrets-controller"
    | some ss => ss.ControllerName.getD "sealed-secrets-controller"

/-- Line 102: the condition under which the cluster is bootstrapped. -/
def bootstrapEnabled (p : LoadedKluctlProject) : Bool :=
  match p.SecretsConfig with
  | none => true
  | some cfg =>
    match cfg.SealedSecrets with
    | none => true
    | some ss =>
      match ss.Bootstrap with
      | none => true
      | some b => b

/-- Lines 118-123: the output pattern handed to the seal command. -/
def outputPattern (ctx : commandCtx) (targetName : String) : String :=
  match ctx.SealedSecrets with
  | none => targetName
  | some ss => ss.OutputPattern.getD targetName

/-- Lines 109-132: from `LoadClusterConfig` to the end. -/
def sealAfterBootstrap (cmd : sealCmd) (env : SealEnv) (p : LoadedKluctlProject)
    (ctx : commandCtx) (targetName : String) (evs : List SealEvent) :
    Outcome Unit × List SealEvent :=
  let evs := evs ++ [.LoadClusterConfig ctx.Target.Cluster]
  match env.LoadClusterConfig ctx.Target.Cluster with
  | .error err => (.error err, evs)
  | .ok cluster =>
    let ns := sealedSecretsNamespace p
    let ctrl := sealedSecretsControllerName p
    let evs := evs ++ [.NewSealer ns ctrl cluster cmd.ForceReseal]
    match env.NewSealer ns ctrl cluster cmd.ForceReseal with
    | some err => (.error err, evs)
    | none =>
      let evs := evs ++ [.SealCommandRun (outputPattern ctx targetName)]
      match env.SealCommandRun (outputPattern ctx targetName) with
      | some err => (.error err, evs)
      | none => (.ok (), evs)

/-- Lines 65-134 without the status reporting: the result and the collaborator
calls, in order. -/
def runCmdSealForTarget (cmd : sealCmd) (env : SealEnv) (p : LoadedKluctlProject)
    (targetName : String) : Outcome Unit × List SealEvent :=
  match env.withProjectTargetCommandContext targetName with
  | .error err => (.error err, [])
  | .ok ctx =>
    match loadSecrets env ctx ctx.Target with
    | (.panic, evs) => (.panic, evs)
    | (.error err, evs) => (.error err, evs)
    | (.ok _, evs) =>
      let evs := evs ++ [.RenderDeployments]
      match env.RenderDeployments with
      | some err => (.error err, evs)
      | none =>
        if bootstrapEnabled p then
          let evs := evs ++ [.BootstrapSealedSecrets (sealedSecretsNamespace p)]
          match env.BootstrapSealedSecrets (sealedSecretsNamespace p) with
          | some err => (.error err, evs)
          | none => sealAfterBootstrap cmd env p ctx targetName evs
        else sealAfterBootstrap cmd env p ctx targetName evs

/-! ## `sealCmd.Run` -/

/-- One invocation of `runCmdSealForTarget` made by `Run`: the position in
`p.DynamicTargets` of the target the loop was visiting, the name passed, and how
the invocation ended (nil, an error, or a panic). -/
structure SealCall where
  index : Nat
  name : String
  outcome : Outcome Unit
  deriving DecidableEq, Repr

/-- Whether the invocation returned an error (`err != nil` at line 174). -/
def SealCall.failed (c : SealCall) : Bool :=
  match c.outcome with
  | .error _ => true
  | _ => false

/-- The collaborators of `Run`.  `FindBaseTarget` is `p.FindBaseTarget`;
`sealOutcome history name` is how `runCmdSealForTarget` ends when called with
`name` after the calls in `history` (oldest first): it returns nil, returns an
error, or panics. -/
structure RunEnv where
  FindBaseTarget : String → Except String Target
  sealOutcome : List String → String → Outcome Unit

/-- The collaborators of `Run` on a loaded project: its base-target lookup and
`runCmdSealForTarget` (lines 65-134) run with the capabilities `env`. -/
def RunEnv.ofProject (cmd : sealCmd) (env : SealEnv) (p : LoadedKluctlProject)
    (FindBaseTarget : String → Except String Target) : RunEnv where
  FindBaseTarget := FindBaseTarget
  sealOutcome := fun _ targetName => (runCmdSealForTarget cmd env p targetName).1

/-- The local variables of `Run` that live across loop iterations, plus the
observable effects so far. -/
structure LoopState where
  hadError : Bool
  noTargetMatch : Bool
  baseTargets : List String
  calls : List SealCall
  lookups : List String
  infos : List String
  deriving DecidableEq, Repr

/-- State before the first iteration (lines 138-143). -/
def LoopState.init : LoopState :=
  { hadError := false, noTargetMatch := true, baseTargets := [], calls := [],
    lookups := [], infos := [] }

/-- How an iteration leaves `Run` before the loop is over: through the
`return err` of line 163, or through a panic inside `runCmdSealForTarget`, which
`Run` does not recover from. -/
inductive LoopExit where
  | returned (err : String)
  | crashed
  deriving DecidableEq, Repr

/-- Lines 173-177: `runCmdSealForTarget` is called with `name` while the loop
visits position `i`.  A panic of the call ends `Run` there; an error it returns
sets `hadError`; unless it panicked the loop goes on. -/
def LoopState.seal (env : RunEnv) (i : Nat) (name : String) (st : LoopState) :
    LoopState × Option LoopExit :=
  match env.sealOutcome (st.calls.map SealCall.name) name with
  | .panic => ({ st with calls := st.calls ++ [⟨i, name, .panic⟩] }, some .crashed)
  | .error err =>
    ({ st with calls := st.calls ++ [⟨i, name, .error err⟩], hadError := true }, none)
  | .ok u => ({ st with calls := st.calls ++ [⟨i, name, .ok u⟩] }, none)

/-- Line 145: the target-name filter lets the target through. -/
def nameFilterPasses (cmd : sealCmd) (t : DynamicTarget) : Bool :=
  !(cmd.Target != "" && cmd.Target != t.Target.Name)

/-- Line 148: the cluster-name filter lets the target through. -/
def clusterFilterPasses (cmd : sealCmd) (t : DynamicTarget) : Bool :=
  !(cmd.Cluster != "" && t.Target.Cluster != none && some cmd.Cluster != t.Target.Cluster)

/-- Lines 158-160: the condition `!dynamicSealing && isDynamicTarget`. -/
def sealsBaseTarget (sc : SealingConfig) (t : DynamicTarget) : Bool :=
  let dynamicSealing := sc.DynamicSealing == none || sc.DynamicSealing == some true
  let isDynamicTarget := t.BaseTargetName != t.Target.Name
  !dynamicSealing && isDynamicTarget

/-- One iteration of the loop of lines 144-177, visiting the target `t` at
position `i`.  The second component tells how the iteration left `Run` (line 163
returned, or the call of line 173 panicked); it is `none` when the iteration
ended normally or by `continue`. -/
def loopBody (cmd : sealCmd) (env : RunEnv) (i : Nat) (t : DynamicTarget) (st : LoopState) :
    LoopState × Option LoopExit :=
  if !nameFilterPasses cmd t then (st, none)
  else if !clusterFilterPasses cmd t then (st, none)
  else
    match t.Target.SealingConfig with
    | none =>
      ({ st with infos := st.infos ++ ["Target " ++ t.Target.Name ++ " has no sealingConfig"] },
        none)
    | some sc =>
      let st := { st with noTargetMatch := false }
      if sealsBaseTarget sc t then
        let st := { st with lookups := st.lookups ++ [t.BaseTargetName] }
        match env.FindBaseTarget t.BaseTargetName with
        | .error err => (st, some (.returned err))
        | .ok baseTarget =>
          if st.baseTargets.contains t.BaseTargetName then (st, none)
          else
            let st := { st with baseTargets := t.BaseTargetName :: st.baseTargets }
            st.seal env i baseTarget.Name
      else st.seal env i t.Target.Name

/-- The loop of lines 144-177 from position `i` on; it stops at the first
iteration that leaves `Run`. -/
def runLoop (cmd : sealCmd) (env : RunEnv) :
    Nat → List DynamicTarget → LoopState → LoopState × Option LoopExit
  | _, [], st => (st, none)
  | i, t :: rest, st =>
    match loopBody cmd env i t st with
    | (st, some exit) => (st, some exit)
    | (st, none) => runLoop cmd env (i + 1) rest st

/-- How `Run` ends: with one of its return values, or by the panic of a call. -/
inductive RunResult where
  | success
  | sealingFailed
  | noTargetMatched
  | baseTargetError (msg : String)
  | crashed
  deriving DecidableEq, Repr

/-- Message of line 179. -/
def sealingFailedMsg : String := "sealing for at least one target failed"

/-- Message of line 182. -/
def noTargetMatchedMsg : String := "no target matched the given target and/or cluster name"

/-- Message of the Go runtime for a nil-pointer dereference. -/
def nilDereferenceMsg : String :=
  "panic: runtime error: invalid memory address or nil pointer dereference"

/-- The error a run ends with: the Go error value `Run` returns (`none` for
nil), or the runtime error of the panic that ends it. -/
def RunResult.toError : RunResult → Option String
  | .success => none
  | .sealingFailed => some sealingFailedMsg
  | .noTargetMatched => some noTargetMatchedMsg
  | .baseTargetError msg => some msg
  | .crashed => some nilDereferenceMsg

/-- Final state of the loop and the way `Run` ended. -/
structure RunTrace where
  final : LoopState
  result : RunResult
  deriving DecidableEq, Repr

/-- The callback body of `sealCmd.Run` (lines 138-184) on the loaded project's
`DynamicTargets`. -/
def Run (cmd : sealCmd) (env : RunEnv) (dynamicTargets : List DynamicTarget) : RunTrace :=
  match runLoop cmd env 0 dynamicTargets LoopState.init with
  | (st, some (.returned err)) => ⟨st, .baseTargetError err⟩
  | (st, some .crashed) => ⟨st, .crashed⟩
  | (st, none) =>
    if st.hadError then ⟨st, .sealingFailed⟩
    else if st.noTargetMatch then ⟨st, .noTargetMatched⟩
    else ⟨st, .success⟩

/-- Names passed to `runCmdSealForTarget`, in call order. -/
def RunTrace.unitNames (r : RunTrace) : List String := r.final.calls.map SealCall.name
/-! ## Analysis of the loop of `Run` -/

/-- What one loop iteration does with the visited target, as a function of the
target and the base names already sealed. -/
inductive Decision where
  | filtered
  | noSealingConfig
  | abort (err : String)
  | covered
  | sealBase (name : String)
  | sealSelf (name : String)
  deriving DecidableEq, Repr

/-- The branch of the loop body taken for `t` when `seen` are the keys of `baseTargets`. -/
def decision (cmd : sealCmd) (env : RunEnv) (t : DynamicTarget) (seen : List String) : Decision :=
  if !nameFilterPasses cmd t then .filtered
  else if !clusterFilterPasses cmd t then .filtered
  else
    match t.Target.SealingConfig with
    | none => .noSealingConfig
    | some sc =>
      if sealsBaseTarget sc t then
        match env.FindBaseTarget t.BaseTargetName with
        | .error err => .abort err
        | .ok baseTarget =>
          if seen.contains t.BaseTargetName then .covered else .sealBase baseTarget.Name
      else .sealSelf t.Target.Name

/-- The state after the call of line 173 with `name`, whatever its outcome:
the call is recorded, and an error it returned is recorded in `hadError`. -/
def LoopState.recordCall (env : RunEnv) (i : Nat) (name : String) (st : LoopState) : LoopState :=
  let outcome := env.sealOutcome (st.calls.map SealCall.name) name
  { st with calls := st.calls ++ [⟨i, name, outcome⟩],
            hadError := st.hadError || SealCall.failed ⟨i, name, outcome⟩ }

/-- Whether the call of line 173 with `name` panics. -/
def LoopState.sealPanics (env : RunEnv) (name : String) (st : LoopState) : Bool :=
  match env.sealOutcome (st.calls.map SealCall.name) name with
  | .panic => true
  | _ => false

/-- The state change that goes with each branch. -/
def applyDecision (env : RunEnv) (i : Nat) (t : DynamicTarget) (st : LoopState) :
    Decision → LoopState × Option LoopExit
  | .filtered => (st, none)
  | .noSealingConfig =>
    ({ st with infos := st.infos ++ ["Target " ++ t.Target.Name ++ " has no sealingConfig"] }, none)
  | .abort err =>
    ({ st with noTargetMatch := false, lookups := st.lookups ++ [t.BaseTargetName] }, some (.returned err))
  | .covered =>
    ({ st with noTargetMatch := false, lookups := st.lookups ++ [t.BaseTargetName] }, none)
  | .sealBase name =>
    LoopState.seal env i name
      { st with noTargetMatch := false, lookups := st.lookups ++ [t.BaseTargetName],
                baseTargets := t.BaseTargetName :: st.baseTargets }
  | .sealSelf name => LoopState.seal env i name { st with noTargetMatch := false }

/-- The target passes the target-name and the cluster-name filter. -/
def passesFilters (cmd : sealCmd) (t : DynamicTarget) : Bool :=
  nameFilterPasses cmd t && clusterFilterPasses cmd t

/-- The target passes the filters and has a `SealingConfig`. -/
def selectedForSealing (cmd : sealCmd) (t : DynamicTarget) : Bool :=
  passesFilters cmd t && t.Target.SealingConfig.isSome

/-- The target passes the filters, has a `SealingConfig` and is sealed through its base target. -/
def needsBaseTarget (cmd : sealCmd) (t : DynamicTarget) : Bool :=
  passesFilters cmd t &&
    (match t.Target.SealingConfig with
     | some sc => sealsBaseTarget sc t
     | none => false)

/-- No call of `runCmdSealForTarget` panics, whatever the name and the calls before it. -/
def RunEnv.NoCrash (env : RunEnv) : Prop :=
  ∀ (history : List String) (name : String), env.sealOutcome history name ≠ .panic

/-- Base-target resolution succeeds for every target of the list that reaches line 161. -/
def BaseTargetsResolve (cmd : sealCmd) (env : RunEnv) (ts : List DynamicTarget) : Prop :=
  ∀ t ∈ ts, needsBaseTarget cmd t = true → ∃ b, env.FindBaseTarget t.BaseTargetName = .ok b

/-- The flag `hadError` says whether some call so far failed. -/
def LoopState.ErrorFlagOk (st : LoopState) : Prop :=
  st.hadError = st.calls.any SealCall.failed

/-- While `noTargetMatch` is set, nothing was sealed and no base name was recorded. -/
def LoopState.MatchFlagOk (st : LoopState) : Prop :=
  st.noTargetMatch = true → st.calls = [] ∧ st.baseTargets = []

/-- As long as nothing was sealed, `noTargetMatch` is set and no base name was recorded. -/
def LoopState.NoCallOk (st : LoopState) : Prop :=
  st.calls = [] → st.noTargetMatch = true ∧ st.baseTargets = []

/-! ## Example project -/

/-- No filter, no forced reseal. -/
def exCmd : sealCmd := ⟨"", "", false⟩

/-- A plain target with a sealing configuration. -/
def exProd : DynamicTarget := ⟨⟨"prod", some "c1", some ⟨["db"], none⟩⟩, "prod"⟩

/-- First expansion of the base target `feat`, sealed through its base. -/
def exFeat1 : DynamicTarget := ⟨⟨"feat-1", none, some ⟨["db"], some false⟩⟩, "feat"⟩

/-- A target without sealing configuration. -/
def exLocal : DynamicTarget := ⟨⟨"local", none, none⟩, "local"⟩

/-- Second expansion of the base target `feat`, sealed through its base. -/
def exFeat2 : DynamicTarget := ⟨⟨"feat-2", none, some ⟨["db"], some false⟩⟩, "feat"⟩

/-- The declared targets of the example project. -/
def exTargets : List DynamicTarget := [exProd, exFeat1, exLocal, exFeat2]

/-- Every base target exists; sealing `feat` fails, every other sealing succeeds. -/
def exEnv : RunEnv where
  FindBaseTarget := fun n => .ok ⟨n, none, some ⟨["db"], none⟩⟩
  sealOutcome := fun _ n => if n = "feat" then .error "sealing feat failed" else .ok ()

/-- Like `exEnv`, but every sealing succeeds. -/
def exEnvOk : RunEnv where
  FindBaseTarget := fun n => .ok ⟨n, none, some ⟨["db"], none⟩⟩
  sealOutcome := fun _ _ => .ok ()

/-- No base target exists. -/
def exEnvNoBase : RunEnv where
  FindBaseTarget := fun n => .error ("target " ++ n ++ " not existent in kluctl project config")
  sealOutcome := fun _ _ => .ok ()

/-! ## Run-level outcome -/

/-- The run-level outcome the specification derives from the selection and the
per-unit outcomes: no target selected, else some unit failed, else success. -/
def aggregateResult (anySelected : Bool) (failed : List Bool) : RunResult :=
  if !anySelected then .noTargetMatched
  else if failed.any id then .sealingFailed
  else .success

/-- Two loop states that agree on the recorded base names and on the calls made,
whatever the calls returned. -/
def LoopState.SameUnits (st1 st2 : LoopState) : Prop :=
  st1.baseTargets = st2.baseTargets ∧
    st1.calls.map (fun c => (c.index, c.name)) = st2.calls.map (fun c => (c.index, c.name))

/-! ## Targets sharing a base target -/

/-- The target passes the filters, has a `SealingConfig` with `DynamicSealing`
set to false, is dynamic, and was expanded from the base target named `B`. -/
def inBaseGroup (cmd : sealCmd) (B : String) (t : DynamicTarget) : Bool :=
  passesFilters cmd t &&
    (match t.Target.SealingConfig with
     | some sc => sc.DynamicSealing == some false
     | none => false) &&
    (t.BaseTargetName != t.Target.Name) && (t.BaseTargetName == B)

/-- The call was made while visiting a target of the group of `B`. -/
def onBehalfOfGroup (cmd : sealCmd) (B : String) (ts : List DynamicTarget) (c : SealCall) : Bool :=
  match ts[c.index]? with
  | some t => inBaseGroup cmd B t
  | none => false

/-! ## Targets without sealing configuration -/

/-- The target has a `SealingConfig`. -/
def hasSealingConfig (t : DynamicTarget) : Bool := t.Target.SealingConfig.isSome

/-- Two loop states that agree up to the positions recorded with the calls and
the informational messages. -/
def LoopState.SameOutcome (st1 st2 : LoopState) : Prop :=
  st1.hadError = st2.hadError ∧ st1.noTargetMatch = st2.noTargetMatch ∧
    st1.baseTargets = st2.baseTargets ∧
    st1.calls.map (fun c => (c.name, c.failed)) = st2.calls.map (fun c => (c.name, c.failed)) ∧
    st1.lookups = st2.lookups

/-! ## Names passed to the sealing -/

/-- The target passes the filters, has a `SealingConfig` and is sealed under its own name. -/
def sealsItself (cmd : sealCmd) (t : DynamicTarget) : Bool :=
  selectedForSealing cmd t && !needsBaseTarget cmd t

/-- The names of the targets that are sealed under their own name, in declaration order. -/
def selfNames (cmd : sealCmd) (ts : List DynamicTarget) : List String :=
  (ts.filter (sealsItself cmd)).map (fun t => t.Target.Name)

/-- The base names of the targets that are sealed through their base target,
in declaration order. -/
def baseNames (cmd : sealCmd) (ts : List DynamicTarget) : List String :=
  (ts.filter (needsBaseTarget cmd)).map (fun t => t.BaseTargetName)

/-- A plain target named `feat` followed by an expansion of the base target `feat`. -/
def exDupTargets : List DynamicTarget :=
  [⟨⟨"feat", none, some ⟨["db"], none⟩⟩, "feat"⟩, exFeat1]

/-! ## Sources and bundles of a target -/

/-- The sources of the named secret sets, in `SecretSets` order and, inside
each set, in declaration order; `none` when a name does not resolve. -/
def allSources (ctx : commandCtx) : List String → Option (List SecretSource)
  | [] => some []
  | name :: rest =>
    match findSecretsEntry ctx name, allSources ctx rest with
    | .ok entry, some l => some (entry.Sources ++ l)
    | _, _ => none

/-- The bundle of each source, in order; `none` when a source fails to render or to load. -/
def allBundles (env : SealEnv) : List SecretSource → Option (List SecretBundle)
  | [] => some []
  | source :: rest =>
    match env.RenderStruct source with
    | .error _ => none
    | .ok renderedSource =>
      match env.LoadSecrets renderedSource, allBundles env rest with
      | .ok s, some l => some (s :: l)
      | _, _ => none

/-! ## Example secrets configuration -/

/-- The secret bundles of the example project's sources. -/
def exLoadSecrets (s : SecretSource) : Except String SecretBundle :=
  if s.descriptor = "vault" then .ok [("user", "admin"), ("password", "p1")]
  else if s.descriptor = "file" then .ok [("password", "p2"), ("token", "t")]
  else if s.descriptor = "override" then .ok [("user", "root")]
  else .error "cannot load secrets"

/-- The target `prod` of the example project, which names two secret sets. -/
def exProdTarget : Target := ⟨"prod", some "c1", some ⟨["db", "extra"], none⟩⟩

/-- The example project declares the secret sets `db` (two sources) and `extra`. -/
def exCtx : commandCtx where
  KluctlProject := ⟨some ⟨[⟨"db", [⟨"vault"⟩, ⟨"file"⟩]⟩, ⟨"extra", [⟨"override"⟩]⟩], none⟩⟩
  Target := exProdTarget
  SealedSecrets := none

/-- The example project without a secrets configuration. -/
def exCtxNoSecrets : commandCtx where
  KluctlProject := ⟨none⟩
  Target := exProdTarget
  SealedSecrets := none

/-- The example project with a secrets configuration that declares no secret set. -/
def exCtxEmptyRegistry : commandCtx where
  KluctlProject := ⟨some ⟨[], none⟩⟩
  Target := exProdTarget
  SealedSecrets := none

/-- Collaborators of the example project: every call succeeds. -/
def exSealEnv : SealEnv where
  withProjectTargetCommandContext := fun _ => .ok exCtx
  RenderStruct := fun s => .ok s
  LoadSecrets := exLoadSecrets
  RenderDeployments := none
  BootstrapSealedSecrets := fun _ => none
  LoadClusterConfig := fun _ => .ok "c1"
  NewSealer := fun _ _ _ _ => none
  SealCommandRun := fun _ => none

/-- Like `exSealEnv`, for the project whose registry is empty. -/
def exSealEnvEmptyRegistry : SealEnv :=
  { exSealEnv with withProjectTargetCommandContext := fun _ => .ok exCtxEmptyRegistry }

/-! ## Further example inputs -/

/-- The target flag names `local`, the target without sealing configuration. -/
def exCmdLocal : sealCmd := ⟨"local", "", false⟩

/-- Collaborators of a project in which loading the source `file` fails. -/
def exSealEnvBroken : SealEnv :=
  { exSealEnv with
    LoadSecrets := fun s =>
      if s.descriptor = "file" then .error "cannot load secrets" else exLoadSecrets s }

/-! ## Reference resolver of the specification -/

/-- The selection of §4.3 step 1, in the spec's words: the optional target-name
filter and the optional cluster-name filter both accept the target. -/
def matchesSelection (cmd : sealCmd) (t : DynamicTarget) : Bool :=
  (cmd.Target == "" || cmd.Target == t.Target.Name) &&
    (cmd.Cluster == "" ||
      (match t.Target.Cluster with
       | none => true
       | some c => c == cmd.Cluster))

/-- The sealing unit §4.3 assigns to a target: its base target or the target itself. -/
inductive UnitRef where
  | base (name : String)
  | self (name : String)
  deriving DecidableEq, Repr

/-- Steps 3 to 6 of §4.3 for a target with a `SealingConfig`: `DynamicSealing`
unset counts as true; a dynamic target with `DynamicSealing` false goes to its
base name, every other target to its own name. -/
def toUnitRef (t : DynamicTarget) (sc : SealingConfig) : UnitRef :=
  let dynamicSealing :=
    match sc.DynamicSealing with
    | none => true
    | some b => b
  let isDynamic := t.BaseTargetName != t.Target.Name
  if !dynamicSealing && isDynamic then .base t.BaseTargetName else .self t.Target.Name

/-- Steps 1 and 2 of §4.3 followed by `toUnitRef`: `none` for a target that is dropped. -/
def unitRefOf (cmd : sealCmd) (t : DynamicTarget) : Option UnitRef :=
  if matchesSelection cmd t then t.Target.SealingConfig.map (toUnitRef t) else none

/-- Keeps every own-name unit and the first occurrence of each base name that
is not in `emitted`. -/
def keepFirstBase : List UnitRef → List String → List String
  | [], _ => []
  | .self name :: rest, emitted => name :: keepFirstBase rest emitted
  | .base name :: rest, emitted =>
    if name ∈ emitted then keepFirstBase rest emitted
    else name :: keepFirstBase rest (name :: emitted)

/-- The reference resolver of §4.3 as a pipeline over the declared list: drop
the targets that fail the filters, drop the targets without `SealingConfig`, map
the rest to their unit, keep the first occurrence of each base. -/
def referenceResolver (cmd : sealCmd) (ts : List DynamicTarget) : List String :=
  keepFirstBase
    (((ts.filter (matchesSelection cmd)).filter hasSealingConfig).filterMap
      (fun t => t.Target.SealingConfig.map (toUnitRef t)))
    []

/-! ## Selection by name and by cluster -/

/-- The target flag names a target that is not declared. -/
def exCmdUnknown : sealCmd := ⟨"staging", "", false⟩

/-- The cluster flag names the cluster `c2`. -/
def exCmdCluster : sealCmd := ⟨"", "c2", false⟩

/-- The call `c` seals the unit of the target `t` declared at position `j`: a
call made at that position under the target's own name, or, for a target sealed
through its base target, a call made at that or an earlier position under the
name of the resolved base target. -/
def sealsUnitOf (cmd : sealCmd) (env : RunEnv) (t : DynamicTarget) (j : Nat) (c : SealCall) :
    Prop :=
  if needsBaseTarget cmd t then
    c.index ≤ j ∧ ∃ b, env.FindBaseTarget t.BaseTargetName = .ok b ∧ c.name = b.Name
  else c.index = j ∧ c.name = t.Target.Name

/-- Every recorded base name was sealed, at an earlier position, under the name
of the target it resolves to. -/
def LoopState.BasesSealed (env : RunEnv) (i : Nat) (st : LoopState) : Prop :=
  ∀ B ∈ st.baseTargets,
    ∃ c ∈ st.calls, c.index < i ∧ ∃ b, env.FindBaseTarget B = .ok b ∧ c.name = b.Name

/-! ## Effective sealed-secrets settings -/

/-- The project-level sealed-secrets section, present only when both
`SecretsConfig` and its `SealedSecrets` are. -/
def configuredSealedSecrets (p : LoadedKluctlProject) : Option GlobalSealedSecretsConfig :=
  p.SecretsConfig.bind (fun cfg => cfg.SealedSecrets)

/-- The sealed-secrets settings of the specification. -/
structure SealedSecretsSettings where
  Namespace : String
  ControllerName : String
  Bootstrap : Bool
  OutputPattern : String
  deriving DecidableEq, Repr

/-- The documented defaults: namespace `kube-system`, controller
`sealed-secrets-controller`, bootstrap enabled, output pattern the unit name;
each is overridden by the configured value when there is one. -/
def effectiveSettings (p : LoadedKluctlProject) (ctx : commandCtx) (unitName : String) :
    SealedSecretsSettings where
  Namespace := ((configuredSealedSecrets p).bind (fun ss => ss.Namespace)).getD "kube-system"
  ControllerName :=
    ((configuredSealedSecrets p).bind (fun ss => ss.ControllerName)).getD
      "sealed-secrets-controller"
  Bootstrap := ((configuredSealedSecrets p).bind (fun ss => ss.Bootstrap)).getD true
  OutputPattern := (ctx.SealedSecrets.bind (fun ss => ss.OutputPattern)).getD unitName

/-- The collaborator calls of a sealing that runs to its end with the settings
`s`: the bootstrap, when enabled, comes before the sealer is constructed. -/
def expectedEvents (cmd : sealCmd) (ctx : commandCtx) (s : SealedSecretsSettings)
    (secrets : SecretBundle) (cluster : String) : List SealEvent :=
  [.MergeSecretsIntoAllChildren secrets, .RenderDeployments] ++
    (if s.Bootstrap then [.BootstrapSealedSecrets s.Namespace] else []) ++
    [.LoadClusterConfig ctx.Target.Cluster,
     .NewSealer s.Namespace s.ControllerName cluster cmd.ForceReseal,
     .SealCommandRun s.OutputPattern]

/-- A project that sets the namespace and switches the bootstrap off. -/
def exProjectNoBootstrap : LoadedKluctlProject :=
  ⟨some ⟨[⟨"db", [⟨"vault"⟩, ⟨"file"⟩]⟩, ⟨"extra", [⟨"override"⟩]⟩],
    some ⟨some false, some "sealing", none⟩⟩⟩

/-! ## `PrettyTable` (pkg/utils/prettytable.go) -/

/-- A Go string is a sequence of bytes.  It is modelled as the list of its
bytes, each written as the character with that code, so `len` is the length of
the list and slicing is `drop` and `take`. -/
abbrev GoString := List Char

/-- Go `Row`. -/
abbrev Row := List GoString

/-- Go `PrettyTable`. -/
structure PrettyTable where
  rows : List Row
  deriving DecidableEq, Repr

/-- Result of a Go call that may crash or run forever: `outOfFuel` says the
bound on loop passes was reached. -/
inductive Exec (α : Type) where
  | done (a : α)
  | panic
  | outOfFuel
  deriving DecidableEq, Repr

/-- Lines 16-18. -/
def PrettyTable.AddRow (t : PrettyTable) (c : Row) : PrettyTable := ⟨t.rows ++ [c]⟩

/-- One row of the closure `maxWidth` (lines 32-39): `w` after visiting a cell. -/
def maxWidthStep (maxW : Int) (w : Int) (cell : GoString) : Int :=
  let w := if (cell.length : Int) > w then (cell.length : Int) else w
  if maxW ≠ -1 then (if maxW < w then maxW else w) else w

/-- The loop of the closure `maxWidth` (lines 31-40) from the value `w` on;
`none` when a row has no cell `col`. -/
def maxWidthFrom (col : Nat) (maxW : Int) : List Row → Int → Option Int
  | [], w => some w
  | l :: rest, w =>
    match l[col]? with
    | none => none
    | some cell => maxWidthFrom col maxW rest (maxWidthStep maxW w cell)

/-- The closure `maxWidth` (lines 29-42). -/
def maxWidth (rows : List Row) (col : Nat) (maxW : Int) : Option Int :=
  maxWidthFrom col maxW rows 0

/-- The closure `subStr` (lines 43-51) for a start index that is not negative;
`none` when the slice bounds are out of order. -/
def subStr (str : GoString) (s : Nat) (e : Int) : Option GoString :=
  let s := if s > str.length then str.length else s
  let e := if e > (str.length : Int) then (str.length : Int) else e
  if (s : Int) ≤ e then some ((str.drop s).take (e.toNat - s)) else none

/-- Go `strings.Repeat` of a one-byte string; `none` for a negative count. -/
def repeatByte (c : Char) (n : Int) : Option GoString :=
  if n < 0 then none else some (List.replicate n.toNat c)

/-- The loop of lines 55-62 from column `i` on: the widths of the columns
`i, i+1, ...`, `n` of them. -/
def widthsFrom (rows : List Row) (limitWidths : List Int) : Nat → Nat → Option (List Int)
  | _, 0 => some []
  | i, n + 1 =>
    match maxWidth rows i (if i < limitWidths.length then limitWidths.getD i (-1) else -1) with
    | none => none
    | some w =>
      match widthsFrom rows limitWidths (i + 1) n with
      | none => none
      | some ws => some (w :: ws)

/-- Lines 53-71: the column widths.  `terminalWidth` is what `terminal.GetSize`
reports, `none` when it fails (line 67 then takes 80). -/
def computeWidths (terminalWidth : Option Int) (rows : List Row) (cols : Nat)
    (limitWidths : List Int) : Option (List Int) :=
  match widthsFrom rows limitWidths 0 cols with
  | none => none
  | some widths =>
    let widthSum := widths.sum
    if limitWidths.length < cols then
      let tw := terminalWidth.getD 80
      some (widths.set limitWidths.length (tw - widthSum - ((cols : Int) - 1) * 3 - 4))
    else some widths

/-- The loop of lines 74-79: the dashes of the separator line between `+-` and `-+`. -/
def hsepCells : List Int → Option GoString
  | [] => some []
  | w :: ws =>
    match repeatByte '-' w, hsepCells ws with
    | some dashes, some rest => some (dashes ++ (if ws.isEmpty then [] else "-+-".toList) ++ rest)
    | _, _ => none

/-- Lines 73-80: the separator line, newline included. -/
def hsepLine (widths : List Int) : Option GoString :=
  (hsepCells widths).map (fun cells => "+-".toList ++ cells ++ "-+\n".toList)

/-- Lines 92-96: whether some column has text left; `none` when the row has
fewer cells than there are columns. -/
def anyLess : List Nat → Row → Option Bool
  | [], _ => some false
  | _ :: _, [] => none
  | p :: ps, cell :: cells => (anyLess ps cells).map (fun r => decide (p < cell.length) || r)

/-- Go `strings.IndexRune(x, '\n')`: the index of the first newline byte. -/
def indexNewline : GoString → Option Nat
  | [] => none
  | c :: rest => if c = '\n' then some 0 else (indexNewline rest).map (fun i => i + 1)

/-- Lines 103-111 for one column of width `w`: the bytes written (text and
padding) and the new position. -/
def wrapCell (w : Int) (cell : GoString) (pos : Nat) : Option (GoString × Nat) :=
  match subStr cell pos (pos + w) with
  | none => none
  | some x =>
    let r : GoString × Nat :=
      match indexNewline x with
      | some newLine => (x.take newLine, pos + 1)
      | none => (x, pos)
    let x := r.1
    let pos := r.2 + x.length
    match repeatByte ' ' (w - x.length) with
    | none => none
    | some pad => some (x ++ pad, pos)

/-- The loop of lines 102-115 over the columns: the bytes written between `| `
and ` |` and the new positions; `none` on a crash. -/
def wrapCells : List Int → Row → List Nat → Option (GoString × List Nat)
  | [], _, _ => some ([], [])
  | w :: ws, cell :: cells, p :: ps =>
    match wrapCell w cell p, wrapCells ws cells ps with
    | some (txt, p1), some (rest, ps1) =>
      some (txt ++ (if ws.isEmpty then [] else " | ".toList) ++ rest, p1 :: ps1)
    | _, _ => none
  | _ :: _, _, _ => none

/-- The loop of lines 90-117 for one row, at most `fuel` passes. -/
def wrapLoop (widths : List Int) (l : Row) : Nat → List Nat → GoString → Exec GoString
  | 0, _, _ => .outOfFuel
  | fuel + 1, pos, buf =>
    match anyLess pos l with
    | none => .panic
    | some false => .done buf
    | some true =>
      match wrapCells widths l pos with
      | none => .panic
      | some (line, pos1) =>
        wrapLoop widths l fuel pos1 (buf ++ "| ".toList ++ line ++ " |\n".toList)

/-- The loop of lines 85-119 over the rows; every row may take `fuel` passes. -/
def renderRows (fuel : Nat) (widths : List Int) (hsep : GoString) :
    List Row → GoString → Exec GoString
  | [], buf => .done buf
  | l :: rest, buf =>
    match wrapLoop widths l fuel (List.replicate widths.length 0) buf with
    | .done buf1 => renderRows fuel widths hsep rest (buf1 ++ hsep)
    | .panic => .panic
    | .outOfFuel => .outOfFuel

/-- Lines 26-121. -/
def PrettyTable.Render (fuel : Nat) (terminalWidth : Option Int) (t : PrettyTable)
    (limitWidths : List Int) : Exec GoString :=
  match t.rows with
  | [] => .panic
  | header :: _ =>
    match computeWidths terminalWidth t.rows header.length limitWidths with
    | none => .panic
    | some widths =>
      match hsepLine widths with
      | none => .panic
      | some hsep => renderRows fuel widths hsep t.rows hsep

/-! ## Example table -/

/-- A table with the one row `a | bbbb`. -/
def exTable : PrettyTable := ⟨[["a".toList, "bbbb".toList]]⟩

/-! ## `PrettyTable.SortRows` -/

/-- The cell the comparison of line 22 reads in a row, for a column index
`col` that is in range: the cell of column `col`. -/
def sortKey (col : Int) (r : Row) : GoString := r.getD col.toNat []

/-- The row `a` may stay before the row `b`: the closure of line 22 does not
say that the cell of `b` is less than the cell of `a` in the byte-wise order. -/
def rowLE (col : Int) (a b : Row) : Prop := ¬ (sortKey col b < sortKey col a)

instance rowLE.decidable (col : Int) : DecidableRel (rowLE col) :=
  fun a b => inferInstanceAs (Decidable (¬ (sortKey col b < sortKey col a)))

/-- The index expression `r[col]` of line 22 is in range: Go panics on a
negative index and on an index past the last cell. -/
def cellInRange (col : Int) (r : Row) : Bool := decide (0 ≤ col) && decide (col < r.length)

/-- Go's `sort.SliceStable` (standard library) with the closure of line 22,
after its documentation: it sorts by the closure and keeps equal elements in
their original order.  With fewer than two rows the closure is never called;
otherwise it reads the cell `col` of every row and panics when that index is
out of range for a row. -/
def SliceStable (rows : List Row) (col : Int) : Option (List Row) :=
  if rows.length ≤ 1 then some rows
  else if rows.all (cellInRange col) then some (rows.insertionSort (rowLE col))
  else none

/-- Lines 20-24 for the Go `int` parameter `col`; `none` when the slice
`t.rows[1:]` or the cell index is out of range. -/
def PrettyTable.SortRows (t : PrettyTable) (col : Int) : Option PrettyTable :=
  match t.rows with
  | [] => none
  | header :: body => (SliceStable body col).map (fun b => ⟨header :: b⟩)

/-- A table with a header and three rows, two of them with the key `b`. -/
def exSortTable : PrettyTable :=
  ⟨[["name".toList, "kind".toList], ["x".toList, "b".toList], ["y".toList, "a".toList],
    ["z".toList, "b".toList]]⟩

/-! ## Lines of the rendered table -/

/-- The text a column still has to print, summed over the columns. -/
def remaining : List Nat → Row → Nat
  | p :: ps, cell :: cells => (cell.length - p) + remaining ps cells
  | _, _ => 0

/-- The lines, each followed by a newline byte. -/
def unlines : List GoString → GoString
  | [] => []
  | l :: ls => l ++ '\n' :: unlines ls

/-- Splitting at the newline bytes, `cur` being the line read so far. -/
def splitLinesFrom (cur : GoString) : GoString → List GoString
  | [] => if cur.isEmpty then [] else [cur]
  | c :: rest => if c = '\n' then cur :: splitLinesFrom [] rest else splitLinesFrom (cur ++ [c]) rest

/-- The lines of a text, without their newline bytes. -/
def splitLines (s : GoString) : List GoString := splitLinesFrom [] s

/-- The lines of the rows, each row's lines followed by the separator line. -/
def blocksLines (sep : GoString) : List (List GoString) → List GoString
  | [] => []
  | b :: bs => b ++ sep :: blocksLines sep bs

/-! ## Example tables -/

/-- A table with a header and one row whose cells wrap. -/
def exWrapTable : PrettyTable :=
  ⟨[["a".toList, "bbbb".toList], ["hello world".toList, "x\ny".toList]]⟩

/-- A table with the single cell `a`. -/
def exCellTable : PrettyTable := ⟨[["a".toList]]⟩

/-! ## Line length -/

/-- The byte length of every line of a table with the given column widths. -/
def lineLength (widths : List Int) : Nat :=
  4 + (widths.map Int.toNat).sum + 3 * (widths.length - 1)

/-- A table whose header row has no cell. -/
def exEmptyHeaderTable : PrettyTable := ⟨[[]]⟩

/-! ## Example project without secrets configuration -/

/-- Collaborators of one sealing on a project whose `Config.SecretsConfig` is
nil: the context built for `prod` holds that project and the declared target
`prod`, the context built for another name holds the base target of that name;
each of these targets names the secret set `db`, and every collaborator call
succeeds. -/
def exSealEnvNoSecrets : SealEnv :=
  { exSealEnv with
    withProjectTargetCommandContext := fun targetName =>
      if targetName = "prod" then .ok ⟨⟨none⟩, exProd.Target, none⟩
      else .ok ⟨⟨none⟩, ⟨targetName, none, some ⟨["db"], none⟩⟩, none⟩ }

/-- The collaborators of `Run` on the project without secrets configuration:
every base target exists, and each sealing is `runCmdSealForTarget` on that project. -/
def exEnvNoSecrets : RunEnv :=
  RunEnv.ofProject exCmd exSealEnvNoSecrets ⟨none⟩ exEnvOk.FindBaseTarget

/-- A target without cluster reference that is sealed under its own name. -/
def exFree : DynamicTarget := ⟨⟨"free", none, some ⟨["db"], none⟩⟩, "free"⟩
/-! # Theorems -/

/-! ## The loop of `Run` -/

theorem loopBody_eq (cmd : sealCmd) (env : RunEnv) (i : Nat) (t : DynamicTarget) (st : LoopState) :
    loopBody cmd env i t st = applyDecision env i t st (decision cmd env t st.baseTargets) := by
  unfold loopBody decision
  by_cases h1 : nameFilterPasses cmd t <;> by_cases h2 : clusterFilterPasses cmd t <;>
    simp [h1, h2, applyDecision]
  cases hsc : t.Target.SealingConfig with
  | none => simp [applyDecision]
  | some sc =>
    by_cases h3 : sealsBaseTarget sc t <;> simp [h3, applyDecision]
    cases hf : env.FindBaseTarget t.BaseTargetName with
    | error err => simp [applyDecision]
    | ok b =>
      by_cases h4 : t.BaseTargetName ∈ st.baseTargets <;> simp [h4, applyDecision]

theorem runLoop_cons (cmd : sealCmd) (env : RunEnv) (i : Nat) (t : DynamicTarget)
    (rest : List DynamicTarget) (st : LoopState) :
    runLoop cmd env i (t :: rest) st =
      match applyDecision env i t st (decision cmd env t st.baseTargets) with
      | (st1, some exit) => (st1, some exit)
      | (st1, none) => runLoop cmd env (i + 1) rest st1 := by
  rw [runLoop, loopBody_eq]

/-- The call of line 173 in terms of the recorded state and the panic test. -/
theorem seal_eq (env : RunEnv) (i : Nat) (name : String) (st : LoopState) :
    LoopState.seal env i name st =
      (st.recordCall env i name, if st.sealPanics env name = true then some .crashed else none) := by
  unfold LoopState.seal LoopState.recordCall LoopState.sealPanics
  cases h : env.sealOutcome (st.calls.map SealCall.name) name <;> simp [SealCall.failed]

/-- After the call of line 173 the loop goes on unless the call panicked. -/
theorem runLoop_after_seal (cmd : sealCmd) (env : RunEnv) (i j : Nat) (name : String)
    (rest : List DynamicTarget) (st : LoopState) :
    (match LoopState.seal env i name st with
      | (st1, some exit) => (st1, some exit)
      | (st1, none) => runLoop cmd env j rest st1) =
      if st.sealPanics env name = true then (st.recordCall env i name, some LoopExit.crashed)
      else runLoop cmd env j rest (st.recordCall env i name) := by
  rw [seal_eq]
  by_cases h : st.sealPanics env name = true <;> simp [h]

theorem sealPanics_of_noCrash {env : RunEnv} (hnc : env.NoCrash) (name : String)
    (st : LoopState) : st.sealPanics env name = false := by
  unfold LoopState.sealPanics
  have := hnc (st.calls.map SealCall.name) name
  split
  · rename_i h; exact absurd h this
  · rfl

theorem seal_of_noCrash {env : RunEnv} (hnc : env.NoCrash) (i : Nat) (name : String)
    (st : LoopState) : LoopState.seal env i name st = (st.recordCall env i name, none) := by
  simp [seal_eq, sealPanics_of_noCrash hnc]

theorem decision_selected (cmd : sealCmd) (env : RunEnv) (t : DynamicTarget) (seen : List String) :
    selectedForSealing cmd t =
      match decision cmd env t seen with
      | .filtered => false
      | .noSealingConfig => false
      | _ => true := by
  unfold decision selectedForSealing passesFilters
  by_cases h1 : nameFilterPasses cmd t <;> by_cases h2 : clusterFilterPasses cmd t <;>
    simp [h1, h2]
  cases hsc : t.Target.SealingConfig with
  | none => simp
  | some sc =>
    by_cases h3 : sealsBaseTarget sc t <;> simp [h3]
    cases hf : env.FindBaseTarget t.BaseTargetName with
    | error err => simp
    | ok b => by_cases h4 : t.BaseTargetName ∈ seen <;> simp [h4]

theorem decision_needsBase (cmd : sealCmd) (env : RunEnv) (t : DynamicTarget) (seen : List String) :
    needsBaseTarget cmd t =
      match decision cmd env t seen with
      | .abort _ => true
      | .covered => true
      | .sealBase _ => true
      | _ => false := by
  unfold decision needsBaseTarget passesFilters
  by_cases h1 : nameFilterPasses cmd t <;> by_cases h2 : clusterFilterPasses cmd t <;>
    simp [h1, h2]
  cases hsc : t.Target.SealingConfig with
  | none => simp
  | some sc =>
    by_cases h3 : sealsBaseTarget sc t <;> simp [h3]
    cases hf : env.FindBaseTarget t.BaseTargetName with
    | error err => simp
    | ok b => by_cases h4 : t.BaseTargetName ∈ seen <;> simp [h4]

theorem decision_abort {cmd : sealCmd} {env : RunEnv} {t : DynamicTarget} {seen : List String}
    {err : String} (h : decision cmd env t seen = .abort err) :
    needsBaseTarget cmd t = true ∧ env.FindBaseTarget t.BaseTargetName = .error err := by
  refine ⟨by rw [decision_needsBase cmd env t seen, h], ?_⟩
  unfold decision at h
  split at h <;> try contradiction
  split at h <;> try contradiction
  split at h <;> try contradiction
  split at h <;> try contradiction
  split at h
  · rename_i he; injection h with h; rw [he, h]
  · split at h <;> contradiction

theorem decision_covered {cmd : sealCmd} {env : RunEnv} {t : DynamicTarget} {seen : List String}
    (h : decision cmd env t seen = .covered) :
    t.BaseTargetName ∈ seen ∧ ∃ b, env.FindBaseTarget t.BaseTargetName = .ok b := by
  unfold decision at h
  split at h <;> try contradiction
  split at h <;> try contradiction
  split at h <;> try contradiction
  split at h <;> try contradiction
  split at h <;> try contradiction
  rename_i b hb
  split at h <;> try contradiction
  rename_i hc
  exact ⟨by simpa using hc, b, hb⟩

theorem decision_sealBase {cmd : sealCmd} {env : RunEnv} {t : DynamicTarget} {seen : List String}
    {name : String} (h : decision cmd env t seen = .sealBase name) :
    t.BaseTargetName ∉ seen ∧
      ∃ b, env.FindBaseTarget t.BaseTargetName = .ok b ∧ b.Name = name := by
  unfold decision at h
  split at h <;> try contradiction
  split at h <;> try contradiction
  split at h <;> try contradiction
  split at h <;> try contradiction
  split at h <;> try contradiction
  rename_i b hb
  split at h <;> try contradiction
  rename_i hc
  injection h with h
  exact ⟨by simpa using hc, b, hb, h⟩

theorem decision_sealSelf {cmd : sealCmd} {env : RunEnv} {t : DynamicTarget} {seen : List String}
    {name : String} (h : decision cmd env t seen = .sealSelf name) :
    name = t.Target.Name := by
  unfold decision at h
  split at h <;> try contradiction
  split at h <;> try contradiction
  split at h <;> try contradiction
  split at h
  · split at h <;> try contradiction
    split at h <;> contradiction
  · injection h with h; exact h.symm

theorem BaseTargetsResolve.tail {cmd : sealCmd} {env : RunEnv} {t : DynamicTarget}
    {rest : List DynamicTarget} (h : BaseTargetsResolve cmd env (t :: rest)) :
    BaseTargetsResolve cmd env rest :=
  fun u hu => h u (List.mem_cons_of_mem _ hu)

theorem BaseTargetsResolve.not_abort {cmd : sealCmd} {env : RunEnv} {t : DynamicTarget}
    {rest : List DynamicTarget} (h : BaseTargetsResolve cmd env (t :: rest))
    (seen : List String) (err : String) : decision cmd env t seen ≠ .abort err := by
  intro hd
  obtain ⟨hn, he⟩ := decision_abort hd
  obtain ⟨b, hb⟩ := h t (List.mem_cons_self _ _) hn
  rw [hb] at he
  cases he

/-- With base-target resolution succeeding and no call panicking the loop runs
to its end. -/
theorem runLoop_no_abort (cmd : sealCmd) (env : RunEnv) (hnc : env.NoCrash)
    (ts : List DynamicTarget) :
    ∀ (i : Nat) (st : LoopState), BaseTargetsResolve cmd env ts →
      (runLoop cmd env i ts st).2 = none := by
  induction ts with
  | nil => intro i st _; rfl
  | cons t rest ih =>
    intro i st h
    rw [runLoop_cons]
    have hna := h.not_abort st.baseTargets
    cases hd : decision cmd env t st.baseTargets with
    | abort err => exact absurd hd (hna err)
    | _ => simp only [applyDecision, seal_of_noCrash hnc]; exact ih _ _ h.tail

theorem recordCall_errorFlag {env : RunEnv} {i : Nat} {name : String} {st : LoopState}
    (h : st.ErrorFlagOk) : (st.recordCall env i name).ErrorFlagOk := by
  unfold LoopState.ErrorFlagOk at h ⊢
  simp [LoopState.recordCall, h]

theorem runLoop_errorFlag (cmd : sealCmd) (env : RunEnv) (ts : List DynamicTarget) :
    ∀ (i : Nat) (st : LoopState), st.ErrorFlagOk → (runLoop cmd env i ts st).1.ErrorFlagOk := by
  induction ts with
  | nil => intro i st h; exact h
  | cons t rest ih =>
    intro i st h
    rw [runLoop_cons]
    have hseal : ∀ (name : String) (st1 : LoopState), st1.ErrorFlagOk →
        (if st1.sealPanics env name = true then (st1.recordCall env i name, some LoopExit.crashed)
          else runLoop cmd env (i + 1) rest (st1.recordCall env i name)).1.ErrorFlagOk := by
      intro name st1 h1
      split
      · exact recordCall_errorFlag h1
      · exact ih _ _ (recordCall_errorFlag h1)
    cases hd : decision cmd env t st.baseTargets <;>
      simp only [applyDecision, runLoop_after_seal] <;>
      first
        | exact ih _ _ h
        | exact h
        | exact hseal _ _ h

theorem recordCall_matchFlag {env : RunEnv} {i : Nat} {name : String} {st : LoopState}
    (h : st.noTargetMatch = false) : (st.recordCall env i name).MatchFlagOk := by
  simp [LoopState.MatchFlagOk, LoopState.recordCall, h]

theorem runLoop_matchFlag (cmd : sealCmd) (env : RunEnv) (ts : List DynamicTarget) :
    ∀ (i : Nat) (st : LoopState), st.MatchFlagOk → (runLoop cmd env i ts st).1.MatchFlagOk := by
  induction ts with
  | nil => intro i st h; exact h
  | cons t rest ih =>
    intro i st h
    rw [runLoop_cons]
    have hseal : ∀ (name : String) (st1 : LoopState), st1.noTargetMatch = false →
        (if st1.sealPanics env name = true then (st1.recordCall env i name, some LoopExit.crashed)
          else runLoop cmd env (i + 1) rest (st1.recordCall env i name)).1.MatchFlagOk := by
      intro name st1 h1
      split
      · exact recordCall_matchFlag h1
      · exact ih _ _ (recordCall_matchFlag h1)
    cases hd : decision cmd env t st.baseTargets <;>
      simp only [applyDecision, runLoop_after_seal] <;>
      first
        | exact ih _ _ h
        | exact hseal _ _ rfl
        | (apply ih; simp [LoopState.MatchFlagOk])
        | simp [LoopState.MatchFlagOk]

theorem recordCall_noCall {env : RunEnv} {i : Nat} {name : String} {st : LoopState} :
    (st.recordCall env i name).NoCallOk := by
  simp [LoopState.NoCallOk, LoopState.recordCall]

theorem runLoop_noCall (cmd : sealCmd) (env : RunEnv) (ts : List DynamicTarget) :
    ∀ (i : Nat) (st : LoopState), st.NoCallOk → (runLoop cmd env i ts st).2 = none →
      (runLoop cmd env i ts st).1.NoCallOk := by
  induction ts with
  | nil => intro i st h _; exact h
  | cons t rest ih =>
    intro i st h
    rw [runLoop_cons]
    have hseal : ∀ (name : String) (st1 : LoopState),
        (if st1.sealPanics env name = true then (st1.recordCall env i name, some LoopExit.crashed)
          else runLoop cmd env (i + 1) rest (st1.recordCall env i name)).2 = none →
        (if st1.sealPanics env name = true then (st1.recordCall env i name, some LoopExit.crashed)
          else runLoop cmd env (i + 1) rest (st1.recordCall env i name)).1.NoCallOk := by
      intro name st1
      split
      · intro h2; cases h2
      · exact ih _ _ recordCall_noCall
    cases hd : decision cmd env t st.baseTargets with
    | filtered => simp only [applyDecision]; exact ih _ _ h
    | noSealingConfig => simp only [applyDecision]; exact ih _ _ h
    | abort err => simp [applyDecision]
    | covered =>
      simp only [applyDecision]
      apply ih
      intro hc
      have hmem := (decision_covered hd).1
      rw [(h hc).2] at hmem
      cases hmem
    | sealBase name => simp only [applyDecision, runLoop_after_seal]; exact hseal _ _
    | sealSelf name => simp only [applyDecision, runLoop_after_seal]; exact hseal _ _

/-- At the end of the loop `noTargetMatch` is still set exactly when it was set
before and no visited target passed the filters with a `SealingConfig`. -/
theorem runLoop_noTargetMatch (cmd : sealCmd) (env : RunEnv) (ts : List DynamicTarget) :
    ∀ (i : Nat) (st : LoopState),
      ((runLoop cmd env i ts st).1.noTargetMatch = true ↔
        st.noTargetMatch = true ∧ ∀ t ∈ ts, selectedForSealing cmd t = false) := by
  induction ts with
  | nil => intro i st; simp [runLoop]
  | cons t rest ih =>
    intro i st
    rw [runLoop_cons]
    have hs := decision_selected cmd env t st.baseTargets
    have hseal : ∀ (name : String) (st1 : LoopState), st1.noTargetMatch = false →
        (if st1.sealPanics env name = true then (st1.recordCall env i name, some LoopExit.crashed)
          else runLoop cmd env (i + 1) rest (st1.recordCall env i name)).1.noTargetMatch = false := by
      intro name st1 h1
      split
      · simpa [LoopState.recordCall] using h1
      · have := ih (i + 1) (st1.recordCall env i name)
        cases hh : (runLoop cmd env (i + 1) rest (st1.recordCall env i name)).1.noTargetMatch with
        | false => rfl
        | true =>
          have h2 := (this.1 hh).1
          simp [LoopState.recordCall, h1] at h2
    cases hd : decision cmd env t st.baseTargets <;> rw [hd] at hs <;>
      simp only [applyDecision, runLoop_after_seal] <;>
      first
        | (simp [ih, hs]; done)
        | (simp [hs]; exact hseal _ _ rfl)

/-- When the loop is left before its end, `noTargetMatch` has been cleared. -/
theorem runLoop_abort_flag (cmd : sealCmd) (env : RunEnv) (ts : List DynamicTarget) :
    ∀ (i : Nat) (st : LoopState) (exit : LoopExit), (runLoop cmd env i ts st).2 = some exit →
      (runLoop cmd env i ts st).1.noTargetMatch = false := by
  induction ts with
  | nil => intro i st exit h; simp [runLoop] at h
  | cons t rest ih =>
    intro i st exit
    rw [runLoop_cons]
    have hseal : ∀ (name : String) (st1 : LoopState), st1.noTargetMatch = false →
        (if st1.sealPanics env name = true then (st1.recordCall env i name, some LoopExit.crashed)
          else runLoop cmd env (i + 1) rest (st1.recordCall env i name)).2 = some exit →
        (if st1.sealPanics env name = true then (st1.recordCall env i name, some LoopExit.crashed)
          else runLoop cmd env (i + 1) rest (st1.recordCall env i name)).1.noTargetMatch = false := by
      intro name st1 h1
      split
      · intro _; simpa [LoopState.recordCall] using h1
      · exact ih _ _ exit
    cases hd : decision cmd env t st.baseTargets <;>
      simp only [applyDecision, runLoop_after_seal] <;>
      first
        | exact ih _ _ exit
        | exact hseal _ _ rfl
        | simp

/-- A run that panics made a call: its last one. -/
theorem runLoop_crashed_calls (cmd : sealCmd) (env : RunEnv) (ts : List DynamicTarget) :
    ∀ (i : Nat) (st : LoopState), (runLoop cmd env i ts st).2 = some .crashed →
      ∃ c, (runLoop cmd env i ts st).1.calls.getLast? = some c ∧ c.outcome = .panic := by
  induction ts with
  | nil => intro i st h; simp [runLoop] at h
  | cons t rest ih =>
    intro i st
    rw [runLoop_cons]
    have hseal : ∀ (name : String) (st1 : LoopState),
        (if st1.sealPanics env name = true then (st1.recordCall env i name, some LoopExit.crashed)
          else runLoop cmd env (i + 1) rest (st1.recordCall env i name)).2 = some .crashed →
        ∃ c, (if st1.sealPanics env name = true then (st1.recordCall env i name, some LoopExit.crashed)
          else runLoop cmd env (i + 1) rest (st1.recordCall env i name)).1.calls.getLast? = some c ∧
          c.outcome = .panic := by
      intro name st1
      split
      · rename_i hp
        intro _
        refine ⟨⟨i, name, env.sealOutcome (st1.calls.map SealCall.name) name⟩, ?_, ?_⟩
        · simp [LoopState.recordCall]
        · unfold LoopState.sealPanics at hp
          split at hp
          · assumption
          · cases hp
      · exact ih _ _
    cases hd : decision cmd env t st.baseTargets <;>
      simp only [applyDecision, runLoop_after_seal] <;>
      first
        | exact ih _ _
        | exact hseal _ _
        | simp

theorem init_errorFlag : LoopState.init.ErrorFlagOk := by
  simp [LoopState.ErrorFlagOk, LoopState.init]

theorem init_matchFlag : LoopState.init.MatchFlagOk := by
  simp [LoopState.MatchFlagOk, LoopState.init]

theorem init_noCall : LoopState.init.NoCallOk := by
  simp [LoopState.NoCallOk, LoopState.init]

/-! ## Flags and result of `Run` -/

theorem decision_congr (cmd : sealCmd) (env1 env2 : RunEnv) (t : DynamicTarget)
    (seen : List String) (h : env1.FindBaseTarget = env2.FindBaseTarget) :
    decision cmd env1 t seen = decision cmd env2 t seen := by
  unfold decision
  rw [h]

/-- As long as no call panics, the calls the loop makes do not depend on what
earlier calls returned. -/
theorem runLoop_sameUnits (cmd : sealCmd) (env1 env2 : RunEnv)
    (h : env1.FindBaseTarget = env2.FindBaseTarget) (hnc1 : env1.NoCrash) (hnc2 : env2.NoCrash)
    (ts : List DynamicTarget) :
    ∀ (i : Nat) (st1 st2 : LoopState), st1.SameUnits st2 →
      (runLoop cmd env1 i ts st1).1.SameUnits (runLoop cmd env2 i ts st2).1 := by
  induction ts with
  | nil => intro i st1 st2 hs; exact hs
  | cons t rest ih =>
    intro i st1 st2 hs
    rw [runLoop_cons, runLoop_cons, decision_congr cmd env1 env2 t _ h, hs.1]
    cases hd : decision cmd env2 t st2.baseTargets <;>
      simp only [applyDecision, seal_of_noCrash hnc1, seal_of_noCrash hnc2] <;>
      first
        | exact ih _ _ _ hs
        | exact hs
        | (apply ih; simp [LoopState.SameUnits, LoopState.recordCall, hs.1, hs.2])

theorem Run_final (cmd : sealCmd) (env : RunEnv) (ts : List DynamicTarget) :
    (Run cmd env ts).final = (runLoop cmd env 0 ts LoopState.init).1 := by
  unfold Run
  split
  · rename_i h; rw [h]
  · rename_i h; rw [h]
  · rename_i h; rw [h]; split
    · rfl
    · split <;> rfl

theorem Run_result_of_no_abort (cmd : sealCmd) (env : RunEnv) (ts : List DynamicTarget)
    (h : (runLoop cmd env 0 ts LoopState.init).2 = none) :
    (Run cmd env ts).result =
      if (Run cmd env ts).final.hadError then .sealingFailed
      else if (Run cmd env ts).final.noTargetMatch then .noTargetMatched
      else .success := by
  rw [Run_final]
  unfold Run
  split
  · rename_i h1; rw [h1] at h; cases h
  · rename_i h1; rw [h1] at h; cases h
  · rename_i h1; rw [h1]; split
    · rfl
    · split <;> rfl

theorem Run_result_of_abort (cmd : sealCmd) (env : RunEnv) (ts : List DynamicTarget)
    (err : String) (h : (runLoop cmd env 0 ts LoopState.init).2 = some (.returned err)) :
    (Run cmd env ts).result = .baseTargetError err := by
  unfold Run
  split
  · rename_i h1; rw [h1] at h; cases h; rfl
  · rename_i h1; rw [h1] at h; cases h
  · rename_i h1; rw [h1] at h; cases h

theorem Run_result_of_crash (cmd : sealCmd) (env : RunEnv) (ts : List DynamicTarget)
    (h : (runLoop cmd env 0 ts LoopState.init).2 = some .crashed) :
    (Run cmd env ts).result = .crashed := by
  unfold Run
  split
  · rename_i h1; rw [h1] at h; cases h
  · rfl
  · rename_i h1; rw [h1] at h; cases h

/-- The flags `hadError` and `noTargetMatch` are never both set when the loop ends. -/
theorem Run_flags_exclusive (cmd : sealCmd) (env : RunEnv) (ts : List DynamicTarget) :
    ¬ ((Run cmd env ts).final.hadError = true ∧ (Run cmd env ts).final.noTargetMatch = true) := by
  rw [Run_final]
  rintro ⟨he, hm⟩
  have h1 := runLoop_errorFlag cmd env ts 0 _ init_errorFlag
  have h2 := runLoop_matchFlag cmd env ts 0 _ init_matchFlag
  rw [LoopState.ErrorFlagOk, (h2 hm).1] at h1
  rw [h1] at he
  simp at he

/-- `Run` ends with the no-target-matched error exactly when no declared target
passes the filters with a `SealingConfig`. -/
theorem Run_noTargetMatched_iff (cmd : sealCmd) (env : RunEnv) (ts : List DynamicTarget) :
    (Run cmd env ts).result = .noTargetMatched ↔ ∀ t ∈ ts, selectedForSealing cmd t = false := by
  have hflag := runLoop_noTargetMatch cmd env ts 0 LoopState.init
  have hexcl := Run_flags_exclusive cmd env ts
  rw [Run_final] at hexcl
  cases hab : (runLoop cmd env 0 ts LoopState.init).2 with
  | some exit =>
    have hnm := runLoop_abort_flag cmd env ts 0 _ exit hab
    have hne : (Run cmd env ts).result ≠ .noTargetMatched := by
      cases exit with
      | returned err => rw [Run_result_of_abort cmd env ts err hab]; intro h; cases h
      | crashed => rw [Run_result_of_crash cmd env ts hab]; intro h; cases h
    constructor
    · intro h; exact absurd h hne
    · intro h
      have := hflag.2 ⟨rfl, h⟩
      rw [hnm] at this
      cases this
  | none =>
    rw [Run_result_of_no_abort cmd env ts hab, Run_final]
    constructor
    · intro h
      split at h
      · cases h
      · split at h
        · rename_i hm; exact (hflag.1 hm).2
        · cases h
    · intro h
      have hm := hflag.2 ⟨rfl, h⟩
      have he : (runLoop cmd env 0 ts LoopState.init).1.hadError = false := by
        cases hh : (runLoop cmd env 0 ts LoopState.init).1.hadError with
        | false => rfl
        | true => exact absurd ⟨hh, hm⟩ hexcl
      simp [he, hm]

/-! ## Aggregation of unit outcomes -/

theorem exEnv_resolves (ts : List DynamicTarget) : BaseTargetsResolve exCmd exEnv ts :=
  fun _ _ _ => ⟨_, rfl⟩

theorem exEnvOk_resolves (cmd : sealCmd) (ts : List DynamicTarget) :
    BaseTargetsResolve cmd exEnvOk ts :=
  fun _ _ _ => ⟨_, rfl⟩

theorem exEnv_noCrash : exEnv.NoCrash := by
  intro history name
  simp only [exEnv]
  split <;> simp

theorem exEnvOk_noCrash : exEnvOk.NoCrash := by
  intro history name
  simp [exEnvOk]

/-- In a run in which base-target resolution succeeds and no call of
`runCmdSealForTarget` panics, the value `Run` returns is determined by the calls
it made: no-target-matched if no target passed the filters with a
`SealingConfig`, which is exactly when no call was made; else the sealing
failure if some call returned an error; else success. -/
theorem Run_result_of_outcomes (cmd : sealCmd) (env : RunEnv) (ts : List DynamicTarget)
    (hnc : env.NoCrash) (hres : BaseTargetsResolve cmd env ts) :
    (Run cmd env ts).result =
        aggregateResult (ts.any (selectedForSealing cmd))
          ((Run cmd env ts).final.calls.map SealCall.failed) ∧
      ((Run cmd env ts).final.calls = [] ↔ ts.any (selectedForSealing cmd) = false) ∧
      (Run cmd env ts).result =
        (if (Run cmd env ts).final.noTargetMatch then .noTargetMatched
         else if (Run cmd env ts).final.hadError then .sealingFailed
         else .success) := by
  have hab := runLoop_no_abort cmd env hnc ts 0 LoopState.init hres
  have hexcl := Run_flags_exclusive cmd env ts
  have hres1 := Run_result_of_no_abort cmd env ts hab
  have herr := runLoop_errorFlag cmd env ts 0 _ init_errorFlag
  have hmf := runLoop_matchFlag cmd env ts 0 _ init_matchFlag
  have hncall := runLoop_noCall cmd env ts 0 _ init_noCall hab
  have hflag := runLoop_noTargetMatch cmd env ts 0 LoopState.init
  rw [← Run_final] at herr hmf hncall hflag
  unfold LoopState.ErrorFlagOk at herr
  have hsel : ts.any (selectedForSealing cmd) = false ↔
      (Run cmd env ts).final.noTargetMatch = true := by
    rw [hflag]
    simp [LoopState.init]
  refine ⟨?_, ?_, ?_⟩
  · rw [hres1]
    unfold aggregateResult
    cases hm : (Run cmd env ts).final.noTargetMatch with
    | true =>
      have hs := hsel.2 hm
      have he : (Run cmd env ts).final.hadError = false := by
        cases hh : (Run cmd env ts).final.hadError with
        | false => rfl
        | true => exact absurd ⟨hh, hm⟩ hexcl
      simp [hs, he]
    | false =>
      have hs : ts.any (selectedForSealing cmd) = true := by
        cases hh : ts.any (selectedForSealing cmd) with
        | true => rfl
        | false => rw [hsel.1 hh] at hm; cases hm
      rw [hs, herr]
      simp [List.any_map, Function.comp_def]
  · rw [hsel]
    exact ⟨fun h => (hncall h).1, fun h => (hmf h).1⟩
  · rw [hres1]
    cases hm : (Run cmd env ts).final.noTargetMatch with
    | true =>
      have he : (Run cmd env ts).final.hadError = false := by
        cases hh : (Run cmd env ts).final.hadError with
        | false => rfl
        | true => exact absurd ⟨hh, hm⟩ hexcl
      simp [he]
    | false => simp

/-- The example project: the run fails because sealing `feat` returned an error. -/
theorem Run_result_of_outcomes_example :
    (Run exCmd exEnv exTargets).result =
        aggregateResult (exTargets.any (selectedForSealing exCmd))
          ((Run exCmd exEnv exTargets).final.calls.map SealCall.failed) ∧
      (Run exCmd exEnv exTargets).result = .sealingFailed :=
  ⟨(Run_result_of_outcomes exCmd exEnv exTargets exEnv_noCrash (exEnv_resolves exTargets)).1,
   by decide⟩

/-- C5: `Run` does not return the aggregate of the specification.  With
`--target local` the declared target `local` passes both filters, so a target
was selected; no call returned an error, so the aggregate of the specification
is success, while `Run` returns the no-target-matched error: `local` has no
`SealingConfig` and line 153 skips it before line 155 clears `noTargetMatch`.
And on the project without secrets configuration the call for `prod` panics, so
`Run` returns no value at all. -/
theorem Run_result_differs_from_aggregate :
    exTargets.any (passesFilters exCmdLocal) = true ∧
      (Run exCmdLocal exEnvOk exTargets).final.calls = [] ∧
      aggregateResult (exTargets.any (passesFilters exCmdLocal))
        ((Run exCmdLocal exEnvOk exTargets).final.calls.map SealCall.failed) = .success ∧
      (Run exCmdLocal exEnvOk exTargets).result = .noTargetMatched ∧
      (Run exCmd exEnvNoSecrets exTargets).result = .crashed := by
  decide

/-- In runs in which base-target resolution succeeds and no call of
`runCmdSealForTarget` panics, an error returned by a call does not stop the
iteration: the calls made (visited position and name passed) are the same
whatever each call returns, and `Run` returns the at-least-one-target-failed
error exactly when one of its calls returned an error. -/
theorem Run_continues_after_error (cmd : sealCmd) (find : String → Except String Target)
    (outcome1 outcome2 : List String → String → Outcome Unit) (ts : List DynamicTarget)
    (hnc1 : RunEnv.NoCrash ⟨find, outcome1⟩) (hnc2 : RunEnv.NoCrash ⟨find, outcome2⟩)
    (hres : BaseTargetsResolve cmd ⟨find, outcome1⟩ ts) :
    (Run cmd ⟨find, outcome1⟩ ts).unitNames = (Run cmd ⟨find, outcome2⟩ ts).unitNames ∧
      (Run cmd ⟨find, outcome1⟩ ts).final.calls.map SealCall.index =
        (Run cmd ⟨find, outcome2⟩ ts).final.calls.map SealCall.index ∧
      ((Run cmd ⟨find, outcome1⟩ ts).result = .sealingFailed ↔
        ∃ c ∈ (Run cmd ⟨find, outcome1⟩ ts).final.calls, c.failed = true) := by
  have hsame := runLoop_sameUnits cmd ⟨find, outcome1⟩ ⟨find, outcome2⟩ rfl hnc1 hnc2 ts 0 _ _
    (⟨rfl, rfl⟩ : LoopState.init.SameUnits LoopState.init)
  rw [← Run_final, ← Run_final] at hsame
  have h2 := hsame.2
  refine ⟨?_, ?_, ?_⟩
  · have := congrArg (List.map Prod.snd) h2
    simpa [RunTrace.unitNames, Function.comp_def] using this
  · have := congrArg (List.map Prod.fst) h2
    simpa [Function.comp_def] using this
  · have hab := runLoop_no_abort cmd ⟨find, outcome1⟩ hnc1 ts 0 LoopState.init hres
    have herr := runLoop_errorFlag cmd ⟨find, outcome1⟩ ts 0 _ init_errorFlag
    rw [← Run_final] at herr
    unfold LoopState.ErrorFlagOk at herr
    rw [Run_result_of_no_abort cmd _ ts hab]
    cases he : (Run cmd ⟨find, outcome1⟩ ts).final.hadError with
    | true =>
      rw [he] at herr
      simp only [if_true, true_iff]
      simpa using herr.symm
    | false =>
      rw [he] at herr
      have hnone : ¬ ∃ c ∈ (Run cmd ⟨find, outcome1⟩ ts).final.calls, c.failed = true := by
        intro ⟨c, hc, hf⟩
        have : (Run cmd ⟨find, outcome1⟩ ts).final.calls.any SealCall.failed = true :=
          List.any_eq_true.2 ⟨c, hc, hf⟩
        rw [← herr] at this
        cases this
      constructor
      · intro h
        split at h
        · contradiction
        · split at h <;> cases h
      · intro h; exact absurd h hnone

/-- The example project: `feat` returns an error, and the same units are sealed
as when nothing fails. -/
theorem Run_continues_after_error_example :
    (Run exCmd exEnv exTargets).unitNames = (Run exCmd exEnvOk exTargets).unitNames ∧
      (Run exCmd exEnv exTargets).unitNames = ["prod", "feat"] ∧
      (Run exCmd exEnv exTargets).result = .sealingFailed :=
  ⟨(Run_continues_after_error exCmd exEnv.FindBaseTarget exEnv.sealOutcome exEnvOk.sealOutcome
      exTargets exEnv_noCrash exEnvOk_noCrash (exEnv_resolves exTargets)).1,
   by decide, by decide⟩

/-- C8: a unit whose sealing fails can stop the iteration.  On the project
without secrets configuration the sealing of `prod` fails at its secret-set
lookup by the nil dereference of line 33; the panic ends `Run`, so only `prod`
is passed to `runCmdSealForTarget` and `Run` returns no error value, while the
same declared targets with the same base-target lookup lead to the calls `prod`
and `feat` when the sealings succeed or return an error. -/
theorem Run_crash_stops_iteration :
    (exEnvNoSecrets.FindBaseTarget "feat").toOption = (exEnvOk.FindBaseTarget "feat").toOption ∧
      (Run exCmd exEnvNoSecrets exTargets).final.calls = [⟨0, "prod", .panic⟩] ∧
      (Run exCmd exEnvNoSecrets exTargets).unitNames = ["prod"] ∧
      (Run exCmd exEnvNoSecrets exTargets).result = .crashed ∧
      (Run exCmd exEnvOk exTargets).unitNames = ["prod", "feat"] ∧
      (Run exCmd exEnv exTargets).unitNames = ["prod", "feat"] := by
  decide

/-! ## Targets sharing a base target -/

theorem inBaseGroup_eq (cmd : sealCmd) (B : String) (t : DynamicTarget) :
    inBaseGroup cmd B t = (needsBaseTarget cmd t && (t.BaseTargetName == B)) := by
  unfold inBaseGroup needsBaseTarget sealsBaseTarget
  cases hsc : t.Target.SealingConfig with
  | none => simp
  | some sc =>
    obtain ⟨sets, ds⟩ := sc
    rcases ds with _ | _ | _ <;> simp

theorem filter_calls_recordCall (env : RunEnv) (i : Nat) (name : String) (st : LoopState)
    (P : Nat → Bool) :
    (LoopState.recordCall env i name st).calls.filter (fun c => P c.index) =
      st.calls.filter (fun c => P c.index) ++
        (if P i then [⟨i, name, env.sealOutcome (st.calls.map SealCall.name) name⟩] else []) := by
  unfold LoopState.recordCall
  cases hp : P i <;> simp [List.filter_append, List.filter_cons, hp]

/-- Once `B` is recorded, or when no later target belongs to the group of `B`,
a loop in which no call panics makes no further call on behalf of that group. -/
theorem runLoop_group_done (cmd : sealCmd) (env : RunEnv) (hnc : env.NoCrash) (B : String)
    (P : Nat → Bool) (ts : List DynamicTarget) :
    ∀ (i : Nat) (st : LoopState),
      (∀ j t, ts[j]? = some t → P (i + j) = inBaseGroup cmd B t) →
      (B ∈ st.baseTargets ∨ ∀ t ∈ ts, inBaseGroup cmd B t = false) →
      (runLoop cmd env i ts st).1.calls.filter (fun c => P c.index) =
        st.calls.filter (fun c => P c.index) := by
  induction ts with
  | nil => intro i st _ _; rfl
  | cons t rest ih =>
    intro i st hP hor
    have hP0 : P i = inBaseGroup cmd B t := by simpa using hP 0 t (by simp)
    have hPr : ∀ j u, rest[j]? = some u → P (i + 1 + j) = inBaseGroup cmd B u := by
      intro j u hu
      have := hP (j + 1) u (by simpa using hu)
      rw [← this]; congr 1; omega
    have hnb := decision_needsBase cmd env t st.baseTargets
    rw [runLoop_cons]
    cases hd : decision cmd env t st.baseTargets with
    | filtered =>
      simp only [applyDecision, seal_of_noCrash hnc]
      exact ih _ _ hPr (hor.imp id (fun h u hu => h u (List.mem_cons_of_mem _ hu)))
    | noSealingConfig =>
      simp only [applyDecision, seal_of_noCrash hnc]
      exact ih _ _ hPr (hor.imp id (fun h u hu => h u (List.mem_cons_of_mem _ hu)))
    | abort err => simp only [applyDecision, seal_of_noCrash hnc]
    | covered =>
      simp only [applyDecision, seal_of_noCrash hnc]
      exact ih _ _ hPr (hor.imp id (fun h u hu => h u (List.mem_cons_of_mem _ hu)))
    | sealBase name =>
      simp only [applyDecision, seal_of_noCrash hnc]
      rw [hd] at hnb
      have hnot := (decision_sealBase hd).1
      have hg : inBaseGroup cmd B t = false := by
        rcases hor with hmem | hall
        · rw [inBaseGroup_eq, hnb]
          simp only [Bool.true_and, beq_eq_false_iff_ne, ne_eq]
          intro he; rw [he] at hnot; exact hnot hmem
        · exact hall t (List.mem_cons_self _ _)
      rw [ih _ _ hPr (by
        rcases hor with hmem | hall
        · left; simp [LoopState.recordCall, hmem]
        · right; exact fun u hu => hall u (List.mem_cons_of_mem _ hu))]
      rw [filter_calls_recordCall, hP0, hg]
      simp
    | sealSelf name =>
      simp only [applyDecision, seal_of_noCrash hnc]
      rw [hd] at hnb
      have hg : inBaseGroup cmd B t = false := by rw [inBaseGroup_eq, hnb]; simp
      rw [ih _ _ hPr (by
        rcases hor with hmem | hall
        · left; simp [LoopState.recordCall, hmem]
        · right; exact fun u hu => hall u (List.mem_cons_of_mem _ hu))]
      rw [filter_calls_recordCall, hP0, hg]
      simp

/-- In a loop in which no call panics, the first target of the group of `B`
triggers the only call made on behalf of the group. -/
theorem runLoop_group_first (cmd : sealCmd) (env : RunEnv) (hnc : env.NoCrash) (B : String)
    (P : Nat → Bool) (pre : List DynamicTarget) (t : DynamicTarget) (post : List DynamicTarget) :
    ∀ (i : Nat) (st : LoopState),
      BaseTargetsResolve cmd env (pre ++ t :: post) →
      (∀ j u, (pre ++ t :: post)[j]? = some u → P (i + j) = inBaseGroup cmd B u) →
      B ∉ st.baseTargets →
      (∀ u ∈ pre, inBaseGroup cmd B u = false) →
      inBaseGroup cmd B t = true →
      ∃ b outcome, env.FindBaseTarget B = .ok b ∧
        (runLoop cmd env i (pre ++ t :: post) st).1.calls.filter (fun c => P c.index) =
          st.calls.filter (fun c => P c.index) ++ [⟨i + pre.length, b.Name, outcome⟩] := by
  induction pre with
  | nil =>
    intro i st hres hP hB _ ht
    have hP0 : P i = inBaseGroup cmd B t := by simpa using hP 0 t (by simp)
    have hPr : ∀ j u, post[j]? = some u → P (i + 1 + j) = inBaseGroup cmd B u := by
      intro j u hu
      have := hP (j + 1) u (by simpa using hu)
      rw [← this]; congr 1; omega
    rw [inBaseGroup_eq] at ht
    simp only [Bool.and_eq_true, beq_iff_eq] at ht
    obtain ⟨hnb, hBt⟩ := ht
    have hnb2 := decision_needsBase cmd env t st.baseTargets
    rw [hnb] at hnb2
    simp only [List.nil_append, List.length_nil, Nat.add_zero]
    rw [runLoop_cons]
    cases hd : decision cmd env t st.baseTargets with
    | filtered => rw [hd] at hnb2; cases hnb2
    | noSealingConfig => rw [hd] at hnb2; cases hnb2
    | sealSelf name => rw [hd] at hnb2; cases hnb2
    | abort err => exact absurd hd (hres.not_abort st.baseTargets err)
    | covered => exact absurd ((decision_covered hd).1) (by rw [hBt]; exact hB)
    | sealBase name =>
      obtain ⟨_, b, hb, hname⟩ := decision_sealBase hd
      simp only [applyDecision, seal_of_noCrash hnc]
      refine ⟨b, env.sealOutcome (st.calls.map SealCall.name) name, by rw [← hBt]; exact hb, ?_⟩
      rw [runLoop_group_done cmd env hnc B P post _ _ hPr (by left; simp [LoopState.recordCall, hBt])]
      rw [filter_calls_recordCall, hP0, inBaseGroup_eq, hnb, hBt, hname]
      simp
  | cons u pre ih =>
    intro i st hres hP hB hpre ht
    have hP0 : P i = inBaseGroup cmd B u := by simpa using hP 0 u (by simp)
    have hPr : ∀ j v, (pre ++ t :: post)[j]? = some v → P (i + 1 + j) = inBaseGroup cmd B v := by
      intro j v hv
      have := hP (j + 1) v (by simpa using hv)
      rw [← this]; congr 1; omega
    have hu : inBaseGroup cmd B u = false := hpre u (List.mem_cons_self _ _)
    have hpre2 : ∀ v ∈ pre, inBaseGroup cmd B v = false :=
      fun v hv => hpre v (List.mem_cons_of_mem _ hv)
    have hnb := decision_needsBase cmd env u st.baseTargets
    have hlen : i + (u :: pre).length = i + 1 + pre.length := by simp; omega
    rw [hlen, List.cons_append, runLoop_cons]
    have hres2 : BaseTargetsResolve cmd env (pre ++ t :: post) := hres.tail
    cases hd : decision cmd env u st.baseTargets with
    | filtered => simp only [applyDecision, seal_of_noCrash hnc]; exact ih _ _ hres2 hPr hB hpre2 ht
    | noSealingConfig => simp only [applyDecision, seal_of_noCrash hnc]; exact ih _ _ hres2 hPr hB hpre2 ht
    | abort err => exact absurd hd (hres.not_abort st.baseTargets err)
    | covered => simp only [applyDecision, seal_of_noCrash hnc]; exact ih _ _ hres2 hPr hB hpre2 ht
    | sealBase name =>
      simp only [applyDecision, seal_of_noCrash hnc]
      rw [hd] at hnb
      have hne : u.BaseTargetName ≠ B := by
        rw [inBaseGroup_eq, hnb] at hu
        simpa using hu
      obtain ⟨b, outcome, hb, hcalls⟩ := ih (i + 1)
        (LoopState.recordCall env i name
          { st with noTargetMatch := false, lookups := st.lookups ++ [u.BaseTargetName],
                    baseTargets := u.BaseTargetName :: st.baseTargets })
        hres2 hPr (by simp [LoopState.recordCall, hB, Ne.symm hne]) hpre2 ht
      refine ⟨b, outcome, hb, ?_⟩
      rw [hcalls, filter_calls_recordCall, hP0, hu]
      simp
    | sealSelf name =>
      simp only [applyDecision, seal_of_noCrash hnc]
      obtain ⟨b, outcome, hb, hcalls⟩ := ih (i + 1)
        (LoopState.recordCall env i name { st with noTargetMatch := false })
        hres2 hPr (by simp [LoopState.recordCall, hB]) hpre2 ht
      refine ⟨b, outcome, hb, ?_⟩
      rw [hcalls, filter_calls_recordCall, hP0, hu]
      simp

/-! ## One sealing per shared base target -/

theorem exists_first_split {α : Type} (p : α → Bool) (l : List α)
    (h : ∃ a ∈ l, p a = true) :
    ∃ pre a post, l = pre ++ a :: post ∧ (∀ u ∈ pre, p u = false) ∧ p a = true := by
  induction l with
  | nil => obtain ⟨a, ha, _⟩ := h; cases ha
  | cons x xs ih =>
    cases hx : p x with
    | true => exact ⟨[], x, xs, rfl, by simp, hx⟩
    | false =>
      obtain ⟨a, ha, hpa⟩ := h
      have hmem : a ∈ xs := by
        rcases List.mem_cons.1 ha with rfl | h'
        · rw [hx] at hpa; cases hpa
        · exact h'
      obtain ⟨pre, b, post, hl, hpre, hb⟩ := ih ⟨a, hmem, hpa⟩
      refine ⟨x :: pre, b, post, by rw [hl]; rfl, ?_, hb⟩
      intro u hu
      rcases List.mem_cons.1 hu with rfl | h'
      · exact hx
      · exact hpre u h'

/-- In a run in which base-target resolution succeeds and no call of
`runCmdSealForTarget` panics: when `k ≥ 1` declared targets pass the filters,
have a `SealingConfig` with `DynamicSealing = false`, are dynamic and share the
base name `B`, then exactly one of the calls is made on behalf of those targets.
It is made while visiting the first of them in declaration order (position
`pre.length`) and carries the name of the target `FindBaseTarget B` returned,
whether the calls return nil or an error. -/
theorem Run_base_group_once_of_noCrash (cmd : sealCmd) (env : RunEnv) (ts : List DynamicTarget)
    (B : String) (hnc : env.NoCrash) (hres : BaseTargetsResolve cmd env ts)
    (hk : 1 ≤ (ts.filter (inBaseGroup cmd B)).length) :
    ∃ pre t post b outcome,
      ts = pre ++ t :: post ∧ (∀ u ∈ pre, inBaseGroup cmd B u = false) ∧
      inBaseGroup cmd B t = true ∧ env.FindBaseTarget B = .ok b ∧
      (Run cmd env ts).final.calls.filter (onBehalfOfGroup cmd B ts) =
        [⟨pre.length, b.Name, outcome⟩] := by
  have hex : ∃ t ∈ ts, inBaseGroup cmd B t = true := by
    obtain ⟨t, ht⟩ := List.exists_mem_of_length_pos hk
    exact ⟨t, (List.mem_filter.1 ht).1, (List.mem_filter.1 ht).2⟩
  obtain ⟨pre, t, post, hts, hpre, ht⟩ := exists_first_split _ ts hex
  have hP : ∀ j u, (pre ++ t :: post)[j]? = some u →
      (fun idx => onBehalfOfGroup cmd B ts ⟨idx, "", .ok ()⟩) (0 + j) = inBaseGroup cmd B u := by
    intro j u hu
    rw [← hts] at hu
    simp [onBehalfOfGroup, hu]
  obtain ⟨b, outcome, hb, hcalls⟩ :=
    runLoop_group_first cmd env hnc B (fun idx => onBehalfOfGroup cmd B ts ⟨idx, "", .ok ()⟩)
      pre t post 0 LoopState.init (hts ▸ hres) hP (by simp [LoopState.init]) hpre ht
  refine ⟨pre, t, post, b, outcome, hts, hpre, ht, hb, ?_⟩
  rw [Run_final]
  rw [← hts] at hcalls
  simpa [onBehalfOfGroup, LoopState.init] using hcalls

/-- The example project: `feat-1` and `feat-2` share the base `feat`; one call,
made for `feat-1` at position 1, carries the name `feat`, and it returned an error. -/
theorem Run_base_group_once_example :
    (∃ pre t post b outcome,
        exTargets = pre ++ t :: post ∧ (∀ u ∈ pre, inBaseGroup exCmd "feat" u = false) ∧
        inBaseGroup exCmd "feat" t = true ∧ exEnv.FindBaseTarget "feat" = .ok b ∧
        (Run exCmd exEnv exTargets).final.calls.filter (onBehalfOfGroup exCmd "feat" exTargets) =
          [⟨pre.length, b.Name, outcome⟩]) ∧
      (Run exCmd exEnv exTargets).final.calls.filter (onBehalfOfGroup exCmd "feat" exTargets) =
        [⟨1, "feat", .error "sealing feat failed"⟩] :=
  ⟨Run_base_group_once_of_noCrash exCmd exEnv exTargets "feat" exEnv_noCrash
      (exEnv_resolves exTargets) (by decide),
   by decide⟩

/-- C1: a group of targets sharing a base target can be left without any call.
On the project without secrets configuration, with `prod` declared before
`feat-1` and `feat-2`, base-target resolution succeeds and the two expansions
form the group of `feat`; the sealing of `prod` panics at the nil dereference of
line 33, which ends `Run` before `feat-1` is visited, so no call is made on
behalf of the group, where the same declared targets lead to exactly one such
call when no sealing panics. -/
theorem Run_crash_skips_base_group :
    ([exProd, exFeat1, exFeat2].filter (inBaseGroup exCmd "feat")).length = 2 ∧
      (exEnvNoSecrets.FindBaseTarget "feat").toOption =
        some ⟨"feat", none, some ⟨["db"], none⟩⟩ ∧
      (runCmdSealForTarget exCmd exSealEnvNoSecrets ⟨none⟩ "prod").1 = .panic ∧
      (Run exCmd exEnvNoSecrets [exProd, exFeat1, exFeat2]).final.calls =
        [⟨0, "prod", .panic⟩] ∧
      (Run exCmd exEnvNoSecrets [exProd, exFeat1, exFeat2]).final.calls.filter
        (onBehalfOfGroup exCmd "feat" [exProd, exFeat1, exFeat2]) = [] ∧
      (Run exCmd exEnvNoSecrets [exProd, exFeat1, exFeat2]).result = .crashed ∧
      (Run exCmd exEnvOk [exProd, exFeat1, exFeat2]).final.calls.filter
        (onBehalfOfGroup exCmd "feat" [exProd, exFeat1, exFeat2]) = [⟨1, "feat", .ok ()⟩] := by
  decide
/-! ## Targets without sealing configuration -/

theorem LoopState.SameOutcome.names {st1 st2 : LoopState} (h : st1.SameOutcome st2) :
    st1.calls.map SealCall.name = st2.calls.map SealCall.name := by
  have := congrArg (List.map Prod.fst) h.2.2.2.1
  simpa [Function.comp_def] using this

theorem SealCall.failed_mk (i : Nat) (name : String) (outcome : Outcome Unit) :
    SealCall.failed ⟨i, name, outcome⟩ = SealCall.failed ⟨0, "", outcome⟩ := rfl

theorem LoopState.SameOutcome.recordCall {st1 st2 : LoopState} (h : st1.SameOutcome st2) (env : RunEnv)
    (i j : Nat) (name : String) :
    (LoopState.recordCall env i name st1).SameOutcome (LoopState.recordCall env j name st2) := by
  have hn := h.names
  obtain ⟨h1, h2, h3, h4, h5⟩ := h
  simp [LoopState.SameOutcome, LoopState.recordCall, SealCall.failed_mk, h1, h2, h3, h4, h5, hn]

theorem LoopState.SameOutcome.sealPanics {st1 st2 : LoopState} (h : st1.SameOutcome st2)
    (env : RunEnv) (name : String) :
    LoopState.sealPanics env name st1 = LoopState.sealPanics env name st2 := by
  unfold LoopState.sealPanics
  rw [h.names]

theorem mem_recordCall_selected {cmd : sealCmd} {env : RunEnv} {i : Nat} {name : String}
    {t : DynamicTarget} {rest : List DynamicTarget} {st st1 : LoopState} {c : SealCall}
    (hcalls : st1.calls = st.calls) (hs : selectedForSealing cmd t = true)
    (h : c ∈ (LoopState.recordCall env i name st1).calls) :
    c ∈ st.calls ∨
      ∃ j u, (t :: rest)[j]? = some u ∧ c.index = i + j ∧ selectedForSealing cmd u = true := by
  simp only [LoopState.recordCall, List.mem_append, List.mem_singleton, hcalls] at h
  rcases h with h | h
  · exact Or.inl h
  · exact Or.inr ⟨0, t, by simp, by rw [h]; rfl, hs⟩

/-- Every call of the loop is made while visiting a target that passes the
filters and has a `SealingConfig`. -/
theorem runLoop_calls_selected (cmd : sealCmd) (env : RunEnv) (ts : List DynamicTarget) :
    ∀ (i : Nat) (st : LoopState) (c : SealCall), c ∈ (runLoop cmd env i ts st).1.calls →
      c ∈ st.calls ∨
        ∃ j t, ts[j]? = some t ∧ c.index = i + j ∧ selectedForSealing cmd t = true := by
  induction ts with
  | nil => intro i st c h; exact Or.inl h
  | cons t rest ih =>
    intro i st c
    have hs := decision_selected cmd env t st.baseTargets
    have lift : (∃ j u, rest[j]? = some u ∧ c.index = i + 1 + j ∧
        selectedForSealing cmd u = true) →
        ∃ j u, (t :: rest)[j]? = some u ∧ c.index = i + j ∧ selectedForSealing cmd u = true := by
      rintro ⟨j, u, hu, hi, hsel⟩
      exact ⟨j + 1, u, by simpa using hu, by omega, hsel⟩
    rw [runLoop_cons]
    cases hd : decision cmd env t st.baseTargets with
    | filtered =>
      simp only [applyDecision]
      intro h; exact (ih _ _ c h).imp id lift
    | noSealingConfig =>
      simp only [applyDecision]
      intro h; exact (ih _ _ c h).imp id lift
    | abort err => simp only [applyDecision]; intro h; exact Or.inl h
    | covered =>
      simp only [applyDecision]
      intro h; exact (ih _ _ c h).imp id lift
    | sealBase name =>
      simp only [applyDecision, runLoop_after_seal]
      rw [hd] at hs
      split
      · intro h; exact mem_recordCall_selected rfl hs h
      · intro h
        rcases ih _ _ c h with h1 | h1
        · exact mem_recordCall_selected rfl hs h1
        · exact Or.inr (lift h1)
    | sealSelf name =>
      simp only [applyDecision, runLoop_after_seal]
      rw [hd] at hs
      split
      · intro h; exact mem_recordCall_selected rfl hs h
      · intro h
        rcases ih _ _ c h with h1 | h1
        · exact mem_recordCall_selected rfl hs h1
        · exact Or.inr (lift h1)

/-- Dropping the targets without `SealingConfig` changes neither the flags, nor
the recorded base names, nor the names passed and what the calls returned, nor
whether the loop is left early. -/
theorem runLoop_drop_unconfigured (cmd : sealCmd) (env : RunEnv) (ts : List DynamicTarget) :
    ∀ (i j : Nat) (st1 st2 : LoopState), st1.SameOutcome st2 →
      (runLoop cmd env i (ts.filter hasSealingConfig) st1).1.SameOutcome
          (runLoop cmd env j ts st2).1 ∧
        (runLoop cmd env i (ts.filter hasSealingConfig) st1).2 = (runLoop cmd env j ts st2).2 := by
  induction ts with
  | nil => intro i j st1 st2 h; exact ⟨h, rfl⟩
  | cons t rest ih =>
    intro i j st1 st2 h
    cases hsc : hasSealingConfig t with
    | false =>
      rw [List.filter_cons_of_neg (by simp [hsc]), runLoop_cons]
      have hs := decision_selected cmd env t st2.baseTargets
      have hsel : selectedForSealing cmd t = false := by
        unfold selectedForSealing
        unfold hasSealingConfig at hsc
        rw [hsc]; simp
      rw [hsel] at hs
      cases hd : decision cmd env t st2.baseTargets with
      | filtered => simp only [applyDecision]; exact ih _ _ _ _ h
      | noSealingConfig => simp only [applyDecision]; exact ih _ _ _ _ h
      | abort err => rw [hd] at hs; cases hs
      | covered => rw [hd] at hs; cases hs
      | sealBase name => rw [hd] at hs; cases hs
      | sealSelf name => rw [hd] at hs; cases hs
    | true =>
      rw [List.filter_cons_of_pos (by simp [hsc]), runLoop_cons, runLoop_cons, h.2.2.1]
      obtain ⟨h1, h2, h3, h4, h5⟩ := h
      have hseal : ∀ (name : String) (s1 s2 : LoopState), s1.SameOutcome s2 →
          (if s1.sealPanics env name = true then (s1.recordCall env i name, some LoopExit.crashed)
            else runLoop cmd env (i + 1) (rest.filter hasSealingConfig)
              (s1.recordCall env i name)).1.SameOutcome
            (if s2.sealPanics env name = true then (s2.recordCall env j name, some LoopExit.crashed)
              else runLoop cmd env (j + 1) rest (s2.recordCall env j name)).1 ∧
          (if s1.sealPanics env name = true then (s1.recordCall env i name, some LoopExit.crashed)
            else runLoop cmd env (i + 1) (rest.filter hasSealingConfig)
              (s1.recordCall env i name)).2 =
            (if s2.sealPanics env name = true then (s2.recordCall env j name, some LoopExit.crashed)
              else runLoop cmd env (j + 1) rest (s2.recordCall env j name)).2 := by
        intro name s1 s2 hs12
        rw [hs12.sealPanics env name]
        split
        · exact ⟨hs12.recordCall env i j name, rfl⟩
        · exact ih _ _ _ _ (hs12.recordCall env i j name)
      cases hd : decision cmd env t st2.baseTargets <;>
        simp only [applyDecision, runLoop_after_seal]
      · exact ih _ _ _ _ ⟨h1, h2, h3, h4, h5⟩
      · exact ih _ _ _ _ ⟨h1, h2, h3, h4, h5⟩
      · exact ⟨⟨h1, by simp, h3, h4, by simp [h5]⟩, by simp⟩
      · exact ih _ _ _ _ ⟨h1, rfl, h3, h4, by simp [h5]⟩
      · exact hseal _ _ _ ⟨h1, rfl, by simp [h3], h4, by simp [h5]⟩
      · exact hseal _ _ _ ⟨h1, rfl, h3, h4, h5⟩

theorem Run_result_eq (cmd : sealCmd) (env : RunEnv) (ts : List DynamicTarget) :
    (Run cmd env ts).result =
      match (runLoop cmd env 0 ts LoopState.init).2 with
      | some (.returned err) => .baseTargetError err
      | some .crashed => .crashed
      | none =>
        if (runLoop cmd env 0 ts LoopState.init).1.hadError then .sealingFailed
        else if (runLoop cmd env 0 ts LoopState.init).1.noTargetMatch then .noTargetMatched
        else .success := by
  cases hab : (runLoop cmd env 0 ts LoopState.init).2 with
  | some exit =>
    cases exit with
    | returned err => exact Run_result_of_abort cmd env ts err hab
    | crashed => exact Run_result_of_crash cmd env ts hab
  | none => rw [Run_result_of_no_abort cmd env ts hab, Run_final]

/-- C10: targets without a `SealingConfig` are never sealed and do not
influence the run.  Every call to `runCmdSealForTarget` is made while visiting a
declared target that has a `SealingConfig`; and running on the declared list
with every target without `SealingConfig` removed gives the same sequence of
names passed, the same outcome of every call, the same `hadError` flag and the
same returned value. -/
theorem Run_ignores_unconfigured_targets (cmd : sealCmd) (env : RunEnv)
    (ts : List DynamicTarget) :
    (∀ c ∈ (Run cmd env ts).final.calls,
        ∃ t sc, ts[c.index]? = some t ∧ t.Target.SealingConfig = some sc) ∧
      (Run cmd env (ts.filter hasSealingConfig)).unitNames = (Run cmd env ts).unitNames ∧
      (Run cmd env (ts.filter hasSealingConfig)).final.calls.map SealCall.failed =
        (Run cmd env ts).final.calls.map SealCall.failed ∧
      (Run cmd env (ts.filter hasSealingConfig)).final.hadError =
        (Run cmd env ts).final.hadError ∧
      (Run cmd env (ts.filter hasSealingConfig)).result = (Run cmd env ts).result := by
  have hsame := runLoop_drop_unconfigured cmd env ts 0 0 LoopState.init LoopState.init
    ⟨rfl, rfl, rfl, rfl, rfl⟩
  refine ⟨?_, ?_, ?_, ?_, ?_⟩
  · intro c hc
    rw [Run_final] at hc
    rcases runLoop_calls_selected cmd env ts 0 _ c hc with h | ⟨j, t, ht, hi, hsel⟩
    · simp [LoopState.init] at h
    · unfold selectedForSealing at hsel
      simp only [Bool.and_eq_true, Option.isSome_iff_exists] at hsel
      obtain ⟨sc, hsc⟩ := hsel.2
      refine ⟨t, sc, ?_, hsc⟩
      rw [hi, Nat.zero_add]; exact ht
  · simp only [RunTrace.unitNames, Run_final]
    exact hsame.1.names
  · simp only [Run_final]
    have := congrArg (List.map Prod.snd) hsame.1.2.2.2.1
    simpa [Function.comp_def] using this
  · simp only [Run_final]
    exact hsame.1.1
  · rw [Run_result_eq, Run_result_eq, hsame.2, hsame.1.1, hsame.1.2.1]

/-! ## Uniqueness of the names passed -/

theorem recordCall_names (env : RunEnv) (i : Nat) (name : String) (st : LoopState) :
    (LoopState.recordCall env i name st).calls.map SealCall.name =
      st.calls.map SealCall.name ++ [name] := by
  simp [LoopState.recordCall]

/-- With distinct own names that avoid every base name, and a base-target
lookup that returns the target it was asked for, the loop passes no name twice. -/
theorem runLoop_names_nodup (cmd : sealCmd) (env : RunEnv)
    (hname : ∀ B b, env.FindBaseTarget B = .ok b → b.Name = B) (ts : List DynamicTarget) :
    ∀ (i : Nat) (st : LoopState),
      (selfNames cmd ts).Nodup →
      (∀ n ∈ selfNames cmd ts, n ∉ baseNames cmd ts) →
      (st.calls.map SealCall.name).Nodup →
      (∀ n ∈ st.calls.map SealCall.name,
        n ∉ selfNames cmd ts ∧ (n ∈ baseNames cmd ts → n ∈ st.baseTargets)) →
      ((runLoop cmd env i ts st).1.calls.map SealCall.name).Nodup := by
  induction ts with
  | nil => intro i st _ _ h _; exact h
  | cons t rest ih =>
    intro i st h2 h3 hnd hinv
    have hs := decision_selected cmd env t st.baseTargets
    have hnb := decision_needsBase cmd env t st.baseTargets
    rw [runLoop_cons]
    cases hd : decision cmd env t st.baseTargets with
    | filtered =>
      rw [hd] at hs hnb
      have e1 : selfNames cmd (t :: rest) = selfNames cmd rest := by
        simp [selfNames, List.filter_cons, sealsItself, hs]
      have e2 : baseNames cmd (t :: rest) = baseNames cmd rest := by
        simp [baseNames, List.filter_cons, hnb]
      rw [e1] at h2 h3 hinv; rw [e2] at h3 hinv
      simp only [applyDecision]
      exact ih _ _ h2 h3 hnd hinv
    | noSealingConfig =>
      rw [hd] at hs hnb
      have e1 : selfNames cmd (t :: rest) = selfNames cmd rest := by
        simp [selfNames, List.filter_cons, sealsItself, hs]
      have e2 : baseNames cmd (t :: rest) = baseNames cmd rest := by
        simp [baseNames, List.filter_cons, hnb]
      rw [e1] at h2 h3 hinv; rw [e2] at h3 hinv
      simp only [applyDecision]
      exact ih _ _ h2 h3 hnd hinv
    | abort err => simp only [applyDecision]; exact hnd
    | covered =>
      rw [hd] at hs hnb
      have e1 : selfNames cmd (t :: rest) = selfNames cmd rest := by
        simp [selfNames, List.filter_cons, sealsItself, hs, hnb]
      have e2 : baseNames cmd (t :: rest) = t.BaseTargetName :: baseNames cmd rest := by
        simp [baseNames, List.filter_cons, hnb]
      rw [e1] at h2 h3 hinv; rw [e2] at h3 hinv
      simp only [applyDecision]
      refine ih _ _ h2 (fun n hn => fun hb => h3 n hn (List.mem_cons_of_mem _ hb)) hnd ?_
      intro n hn
      exact ⟨(hinv n hn).1, fun hb => (hinv n hn).2 (List.mem_cons_of_mem _ hb)⟩
    | sealBase name =>
      rw [hd] at hs hnb
      obtain ⟨hnot, b, hb, hbn⟩ := decision_sealBase hd
      have hnm : name = t.BaseTargetName := by rw [← hbn]; exact hname _ _ hb
      have e1 : selfNames cmd (t :: rest) = selfNames cmd rest := by
        simp [selfNames, List.filter_cons, sealsItself, hs, hnb]
      have e2 : baseNames cmd (t :: rest) = t.BaseTargetName :: baseNames cmd rest := by
        simp [baseNames, List.filter_cons, hnb]
      rw [e1] at h2 h3 hinv; rw [e2] at h3 hinv
      simp only [applyDecision, runLoop_after_seal]
      have hnd2 : ((LoopState.recordCall env i name
          { st with noTargetMatch := false, lookups := st.lookups ++ [t.BaseTargetName],
                    baseTargets := t.BaseTargetName :: st.baseTargets }).calls.map
            SealCall.name).Nodup := by
        rw [recordCall_names, hnm]
        refine List.Nodup.append hnd (List.nodup_singleton _) ?_
        intro n hn hn2
        rw [List.mem_singleton] at hn2
        subst hn2
        exact hnot ((hinv _ hn).2 (List.mem_cons_self _ _))
      split
      · exact hnd2
      refine ih _ _ h2 (fun n hn => fun hb => h3 n hn (List.mem_cons_of_mem _ hb)) hnd2 ?_
      · intro n hn
        rw [recordCall_names, List.mem_append, List.mem_singleton] at hn
        rcases hn with hn | hn
        · refine ⟨(hinv n hn).1, fun hb => ?_⟩
          simp only [LoopState.recordCall]
          exact List.mem_cons_of_mem _ ((hinv n hn).2 (List.mem_cons_of_mem _ hb))
        · rw [hn, hnm]
          refine ⟨fun hmem => h3 _ hmem (List.mem_cons_self _ _), fun _ => ?_⟩
          simp [LoopState.recordCall]
    | sealSelf name =>
      rw [hd] at hs hnb
      have hnm : name = t.Target.Name := decision_sealSelf hd
      have e1 : selfNames cmd (t :: rest) = t.Target.Name :: selfNames cmd rest := by
        simp [selfNames, List.filter_cons, sealsItself, hs, hnb]
      have e2 : baseNames cmd (t :: rest) = baseNames cmd rest := by
        simp [baseNames, List.filter_cons, hnb]
      rw [e1] at h2 h3 hinv; rw [e2] at h3 hinv
      simp only [applyDecision, runLoop_after_seal]
      have hnd2 : ((LoopState.recordCall env i name { st with noTargetMatch := false }).calls.map
          SealCall.name).Nodup := by
        rw [recordCall_names, hnm]
        refine List.Nodup.append hnd (List.nodup_singleton _) ?_
        intro n hn hn2
        rw [List.mem_singleton] at hn2
        subst hn2
        exact (hinv _ hn).1 (List.mem_cons_self _ _)
      split
      · exact hnd2
      refine ih _ _ (List.nodup_cons.1 h2).2
        (fun n hn => h3 n (List.mem_cons_of_mem _ hn)) hnd2 ?_
      · intro n hn
        rw [recordCall_names, List.mem_append, List.mem_singleton] at hn
        rcases hn with hn | hn
        · refine ⟨fun hmem => (hinv n hn).1 (List.mem_cons_of_mem _ hmem), fun hb => ?_⟩
          simp only [LoopState.recordCall]
          exact (hinv n hn).2 hb
        · rw [hn, hnm]
          refine ⟨(List.nodup_cons.1 h2).1, fun hb => ?_⟩
          exact absurd hb (h3 _ (List.mem_cons_self _ _))

/-- C7, as stated, fails: a plain target named `feat` is sealed under its own
name, and the expansion `feat-1` of the base target `feat` is then sealed through
its base, so the name `feat` is passed to `runCmdSealForTarget` twice. -/
theorem Run_passes_name_twice :
    (Run exCmd exEnvOk exDupTargets).unitNames = ["feat", "feat"] ∧
      ¬ (Run exCmd exEnvOk exDupTargets).unitNames.Nodup := by
  decide

/-- C7, amended: `Run` records base names only in the base-target branch.  When
`FindBaseTarget` returns the target it was asked for, the targets sealed under
their own name have pairwise distinct names, and none of these names is the base
name of a target sealed through its base, no name is passed to
`runCmdSealForTarget` more than once. -/
theorem Run_names_nodup (cmd : sealCmd) (env : RunEnv) (ts : List DynamicTarget)
    (hname : ∀ B b, env.FindBaseTarget B = .ok b → b.Name = B)
    (hself : (selfNames cmd ts).Nodup)
    (hdisj : ∀ n ∈ selfNames cmd ts, n ∉ baseNames cmd ts) :
    (Run cmd env ts).unitNames.Nodup := by
  unfold RunTrace.unitNames
  rw [Run_final]
  exact runLoop_names_nodup cmd env hname ts 0 LoopState.init hself hdisj
    (by simp [LoopState.init]) (by simp [LoopState.init])

/-- C7, amended, at the example project: `prod` and `feat` are each passed once. -/
theorem Run_names_nodup_witness :
    (∀ B b, exEnv.FindBaseTarget B = .ok b → b.Name = B) ∧
      (selfNames exCmd exTargets).Nodup ∧
      (∀ n ∈ selfNames exCmd exTargets, n ∉ baseNames exCmd exTargets) ∧
      (Run exCmd exEnv exTargets).unitNames.Nodup ∧
      (Run exCmd exEnv exTargets).unitNames = ["prod", "feat"] :=
  ⟨fun _ _ h => by cases h; rfl, by decide, by decide,
   Run_names_nodup exCmd exEnv exTargets (fun _ _ h => by cases h; rfl) (by decide) (by decide),
   by decide⟩

/-! ## Merging secret bundles -/

theorem get_nil (k' : String) : SecretBundle.get [] k' = none := rfl

theorem get_cons (k v : String) (rest : SecretBundle) (k' : String) :
    SecretBundle.get ((k, v) :: rest) k' = if k' = k then some v else SecretBundle.get rest k' := by
  unfold SecretBundle.get
  by_cases h : k' = k
  · subst h; simp [List.lookup]
  · have hb : (k' == k) = false := beq_eq_false_iff_ne.2 h
    simp [List.lookup, hb, h]

theorem get_set (b : SecretBundle) (k v k' : String) :
    (SecretBundle.set b k v).get k' = if k' = k then some v else b.get k' := by
  induction b with
  | nil => simp [SecretBundle.set, get_cons, get_nil]
  | cons p rest ih =>
    obtain ⟨k1, v1⟩ := p
    by_cases h1 : k1 = k
    · subst h1
      simp only [SecretBundle.set, if_true, get_cons]
      by_cases h2 : k' = k1 <;> simp [h2]
    · simp only [SecretBundle.set, h1, if_false, get_cons, ih]
      by_cases h2 : k' = k1
      · subst h2
        simp [h1]
      · simp [h2]

theorem Merge_cons (acc : SecretBundle) (k v : String) (rest : SecretBundle) :
    Merge acc ((k, v) :: rest) = Merge (SecretBundle.set acc k v) rest := rfl

/-- Merging a bundle that does not define `k` keeps the value of `k`. -/
theorem get_Merge_of_absent (other : SecretBundle) :
    ∀ (acc : SecretBundle) (k : String), other.get k = none →
      (Merge acc other).get k = acc.get k := by
  induction other with
  | nil => intro acc k _; rfl
  | cons p rest ih =>
    obtain ⟨k1, v1⟩ := p
    intro acc k h
    rw [get_cons] at h
    by_cases hk : k = k1
    · simp [hk] at h
    · simp only [hk, if_false] at h
      rw [Merge_cons, ih _ _ h, get_set]
      simp [hk]

theorem get_eq_none_of_not_mem_keys (b : SecretBundle) (k : String) (h : k ∉ b.keys) :
    b.get k = none := by
  induction b with
  | nil => rfl
  | cons p rest ih =>
    obtain ⟨k1, v1⟩ := p
    simp only [SecretBundle.keys, List.map_cons, List.mem_cons, not_or] at h
    rw [get_cons]
    simp only [h.1, if_false]
    exact ih h.2

/-- Merging a bundle with unique keys that defines `k` gives `k` that bundle's value. -/
theorem get_Merge_of_present (other : SecretBundle) :
    ∀ (acc : SecretBundle) (k v : String), other.keys.Nodup → other.get k = some v →
      (Merge acc other).get k = some v := by
  induction other with
  | nil => intro acc k v _ h; cases h
  | cons p rest ih =>
    obtain ⟨k1, v1⟩ := p
    intro acc k v hnd h
    simp only [SecretBundle.keys, List.map_cons, List.nodup_cons] at hnd
    rw [get_cons] at h
    rw [Merge_cons]
    by_cases hk : k = k1
    · subst hk
      simp only [if_true] at h
      rw [get_Merge_of_absent rest _ _ (get_eq_none_of_not_mem_keys rest k hnd.1), get_set]
      simpa using h
    · simp only [hk, if_false] at h
      exact ih _ _ _ hnd.2 h

theorem get_foldl_of_absent (post : List SecretBundle) :
    ∀ (acc : SecretBundle) (k : String), (∀ b ∈ post, SecretBundle.get b k = none) →
      SecretBundle.get (post.foldl Merge acc) k = SecretBundle.get acc k := by
  induction post with
  | nil => intro acc k _; rfl
  | cons b rest ih =>
    intro acc k h
    rw [List.foldl_cons, ih _ _ (fun b' hb' => h b' (List.mem_cons_of_mem _ hb')),
      get_Merge_of_absent b _ _ (h b (List.mem_cons_self _ _))]

/-- Last write wins: the folded bundle holds for `k` the value of the last
bundle that defines `k`. -/
theorem get_foldl_last (pre : List SecretBundle) (b : SecretBundle) (post : List SecretBundle)
    (acc : SecretBundle) (k v : String) (hnd : b.keys.Nodup) (hb : b.get k = some v)
    (hpost : ∀ b' ∈ post, SecretBundle.get b' k = none) :
    SecretBundle.get ((pre ++ b :: post).foldl Merge acc) k = some v := by
  rw [List.foldl_append, List.foldl_cons, get_foldl_of_absent post _ _ hpost]
  exact get_Merge_of_present b _ _ _ hnd hb

/-! ## The loops of `loadSecrets` -/

theorem loadSources_ok_iff (env : SealEnv) (srcs : List SecretSource) :
    ∀ (acc r : SecretBundle),
      loadSources env srcs acc = .ok r ↔
        ∃ bundles, allBundles env srcs = some bundles ∧ r = bundles.foldl Merge acc := by
  induction srcs with
  | nil =>
    intro acc r
    simp only [loadSources, allBundles, Outcome.ok.injEq, Option.some.injEq]
    constructor
    · intro h; exact ⟨[], rfl, h.symm⟩
    · rintro ⟨bundles, hb, hr⟩; subst hb; exact hr.symm
  | cons s rest ih =>
    intro acc r
    simp only [loadSources, allBundles]
    cases hrs : env.RenderStruct s with
    | error e => simp
    | ok rs =>
      simp only
      cases hl : env.LoadSecrets rs with
      | error e => simp
      | ok b =>
        simp only
        rw [ih]
        cases hrest : allBundles env rest with
        | none => simp
        | some l =>
          simp only [Option.some.injEq]
          constructor
          · rintro ⟨bundles, hb, hr⟩; subst hb; exact ⟨b :: l, rfl, hr⟩
          · rintro ⟨bundles, hb, hr⟩; subst hb; exact ⟨l, rfl, hr⟩

theorem loadSources_ne_panic (env : SealEnv) (srcs : List SecretSource) :
    ∀ (acc : SecretBundle), loadSources env srcs acc ≠ .panic := by
  induction srcs with
  | nil => intro acc h; cases h
  | cons s rest ih =>
    intro acc
    simp only [loadSources]
    cases hrs : env.RenderStruct s with
    | error e => simp
    | ok rs =>
      simp only
      cases hl : env.LoadSecrets rs with
      | error e => simp
      | ok b => exact ih _

theorem allBundles_append (env : SealEnv) (l1 l2 : List SecretSource) :
    allBundles env (l1 ++ l2) =
      match allBundles env l1, allBundles env l2 with
      | some b1, some b2 => some (b1 ++ b2)
      | _, _ => none := by
  induction l1 with
  | nil => cases h : allBundles env l2 <;> simp [allBundles, h]
  | cons s rest ih =>
    rw [List.cons_append]
    simp only [allBundles]
    cases hrs : env.RenderStruct s with
    | error e => simp
    | ok rs =>
      simp only
      cases hl : env.LoadSecrets rs with
      | error e => cases h1 : allBundles env rest <;> cases h2 : allBundles env l2 <;> simp
      | ok b =>
        rw [ih]
        cases h1 : allBundles env rest <;> cases h2 : allBundles env l2 <;> simp

theorem loadSecretSets_ok_iff (env : SealEnv) (ctx : commandCtx) (names : List String) :
    ∀ (acc r : SecretBundle),
      loadSecretSets env ctx names acc = .ok r ↔
        ∃ srcs bundles, allSources ctx names = some srcs ∧ allBundles env srcs = some bundles ∧
          r = bundles.foldl Merge acc := by
  induction names with
  | nil =>
    intro acc r
    simp only [loadSecretSets, allSources, Outcome.ok.injEq, Option.some.injEq]
    constructor
    · intro h; exact ⟨[], [], rfl, rfl, h.symm⟩
    · rintro ⟨srcs, bundles, hs, hb, hr⟩
      subst hs
      simp only [allBundles, Option.some.injEq] at hb
      subst hb
      exact hr.symm
  | cons n rest ih =>
    intro acc r
    simp only [loadSecretSets, allSources]
    cases hf : findSecretsEntry ctx n with
    | panic => simp
    | error e => simp
    | ok entry =>
      simp only
      cases hls : loadSources env entry.Sources acc with
      | panic => exact absurd hls (loadSources_ne_panic env _ _)
      | error e =>
        constructor
        · intro h; cases h
        rintro ⟨srcs, bundles, hs, hb, _⟩
        exfalso
        cases hrest : allSources ctx rest with
        | none => rw [hrest] at hs; cases hs
        | some l =>
          rw [hrest] at hs
          simp only [Option.some.injEq] at hs
          subst hs
          rw [allBundles_append] at hb
          cases h1 : allBundles env entry.Sources with
          | none => rw [h1] at hb; cases hb
          | some b1 =>
            have := (loadSources_ok_iff env entry.Sources acc (b1.foldl Merge acc)).2 ⟨b1, h1, rfl⟩
            rw [hls] at this
            cases this
      | ok acc1 =>
        simp only
        rw [ih]
        obtain ⟨b1, hb1, hacc1⟩ := (loadSources_ok_iff env entry.Sources acc acc1).1 hls
        constructor
        · rintro ⟨srcs, bundles, hs, hb, hr⟩
          refine ⟨entry.Sources ++ srcs, b1 ++ bundles, by rw [hs], ?_, ?_⟩
          · rw [allBundles_append, hb1, hb]
          · rw [List.foldl_append, ← hacc1]; exact hr
        · rintro ⟨srcs, bundles, hs, hb, hr⟩
          cases hrest : allSources ctx rest with
          | none => rw [hrest] at hs; cases hs
          | some l =>
            rw [hrest] at hs
            simp only [Option.some.injEq] at hs
            subst hs
            rw [allBundles_append, hb1] at hb
            cases h2 : allBundles env l with
            | none => rw [h2] at hb; cases hb
            | some b2 =>
              rw [h2] at hb
              simp only [Option.some.injEq] at hb
              subst hb
              refine ⟨l, b2, rfl, h2, ?_⟩
              rw [hr, List.foldl_append, ← hacc1]

/-! ## Secret-set lookup and merge order -/

theorem loadSecrets_eq (env : SealEnv) (ctx : commandCtx) (target : Target)
    (sc : SealingConfig) (hsc : target.SealingConfig = some sc) :
    loadSecrets env ctx target =
      match loadSecretSets env ctx sc.SecretSets [] with
      | .panic => (.panic, [])
      | .error err => (.error err, [])
      | .ok secrets => (.ok (), [.MergeSecretsIntoAllChildren secrets]) := by
  unfold loadSecrets
  rw [hsc]

/-- A name that the registry does not hold gives the not-found error of line 38. -/
theorem findSecretsEntry_unknown (ctx : commandCtx) (cfg : SecretsConfig) (name : String)
    (hcfg : ctx.KluctlProject.SecretsConfig = some cfg)
    (hname : ∀ e ∈ cfg.SecretSets, e.Name ≠ name) :
    findSecretsEntry ctx name = .error (secretSetNotFoundMsg name) := by
  unfold findSecretsEntry
  rw [hcfg]
  have : cfg.SecretSets.find? (fun e => e.Name == name) = none := by
    rw [List.find?_eq_none]
    intro e he
    simpa using hname e he
  simp [this]

/-- C3: with `Config.SecretsConfig` nil, `findSecretsEntry` dereferences the nil
pointer when the target names a secret set, so `loadSecrets` crashes where the
claim asks for the not-found error; with a secrets configuration whose registry
lacks the set, the same target gets the not-found error. -/
theorem loadSecrets_panics_without_secretsConfig :
    exCtxNoSecrets.KluctlProject.SecretsConfig = none ∧
      exCtxNoSecrets.Target.SealingConfig = some ⟨["db", "extra"], none⟩ ∧
      findSecretsEntry exCtxNoSecrets "db" = .panic ∧
      loadSecrets exSealEnv exCtxNoSecrets exCtxNoSecrets.Target = (.panic, []) ∧
      loadSecrets exSealEnv exCtxEmptyRegistry exCtxEmptyRegistry.Target =
        (.error (secretSetNotFoundMsg "db"), []) := by
  decide

/-- C6: for a target with a `SealingConfig`, `loadSecrets` succeeds exactly
when every named set resolves and every source renders and loads, so a key
collision never produces an error; the bundle it then hands to
`MergeSecretsIntoAllChildren` is the left fold of `Merge` over the bundles of all
sources, taken in `SecretSets` order and inside each set in declaration order;
and for every key defined by one of these bundles the folded bundle holds the
value of the last bundle that defines the key. -/
theorem loadSecrets_merges_in_order (env : SealEnv) (ctx : commandCtx) (target : Target)
    (sc : SealingConfig) (hsc : target.SealingConfig = some sc) :
    ((loadSecrets env ctx target).1 = .ok () ↔
        ∃ srcs bundles, allSources ctx sc.SecretSets = some srcs ∧
          allBundles env srcs = some bundles) ∧
      ∀ srcs bundles, allSources ctx sc.SecretSets = some srcs →
        allBundles env srcs = some bundles →
        loadSecrets env ctx target =
            (.ok (), [.MergeSecretsIntoAllChildren (bundles.foldl Merge [])]) ∧
          ∀ (pre : List SecretBundle) (b : SecretBundle) (post : List SecretBundle)
            (k v : String),
            bundles = pre ++ b :: post → b.keys.Nodup → b.get k = some v →
            (∀ b' ∈ post, SecretBundle.get b' k = none) →
            SecretBundle.get (bundles.foldl Merge []) k = some v := by
  rw [loadSecrets_eq env ctx target sc hsc]
  constructor
  · cases h : loadSecretSets env ctx sc.SecretSets [] with
    | panic =>
      simp only [false_iff, not_exists, not_and]
      constructor
      · intro h'; cases h'
      · rintro ⟨srcs, bundles, hs, hb⟩
        have := (loadSecretSets_ok_iff env ctx sc.SecretSets [] _).2 ⟨srcs, bundles, hs, hb, rfl⟩
        rw [h] at this; cases this
    | error e =>
      constructor
      · intro h'; cases h'
      · rintro ⟨srcs, bundles, hs, hb⟩
        have := (loadSecretSets_ok_iff env ctx sc.SecretSets [] _).2 ⟨srcs, bundles, hs, hb, rfl⟩
        rw [h] at this; cases this
    | ok r =>
      obtain ⟨srcs, bundles, hs, hb, _⟩ := (loadSecretSets_ok_iff env ctx sc.SecretSets [] r).1 h
      exact ⟨fun _ => ⟨srcs, bundles, hs, hb⟩, fun _ => rfl⟩
  · intro srcs bundles hs hb
    have := (loadSecretSets_ok_iff env ctx sc.SecretSets [] _).2 ⟨srcs, bundles, hs, hb, rfl⟩
    rw [this]
    refine ⟨rfl, ?_⟩
    intro pre b post k v hsplit hnd hget hpost
    rw [hsplit]
    exact get_foldl_last pre b post [] k v hnd hget hpost

/-- C6 at the example project: `password` comes from the second source of
`db`, `user` from the later set `extra`. -/
theorem loadSecrets_merges_in_order_witness :
    exProdTarget.SealingConfig = some ⟨["db", "extra"], none⟩ ∧
      ((loadSecrets exSealEnv exCtx exProdTarget).1 = .ok () ↔
        ∃ srcs bundles, allSources exCtx ["db", "extra"] = some srcs ∧
          allBundles exSealEnv srcs = some bundles) ∧
      loadSecrets exSealEnv exCtx exProdTarget =
        (.ok (), [.MergeSecretsIntoAllChildren
          [("user", "root"), ("password", "p2"), ("token", "t")]]) :=
  ⟨rfl, (loadSecrets_merges_in_order exSealEnv exCtx exProdTarget ⟨["db", "extra"], none⟩ rfl).1,
   by decide⟩

/-! ## Run-level failures and atomic secret loading -/

/-- C2: the code ends with the no-target-matched error although a declared
target passes both filters.  With `--target local`, the target `local` passes
the name and the cluster filter; it has no `SealingConfig`, so line 153 skips it
before line 155 clears `noTargetMatch`, and `Run` returns the error of line 182
after the informational message. -/
theorem Run_noTargetMatched_despite_match :
    exLocal ∈ exTargets ∧ passesFilters exCmdLocal exLocal = true ∧
      (Run exCmdLocal exEnvOk exTargets).result = .noTargetMatched ∧
      (Run exCmdLocal exEnvOk exTargets).result.toError =
        some "no target matched the given target and/or cluster name" ∧
      (Run exCmdLocal exEnvOk exTargets).final.infos = ["Target local has no sealingConfig"] ∧
      (Run exCmdLocal exEnvOk exTargets).final.calls = [] := by
  decide

/-- C4: a failing base-target lookup ends `Run` at once.  With `feat-1`
declared before `prod` and no base target `feat`, line 163 returns the lookup
error; `prod`, which passes the filters and has a `SealingConfig`, is never
sealed, although it is sealed when `feat-1` is not declared. -/
theorem Run_stops_at_base_target_error :
    (Run exCmd exEnvNoBase [exFeat1, exProd]).result =
        .baseTargetError "target feat not existent in kluctl project config" ∧
      (Run exCmd exEnvNoBase [exFeat1, exProd]).final.calls = [] ∧
      selectedForSealing exCmd exProd = true ∧
      (Run exCmd exEnvNoBase [exProd]).unitNames = ["prod"] := by
  decide

/-- C9: `loadSecrets` changes the render context only when it succeeds.
Whenever it returns an error (or crashes), it has made no call to
`MergeSecretsIntoAllChildren`; when it succeeds it has made exactly one, with the
fold of `Merge` over the bundles of all sources of all named sets; and when it
fails inside `runCmdSealForTarget`, that function returns the same failure
without having rendered, bootstrapped or sealed anything. -/
theorem loadSecrets_atomic (env : SealEnv) (ctx : commandCtx) (target : Target) :
    ((loadSecrets env ctx target).1 ≠ .ok () → (loadSecrets env ctx target).2 = []) ∧
      ((loadSecrets env ctx target).1 = .ok () →
        ∃ sc srcs bundles, target.SealingConfig = some sc ∧
          allSources ctx sc.SecretSets = some srcs ∧ allBundles env srcs = some bundles ∧
          (loadSecrets env ctx target).2 =
            [.MergeSecretsIntoAllChildren (bundles.foldl Merge [])]) ∧
      ∀ (cmd : sealCmd) (p : LoadedKluctlProject) (targetName : String),
        env.withProjectTargetCommandContext targetName = .ok ctx →
        (loadSecrets env ctx ctx.Target).1 ≠ .ok () →
        runCmdSealForTarget cmd env p targetName = ((loadSecrets env ctx ctx.Target).1, []) := by
  refine ⟨?_, ?_, ?_⟩
  · intro h
    unfold loadSecrets at h ⊢
    cases hsc : target.SealingConfig with
    | none => rfl
    | some sc =>
      rw [hsc] at h
      simp only at h ⊢
      cases hl : loadSecretSets env ctx sc.SecretSets [] with
      | panic => rfl
      | error e => rfl
      | ok r => rw [hl] at h; exact absurd rfl h
  · intro h
    cases hsc : target.SealingConfig with
    | none => unfold loadSecrets at h; rw [hsc] at h; cases h
    | some sc =>
      rw [loadSecrets_eq env ctx target sc hsc] at h ⊢
      cases hl : loadSecretSets env ctx sc.SecretSets [] with
      | panic => rw [hl] at h; cases h
      | error e => rw [hl] at h; cases h
      | ok r =>
        obtain ⟨srcs, bundles, hs, hb, hr⟩ :=
          (loadSecretSets_ok_iff env ctx sc.SecretSets [] r).1 hl
        exact ⟨sc, srcs, bundles, rfl, hs, hb, by rw [hr]⟩
  · intro cmd p targetName hctx h
    have hnil : (loadSecrets env ctx ctx.Target).2 = [] := by
      unfold loadSecrets at h ⊢
      cases hsc : ctx.Target.SealingConfig with
      | none => rfl
      | some sc =>
        rw [hsc] at h
        simp only at h ⊢
        cases hl : loadSecretSets env ctx sc.SecretSets [] with
        | panic => rfl
        | error e => rfl
        | ok r => rw [hl] at h; exact absurd rfl h
    unfold runCmdSealForTarget
    rw [hctx]
    simp only
    rcases hls : loadSecrets env ctx ctx.Target with ⟨res, evs⟩
    rw [hls] at h hnil
    simp only at h hnil
    subst hnil
    cases res with
    | ok u => exact absurd rfl h
    | error e => rfl
    | panic => rfl

/-- C9 at the example project: loading the second source of `db` fails after
the first source was merged into the local accumulator; nothing reaches the
render context, and `runCmdSealForTarget` returns that error with no further call. -/
theorem loadSecrets_atomic_witness :
    (loadSecrets exSealEnvBroken exCtx exProdTarget).1 ≠ .ok () ∧
      (loadSecrets exSealEnvBroken exCtx exProdTarget).2 = [] ∧
      runCmdSealForTarget exCmd exSealEnvBroken exCtx.KluctlProject "prod" =
        (.error "cannot load secrets", []) ∧
      (runCmdSealForTarget exCmd exSealEnv exCtx.KluctlProject "prod").2.head? =
        some (.MergeSecretsIntoAllChildren
          [("user", "root"), ("password", "p2"), ("token", "t")]) :=
  ⟨by decide, (loadSecrets_atomic exSealEnvBroken exCtx exProdTarget).1 (by decide),
   by decide, by decide⟩

/-- C10 at the example project: no call is made for `local`, and dropping
`local` from the declared list changes nothing. -/
theorem Run_ignores_unconfigured_targets_witness :
    (Run exCmd exEnv (exTargets.filter hasSealingConfig)).unitNames =
        (Run exCmd exEnv exTargets).unitNames ∧
      exTargets.filter hasSealingConfig = [exProd, exFeat1, exFeat2] ∧
      (Run exCmd exEnv exTargets).final.calls = [⟨0, "prod", .ok ()⟩, ⟨1, "feat", .error "sealing feat failed"⟩] :=
  ⟨(Run_ignores_unconfigured_targets exCmd exEnv exTargets).2.1, by decide, by decide⟩

/-! ## The reference resolver -/

theorem matchesSelection_eq (cmd : sealCmd) (t : DynamicTarget) :
    matchesSelection cmd t = passesFilters cmd t := by
  unfold matchesSelection passesFilters nameFilterPasses clusterFilterPasses
  congr 1
  · by_cases h1 : cmd.Target = "" <;> by_cases h2 : cmd.Target = t.Target.Name <;>
      simp [bne, h1, h2]
  · cases hc : t.Target.Cluster with
    | none => simp [bne]
    | some c =>
      have hsymm : (cmd.Cluster == c) = (c == cmd.Cluster) := by
        by_cases h2 : c = cmd.Cluster
        · subst h2; rfl
        · simp [h2, Ne.symm h2]
      simp [bne, hsymm]

theorem referenceResolver_eq (cmd : sealCmd) (ts : List DynamicTarget) :
    referenceResolver cmd ts = keepFirstBase (ts.filterMap (unitRefOf cmd)) [] := by
  unfold referenceResolver
  congr 1
  induction ts with
  | nil => rfl
  | cons t rest ih =>
    cases hm : matchesSelection cmd t with
    | false =>
      rw [List.filter_cons_of_neg (by simp [hm]),
        List.filterMap_cons_none (by simp [unitRefOf, hm])]
      exact ih
    | true =>
      rw [List.filter_cons_of_pos hm]
      cases hsc : t.Target.SealingConfig with
      | none =>
        rw [List.filter_cons_of_neg (by simp [hasSealingConfig, hsc]),
          List.filterMap_cons_none (by simp [unitRefOf, hm, hsc])]
        exact ih
      | some sc =>
        rw [List.filter_cons_of_pos (by simp [hasSealingConfig, hsc]),
          List.filterMap_cons_some (by simp [hsc]; rfl),
          List.filterMap_cons_some (by simp [unitRefOf, hm, hsc]; rfl), ih]

/-- The unit the reference resolver assigns to a target, read off the branch
the loop takes for it. -/
theorem decision_unitRef (cmd : sealCmd) (env : RunEnv) (t : DynamicTarget) (seen : List String) :
    unitRefOf cmd t =
      match decision cmd env t seen with
      | .filtered => none
      | .noSealingConfig => none
      | .abort _ => some (.base t.BaseTargetName)
      | .covered => some (.base t.BaseTargetName)
      | .sealBase _ => some (.base t.BaseTargetName)
      | .sealSelf _ => some (.self t.Target.Name) := by
  unfold unitRefOf
  rw [matchesSelection_eq]
  unfold decision passesFilters
  by_cases h1 : nameFilterPasses cmd t <;> by_cases h2 : clusterFilterPasses cmd t <;>
    simp [h1, h2]
  cases hsc : t.Target.SealingConfig with
  | none => simp
  | some sc =>
    have hu : toUnitRef t sc =
        if sealsBaseTarget sc t then .base t.BaseTargetName else .self t.Target.Name := by
      unfold toUnitRef sealsBaseTarget
      obtain ⟨sets, ds⟩ := sc
      rcases ds with _ | _ | _ <;> simp
    by_cases h3 : sealsBaseTarget sc t <;> simp [h3, hu]
    cases hf : env.FindBaseTarget t.BaseTargetName with
    | error err => simp
    | ok b => by_cases h4 : t.BaseTargetName ∈ seen <;> simp [h4]

/-! ## Refinement of the reference resolver -/

/-- When no call panics, the names the loop passes are the reference resolver's
output on the remaining targets, started with the base names recorded so far. -/
theorem runLoop_names_eq_reference (cmd : sealCmd) (env : RunEnv) (hnc : env.NoCrash)
    (hname : ∀ B b, env.FindBaseTarget B = .ok b → b.Name = B) (ts : List DynamicTarget) :
    ∀ (i : Nat) (st : LoopState), BaseTargetsResolve cmd env ts →
      (runLoop cmd env i ts st).1.calls.map SealCall.name =
        st.calls.map SealCall.name ++
          keepFirstBase (ts.filterMap (unitRefOf cmd)) st.baseTargets := by
  induction ts with
  | nil => intro i st _; simp [runLoop, keepFirstBase]
  | cons t rest ih =>
    intro i st hres
    have hu := decision_unitRef cmd env t st.baseTargets
    rw [runLoop_cons]
    cases hd : decision cmd env t st.baseTargets with
    | filtered =>
      rw [hd] at hu
      simp only [applyDecision, seal_of_noCrash hnc]
      rw [List.filterMap_cons_none hu]
      exact ih _ _ hres.tail
    | noSealingConfig =>
      rw [hd] at hu
      simp only [applyDecision, seal_of_noCrash hnc]
      rw [List.filterMap_cons_none hu, ih _ _ hres.tail]
    | abort err => exact absurd hd (hres.not_abort st.baseTargets err)
    | covered =>
      rw [hd] at hu
      simp only [applyDecision, seal_of_noCrash hnc]
      rw [List.filterMap_cons_some hu, ih _ _ hres.tail]
      simp [keepFirstBase, (decision_covered hd).1]
    | sealBase name =>
      rw [hd] at hu
      obtain ⟨hnot, b, hb, hbn⟩ := decision_sealBase hd
      have hnm : name = t.BaseTargetName := by rw [← hbn]; exact hname _ _ hb
      simp only [applyDecision, seal_of_noCrash hnc]
      rw [List.filterMap_cons_some hu, ih _ _ hres.tail, recordCall_names]
      simp [keepFirstBase, hnot, hnm, LoopState.recordCall]
    | sealSelf name =>
      rw [hd] at hu
      have hnm : name = t.Target.Name := decision_sealSelf hd
      simp only [applyDecision, seal_of_noCrash hnc]
      rw [List.filterMap_cons_some hu, ih _ _ hres.tail, recordCall_names]
      simp [keepFirstBase, hnm, LoopState.recordCall]

/-- The calls of the loop carry strictly increasing positions, all from `i` on. -/
theorem runLoop_positions_increasing (cmd : sealCmd) (env : RunEnv) (ts : List DynamicTarget) :
    ∀ (i : Nat) (st : LoopState),
      (st.calls.map SealCall.index).Pairwise (fun a b => a < b) →
      (∀ c ∈ st.calls, c.index < i) →
      ((runLoop cmd env i ts st).1.calls.map SealCall.index).Pairwise (fun a b => a < b) := by
  induction ts with
  | nil => intro i st h _; exact h
  | cons t rest ih =>
    intro i st hp hlt
    have hlt1 : ∀ c ∈ st.calls, c.index < i + 1 := fun c hc => Nat.lt_succ_of_lt (hlt c hc)
    have hseal : ∀ (name : String) (st1 : LoopState), st1.calls = st.calls →
        ((LoopState.recordCall env i name st1).calls.map SealCall.index).Pairwise (fun a b => a < b) ∧
          ∀ c ∈ (LoopState.recordCall env i name st1).calls, c.index < i + 1 := by
      intro name st1 hc
      simp only [LoopState.recordCall, hc, List.map_append, List.map_cons, List.map_nil]
      refine ⟨List.pairwise_append.2 ⟨hp, List.pairwise_singleton _ _, ?_⟩, ?_⟩
      · intro a ha b hb
        rw [List.mem_singleton] at hb
        obtain ⟨c, hc1, hc2⟩ := List.mem_map.1 ha
        rw [hb, ← hc2]; exact hlt c hc1
      · intro c hc1
        rcases List.mem_append.1 hc1 with h | h
        · exact hlt1 c h
        · rw [List.mem_singleton] at h; rw [h]; exact Nat.lt_succ_self i
    rw [runLoop_cons]
    cases hd : decision cmd env t st.baseTargets with
    | filtered => simp only [applyDecision]; exact ih _ _ hp hlt1
    | noSealingConfig => simp only [applyDecision]; exact ih _ _ hp hlt1
    | abort err => simp only [applyDecision]; exact hp
    | covered => simp only [applyDecision]; exact ih _ _ hp hlt1
    | sealBase name =>
      simp only [applyDecision, runLoop_after_seal]
      split
      · exact (hseal name _ rfl).1
      · exact ih _ _ (hseal name _ rfl).1 (hseal name _ rfl).2
    | sealSelf name =>
      simp only [applyDecision, runLoop_after_seal]
      split
      · exact (hseal name _ rfl).1
      · exact ih _ _ (hseal name _ rfl).1 (hseal name _ rfl).2

/-- In a run in which no call of `runCmdSealForTarget` panics and base-target
resolution succeeds and returns the target it was asked for, the names passed to
`runCmdSealForTarget`, in call order, are the output of the reference resolver on
the declared list; and in every run the calls are made at strictly increasing
positions of the declared list. -/
theorem Run_names_eq_reference_of_resolved (cmd : sealCmd) (env : RunEnv)
    (ts : List DynamicTarget) (hnc : env.NoCrash) (hres : BaseTargetsResolve cmd env ts)
    (hname : ∀ B b, env.FindBaseTarget B = .ok b → b.Name = B) :
    (Run cmd env ts).unitNames = referenceResolver cmd ts := by
  unfold RunTrace.unitNames
  rw [Run_final, referenceResolver_eq, runLoop_names_eq_reference cmd env hnc hname ts 0 _ hres]
  simp [LoopState.init]

/-- The calls of `Run` are made at strictly increasing positions of the declared list. -/
theorem Run_positions_increasing (cmd : sealCmd) (env : RunEnv) (ts : List DynamicTarget) :
    ((Run cmd env ts).final.calls.map SealCall.index).Pairwise (fun a b => a < b) := by
  rw [Run_final]
  exact runLoop_positions_increasing cmd env ts 0 _ (by simp [LoopState.init])
    (by simp [LoopState.init])

/-- The example project: `prod` keeps its name, `feat-1` and `feat-2` give the
one unit `feat`, `local` is dropped. -/
theorem Run_names_eq_reference_example :
    (Run exCmd exEnv exTargets).unitNames = referenceResolver exCmd exTargets ∧
      referenceResolver exCmd exTargets = ["prod", "feat"] :=
  ⟨Run_names_eq_reference_of_resolved exCmd exEnv exTargets exEnv_noCrash
      (exEnv_resolves exTargets) (fun _ _ h => by cases h; rfl),
   by decide⟩

/-- C11: the loop of `Run` does not refine the resolver of §4.3.  With `feat-1`
declared before `prod` and no base target `feat`, the reference resolver maps
`feat-1` to the base name `feat` and `prod` to its own name, while `Run` leaves
at line 163 and passes no name at all to `runCmdSealForTarget`, not even `prod`.
And on the project without secrets configuration the call for `prod` panics, so
the names passed stop at `prod` where the resolver goes on to `feat`. -/
theorem Run_early_exit_breaks_refinement :
    referenceResolver exCmd [exFeat1, exProd] = ["feat", "prod"] ∧
      (Run exCmd exEnvNoBase [exFeat1, exProd]).unitNames = [] ∧
      (Run exCmd exEnvNoBase [exFeat1, exProd]).result =
        .baseTargetError "target feat not existent in kluctl project config" ∧
      (Run exCmd exEnvNoBase [exProd]).unitNames = referenceResolver exCmd [exProd] ∧
      referenceResolver exCmd exTargets = ["prod", "feat"] ∧
      (Run exCmd exEnvNoSecrets exTargets).unitNames = ["prod"] := by
  decide
/-! ## Selection by target name -/

theorem runLoop_filtered (cmd : sealCmd) (env : RunEnv) (ts : List DynamicTarget) :
    ∀ (i : Nat) (st : LoopState), (∀ t ∈ ts, nameFilterPasses cmd t = false) →
      runLoop cmd env i ts st = (st, none) := by
  induction ts with
  | nil => intro i st _; rfl
  | cons t rest ih =>
    intro i st h
    have ht := h t (List.mem_cons_self _ _)
    rw [runLoop]
    simp only [loopBody, ht, Bool.not_false, if_true]
    exact ih _ _ (fun u hu => h u (List.mem_cons_of_mem _ hu))

/-- C13: when the requested target name is not empty and is the name of no
declared target, `Run` calls neither `runCmdSealForTarget` nor `FindBaseTarget`
and returns the no-target-matched error of line 182. -/
theorem Run_unknown_target_name (cmd : sealCmd) (env : RunEnv) (ts : List DynamicTarget)
    (hne : cmd.Target ≠ "") (hno : ∀ t ∈ ts, t.Target.Name ≠ cmd.Target) :
    (Run cmd env ts).final.calls = [] ∧ (Run cmd env ts).final.lookups = [] ∧
      (Run cmd env ts).result = .noTargetMatched ∧
      (Run cmd env ts).result.toError = some noTargetMatchedMsg := by
  have hf : ∀ t ∈ ts, nameFilterPasses cmd t = false := by
    intro t ht
    have := hno t ht
    simp [nameFilterPasses, bne, hne, Ne.symm this]
  have hloop := runLoop_filtered cmd env ts 0 LoopState.init hf
  have hfin : (Run cmd env ts).final = LoopState.init := by rw [Run_final, hloop]
  have hres : (Run cmd env ts).result = .noTargetMatched := by
    rw [Run_result_eq, hloop]
    rfl
  rw [hfin, hres]
  exact ⟨rfl, rfl, rfl, rfl⟩

/-- C13 at the example project: `--target staging` seals nothing. -/
theorem Run_unknown_target_name_witness :
    exCmdUnknown.Target ≠ "" ∧ (∀ t ∈ exTargets, t.Target.Name ≠ exCmdUnknown.Target) ∧
      (Run exCmdUnknown exEnv exTargets).final.calls = [] ∧
      (Run exCmdUnknown exEnv exTargets).final.lookups = [] ∧
      (Run exCmdUnknown exEnv exTargets).result = .noTargetMatched :=
  ⟨by decide, by decide,
   (Run_unknown_target_name exCmdUnknown exEnv exTargets (by decide) (by decide)).1,
   (Run_unknown_target_name exCmdUnknown exEnv exTargets (by decide) (by decide)).2.1,
   (Run_unknown_target_name exCmdUnknown exEnv exTargets (by decide) (by decide)).2.2.1⟩

theorem runLoop_calls_mono (cmd : sealCmd) (env : RunEnv) (ts : List DynamicTarget) :
    ∀ (i : Nat) (st : LoopState) (c : SealCall), c ∈ st.calls →
      c ∈ (runLoop cmd env i ts st).1.calls := by
  induction ts with
  | nil => intro i st c h; exact h
  | cons t rest ih =>
    intro i st c h
    rw [runLoop_cons]
    have hseal : ∀ (name : String) (st1 : LoopState), st1.calls = st.calls →
        c ∈ (if st1.sealPanics env name = true then (st1.recordCall env i name, some LoopExit.crashed)
          else runLoop cmd env (i + 1) rest (st1.recordCall env i name)).1.calls := by
      intro name st1 h1
      have hmem : c ∈ (LoopState.recordCall env i name st1).calls := by simp [LoopState.recordCall, h1, h]
      split
      · exact hmem
      · exact ih _ _ c hmem
    cases hd : decision cmd env t st.baseTargets <;>
      simp only [applyDecision, runLoop_after_seal] <;>
      first
        | exact h
        | exact ih _ _ c h
        | exact hseal _ _ rfl

theorem mem_recordCall (env : RunEnv) (i : Nat) (name : String) (st : LoopState) :
    (⟨i, name, env.sealOutcome (st.calls.map SealCall.name) name⟩ : SealCall) ∈
      (LoopState.recordCall env i name st).calls := by
  simp [LoopState.recordCall]

theorem recordCall_index_name (env : RunEnv) (i : Nat) (name : String) (st : LoopState) :
    ∃ c ∈ (LoopState.recordCall env i name st).calls, c.index = i ∧ c.name = name :=
  ⟨_, mem_recordCall env i name st, rfl, rfl⟩

theorem LoopState.BasesSealed.step {env : RunEnv} {i : Nat} {st st1 : LoopState}
    (h : st.BasesSealed env i) (hb : st1.baseTargets = st.baseTargets)
    (hc : ∀ c ∈ st.calls, c ∈ st1.calls) : st1.BasesSealed env (i + 1) := by
  intro B hB
  rw [hb] at hB
  obtain ⟨c, hc1, hlt, b, hfb, hn⟩ := h B hB
  exact ⟨c, hc c hc1, Nat.lt_succ_of_lt hlt, b, hfb, hn⟩

/-- With base-target resolution succeeding and no call panicking, the unit of
every target that passes the filters and has a `SealingConfig` is sealed. -/
theorem runLoop_seals_selected (cmd : sealCmd) (env : RunEnv) (hnc : env.NoCrash)
    (ts : List DynamicTarget) :
    ∀ (i : Nat) (st : LoopState), BaseTargetsResolve cmd env ts → st.BasesSealed env i →
      ∀ (j : Nat) (t : DynamicTarget), ts[j]? = some t → selectedForSealing cmd t = true →
        ∃ c ∈ (runLoop cmd env i ts st).1.calls, sealsUnitOf cmd env t (i + j) c := by
  induction ts with
  | nil => intro i st _ _ j t h; simp at h
  | cons u rest ih =>
    intro i st hres hinv j t hj hsel
    have hs := decision_selected cmd env u st.baseTargets
    have hnb := decision_needsBase cmd env u st.baseTargets
    rw [runLoop_cons]
    cases j with
    | zero =>
      simp only [List.getElem?_cons_zero, Option.some.injEq] at hj
      subst hj
      rw [hsel] at hs
      cases hd : decision cmd env u st.baseTargets with
      | filtered => rw [hd] at hs; cases hs
      | noSealingConfig => rw [hd] at hs; cases hs
      | abort err => exact absurd hd (hres.not_abort st.baseTargets err)
      | covered =>
        rw [hd] at hnb
        simp only [applyDecision, seal_of_noCrash hnc]
        obtain ⟨c, hc, hlt, b, hb, hn⟩ := hinv _ (decision_covered hd).1
        refine ⟨c, runLoop_calls_mono cmd env rest _ _ c hc, ?_⟩
        unfold sealsUnitOf
        rw [hnb]
        simp only [if_true]
        exact ⟨by omega, b, hb, hn⟩
      | sealBase name =>
        rw [hd] at hnb
        obtain ⟨_, b, hb, hbn⟩ := decision_sealBase hd
        simp only [applyDecision, seal_of_noCrash hnc]
        obtain ⟨c, hc, hci, hcn⟩ := recordCall_index_name env i name
          { st with noTargetMatch := false, lookups := st.lookups ++ [u.BaseTargetName],
                    baseTargets := u.BaseTargetName :: st.baseTargets }
        refine ⟨c, runLoop_calls_mono cmd env rest _ _ _ hc, ?_⟩
        unfold sealsUnitOf
        rw [hnb]
        simp only [if_true]
        exact ⟨by omega, b, hb, by rw [hcn, hbn]⟩
      | sealSelf name =>
        rw [hd] at hnb
        simp only [applyDecision, seal_of_noCrash hnc]
        obtain ⟨c, hc, hci, hcn⟩ := recordCall_index_name env i name { st with noTargetMatch := false }
        refine ⟨c, runLoop_calls_mono cmd env rest _ _ _ hc, ?_⟩
        unfold sealsUnitOf
        rw [hnb]
        simp only [Bool.false_eq_true, if_false]
        exact ⟨by omega, by rw [hcn]; exact decision_sealSelf hd⟩
    | succ j =>
      simp only [List.getElem?_cons_succ] at hj
      have hidx : i + (j + 1) = i + 1 + j := by omega
      rw [hidx]
      cases hd : decision cmd env u st.baseTargets with
      | filtered =>
        simp only [applyDecision, seal_of_noCrash hnc]
        refine ih _ _ hres.tail ?_ j t hj hsel
        exact hinv.step rfl (fun _ h => h)
      | noSealingConfig =>
        simp only [applyDecision, seal_of_noCrash hnc]
        refine ih _ _ hres.tail ?_ j t hj hsel
        exact hinv.step rfl (fun _ h => h)
      | abort err => exact absurd hd (hres.not_abort st.baseTargets err)
      | covered =>
        simp only [applyDecision, seal_of_noCrash hnc]
        refine ih _ _ hres.tail ?_ j t hj hsel
        exact hinv.step rfl (fun _ h => h)
      | sealBase name =>
        obtain ⟨_, b, hb, hbn⟩ := decision_sealBase hd
        simp only [applyDecision, seal_of_noCrash hnc]
        refine ih _ _ hres.tail ?_ j t hj hsel
        intro B hB
        simp only [LoopState.recordCall, List.mem_cons] at hB
        rcases hB with hB | hB
        · obtain ⟨c, hc, hci, hcn⟩ := recordCall_index_name env i name
            { st with noTargetMatch := false, lookups := st.lookups ++ [u.BaseTargetName],
                      baseTargets := u.BaseTargetName :: st.baseTargets }
          refine ⟨c, hc, by omega, b, ?_, by rw [hcn, hbn]⟩
          rw [hB]; exact hb
        · obtain ⟨c, hc1, hlt, b', hfb, hn⟩ := hinv B hB
          exact ⟨c, by simp [LoopState.recordCall, hc1], Nat.lt_succ_of_lt hlt, b', hfb, hn⟩
      | sealSelf name =>
        simp only [applyDecision, seal_of_noCrash hnc]
        refine ih _ _ hres.tail ?_ j t hj hsel
        exact hinv.step rfl (fun c hc => by simp [LoopState.recordCall, hc])

/-! ## The cluster filter -/

/-- With a non-empty requested cluster name, a target whose `Cluster` is nil
passes the cluster filter of line 148, and a target with a cluster reference
passes it exactly when its cluster is the requested one.  No call is made for a
target whose cluster differs from the requested one.  In a run in which no call
of `runCmdSealForTarget` panics and base-target resolution succeeds, a target
without cluster reference that passes the name filter and has a `SealingConfig`
is sealed: `runCmdSealForTarget` is called for its unit (at its position under
its own name, or at that or an earlier position under the name of its base
target). -/
theorem cluster_filter_sealed_of_resolved (cmd : sealCmd) (env : RunEnv)
    (ts : List DynamicTarget) (hc : cmd.Cluster ≠ "") :
    (∀ t : DynamicTarget, t.Target.Cluster = none → clusterFilterPasses cmd t = true) ∧
      (∀ (t : DynamicTarget) (c : String), t.Target.Cluster = some c →
        (clusterFilterPasses cmd t = true ↔ c = cmd.Cluster)) ∧
      (env.NoCrash → BaseTargetsResolve cmd env ts →
        ∀ (j : Nat) (t : DynamicTarget), ts[j]? = some t → t.Target.Cluster = none →
          nameFilterPasses cmd t = true → t.Target.SealingConfig ≠ none →
          ∃ c ∈ (Run cmd env ts).final.calls, sealsUnitOf cmd env t j c) ∧
      (∀ c ∈ (Run cmd env ts).final.calls, ∀ (t : DynamicTarget) (cl : String),
        ts[c.index]? = some t → t.Target.Cluster = some cl → cl = cmd.Cluster) := by
  have h1 : ∀ t : DynamicTarget, t.Target.Cluster = none → clusterFilterPasses cmd t = true := by
    intro t ht
    simp [clusterFilterPasses, ht]
  have h2 : ∀ (t : DynamicTarget) (c : String), t.Target.Cluster = some c →
      (clusterFilterPasses cmd t = true ↔ c = cmd.Cluster) := by
    intro t c ht
    by_cases he : c = cmd.Cluster
    · subst he; simp [clusterFilterPasses, ht, bne]
    · simp [clusterFilterPasses, ht, bne, hc, he, Ne.symm he]
  refine ⟨h1, h2, ?_, ?_⟩
  · intro hnc hres j t hj hnil hnm hsc
    have hsel : selectedForSealing cmd t = true := by
      cases hs : t.Target.SealingConfig with
      | none => exact absurd hs hsc
      | some sc => simp [selectedForSealing, passesFilters, hnm, h1 t hnil, hs]
    have := runLoop_seals_selected cmd env hnc ts 0 LoopState.init hres
      (by intro B hB; simp [LoopState.init] at hB) j t hj hsel
    rw [Nat.zero_add, ← Run_final] at this
    exact this
  · intro c hcall t cl ht hcl
    rw [Run_final] at hcall
    rcases runLoop_calls_selected cmd env ts 0 _ c hcall with h | ⟨j, u, hu, hi, hsel⟩
    · simp [LoopState.init] at h
    · rw [Nat.zero_add] at hi
      rw [hi, hu] at ht
      have hut : u = t := Option.some.inj ht
      rw [← hut] at hcl
      have hp : clusterFilterPasses cmd u = true := by
        simp only [selectedForSealing, passesFilters, Bool.and_eq_true] at hsel
        exact hsel.1.2
      exact (h2 u cl hcl).1 hp

/-- The example project with `--cluster c2`: `prod` (cluster `c1`) is filtered
out, the targets without cluster reference are kept and `feat` is sealed. -/
theorem cluster_filter_sealed_example :
    clusterFilterPasses exCmdCluster exFeat1 = true ∧
      clusterFilterPasses exCmdCluster exProd = false ∧
      (Run exCmdCluster exEnv exTargets).final.calls =
        [⟨1, "feat", .error "sealing feat failed"⟩] :=
  ⟨(cluster_filter_sealed_of_resolved exCmdCluster exEnv exTargets (by decide)).1 exFeat1 rfl,
   by decide, by decide⟩

/-- C16: a target without cluster reference passes the cluster filter, yet it
is not always sealed.  With `--cluster c2`, `feat-1` declared before `free` and
no base target `feat`: both targets have no cluster reference and pass the
cluster filter, `free` also passes the name filter and has a `SealingConfig`,
but `Run` leaves at line 163 while visiting `feat-1` and makes no call, so `free`
is not sealed, although it is sealed when `feat-1` is not declared.  A target
with the cluster reference `c1` does not pass the filter. -/
theorem Run_early_return_skips_clusterless :
    exFree.Target.Cluster = none ∧ clusterFilterPasses exCmdCluster exFree = true ∧
      nameFilterPasses exCmdCluster exFree = true ∧ exFree.Target.SealingConfig ≠ none ∧
      (Run exCmdCluster exEnvNoBase [exFeat1, exFree]).final.calls = [] ∧
      (Run exCmdCluster exEnvNoBase [exFeat1, exFree]).result =
        .baseTargetError "target feat not existent in kluctl project config" ∧
      (Run exCmdCluster exEnvNoBase [exFree]).final.calls = [⟨0, "free", .ok ()⟩] ∧
      clusterFilterPasses exCmdCluster exProd = false := by
  decide
/-! ## Effective sealed-secrets settings -/

theorem settings_eq (p : LoadedKluctlProject) (ctx : commandCtx) (targetName : String) :
    sealedSecretsNamespace p = (effectiveSettings p ctx targetName).Namespace ∧
      sealedSecretsControllerName p = (effectiveSettings p ctx targetName).ControllerName ∧
      bootstrapEnabled p = (effectiveSettings p ctx targetName).Bootstrap ∧
      outputPattern ctx targetName = (effectiveSettings p ctx targetName).OutputPattern := by
  obtain ⟨sc⟩ := p
  obtain ⟨kp, tgt, dss⟩ := ctx
  refine ⟨?_, ?_, ?_, ?_⟩
  · rcases sc with _ | ⟨sets, _ | ⟨b, ns, cn⟩⟩ <;>
      simp [sealedSecretsNamespace, effectiveSettings, configuredSealedSecrets]
  · rcases sc with _ | ⟨sets, _ | ⟨b, ns, cn⟩⟩ <;>
      simp [sealedSecretsControllerName, effectiveSettings, configuredSealedSecrets]
  · rcases sc with _ | ⟨sets, _ | ⟨b, ns, cn⟩⟩ <;>
      simp [bootstrapEnabled, effectiveSettings, configuredSealedSecrets]
    cases b <;> rfl
  · rcases dss with _ | ⟨op⟩ <;> simp [outputPattern, effectiveSettings]

theorem sealAfterBootstrap_events (cmd : sealCmd) (env : SealEnv) (p : LoadedKluctlProject)
    (ctx : commandCtx) (targetName : String) (evs : List SealEvent) :
    ∃ cluster rest,
      (sealAfterBootstrap cmd env p ctx targetName evs).2 ++ rest =
        evs ++ [.LoadClusterConfig ctx.Target.Cluster,
          .NewSealer (sealedSecretsNamespace p) (sealedSecretsControllerName p) cluster
            cmd.ForceReseal,
          .SealCommandRun (outputPattern ctx targetName)] ∧
      ((sealAfterBootstrap cmd env p ctx targetName evs).1 = .ok () → rest = []) := by
  unfold sealAfterBootstrap
  cases h1 : env.LoadClusterConfig ctx.Target.Cluster with
  | error e =>
    exact ⟨"", [.NewSealer (sealedSecretsNamespace p) (sealedSecretsControllerName p) ""
      cmd.ForceReseal, .SealCommandRun (outputPattern ctx targetName)], by simp, by simp⟩
  | ok cluster =>
    refine ⟨cluster, ?_⟩
    simp only
    cases h2 : env.NewSealer (sealedSecretsNamespace p) (sealedSecretsControllerName p) cluster
        cmd.ForceReseal with
    | some e => exact ⟨[.SealCommandRun (outputPattern ctx targetName)], by simp, by simp⟩
    | none =>
      simp only
      cases h3 : env.SealCommandRun (outputPattern ctx targetName) with
      | some e => exact ⟨[], by simp, by simp⟩
      | none => exact ⟨[], by simp, by simp⟩

/-! ## Collaborator calls of one sealing -/

theorem runCmdSealForTarget_events (cmd : sealCmd) (env : SealEnv) (p : LoadedKluctlProject)
    (targetName : String) (ctx : commandCtx) (secrets : SecretBundle)
    (hctx : env.withProjectTargetCommandContext targetName = .ok ctx)
    (hload : loadSecrets env ctx ctx.Target =
      (.ok (), [.MergeSecretsIntoAllChildren secrets])) :
    (∃ cluster rest,
      (runCmdSealForTarget cmd env p targetName).2 ++ rest =
        [.MergeSecretsIntoAllChildren secrets, .RenderDeployments] ++
          (if bootstrapEnabled p then [.BootstrapSealedSecrets (sealedSecretsNamespace p)]
           else []) ++
          [.LoadClusterConfig ctx.Target.Cluster,
           .NewSealer (sealedSecretsNamespace p) (sealedSecretsControllerName p) cluster
             cmd.ForceReseal,
           .SealCommandRun (outputPattern ctx targetName)] ∧
      ((runCmdSealForTarget cmd env p targetName).1 = .ok () → rest = [])) ∧
      (env.RenderDeployments = none →
        ((∃ ns, SealEvent.BootstrapSealedSecrets ns ∈ (runCmdSealForTarget cmd env p targetName).2) ↔
          bootstrapEnabled p = true)) := by
  unfold runCmdSealForTarget
  rw [hctx]
  simp only
  rw [hload]
  simp only
  cases hr : env.RenderDeployments with
  | some e =>
    refine ⟨⟨"", _, rfl, by simp⟩, by simp⟩
  | none =>
    simp only
    cases hb : bootstrapEnabled p with
    | false =>
      simp only [Bool.false_eq_true, if_false, List.append_nil]
      obtain ⟨cluster, rest, hev, hok⟩ := sealAfterBootstrap_events cmd env p ctx targetName
        ([.MergeSecretsIntoAllChildren secrets] ++ [.RenderDeployments])
      refine ⟨⟨cluster, rest, by simpa using hev, hok⟩, fun _ => ?_⟩
      simp only [iff_false, not_exists]
      intro ns hmem
      have : SealEvent.BootstrapSealedSecrets ns ∈
          (sealAfterBootstrap cmd env p ctx targetName
            ([.MergeSecretsIntoAllChildren secrets] ++ [.RenderDeployments])).2 ++ rest :=
        List.mem_append_left _ hmem
      rw [hev] at this
      simp at this
    | true =>
      simp only [if_true]
      cases hbs : env.BootstrapSealedSecrets (sealedSecretsNamespace p) with
      | some e =>
        refine ⟨⟨"", _, rfl, by simp⟩, fun _ => ?_⟩
        simp
      | none =>
        simp only
        obtain ⟨cluster, rest, hev, hok⟩ := sealAfterBootstrap_events cmd env p ctx targetName
          ([.MergeSecretsIntoAllChildren secrets] ++ [.RenderDeployments] ++
            [.BootstrapSealedSecrets (sealedSecretsNamespace p)])
        refine ⟨⟨cluster, rest, by simpa using hev, hok⟩, fun _ => ?_⟩
        simp only [iff_true]
        refine ⟨sealedSecretsNamespace p, ?_⟩
        have hsub : ∀ e ∈ ([.MergeSecretsIntoAllChildren secrets] ++ [.RenderDeployments] ++
            [SealEvent.BootstrapSealedSecrets (sealedSecretsNamespace p)] : List SealEvent),
            e ∈ (sealAfterBootstrap cmd env p ctx targetName
              ([.MergeSecretsIntoAllChildren secrets] ++ [.RenderDeployments] ++
                [.BootstrapSealedSecrets (sealedSecretsNamespace p)])).2 := by
          intro e he
          unfold sealAfterBootstrap
          cases env.LoadClusterConfig ctx.Target.Cluster with
          | error e' => simp only; exact List.mem_append_left _ he
          | ok cl =>
            simp only
            cases env.NewSealer (sealedSecretsNamespace p) (sealedSecretsControllerName p) cl
                cmd.ForceReseal with
            | some e' => simp only; exact List.mem_append_left _ (List.mem_append_left _ he)
            | none =>
              simp only
              cases env.SealCommandRun (outputPattern ctx targetName) with
              | some e' =>
                simp only
                exact List.mem_append_left _ (List.mem_append_left _ (List.mem_append_left _ he))
              | none =>
                simp only
                exact List.mem_append_left _ (List.mem_append_left _ (List.mem_append_left _ he))
        exact hsub _ (by simp)

/-! ## Settings used by one sealing -/

/-- C12: the settings `runCmdSealForTarget` uses are the documented ones.  For
a sealing whose context is built and whose secrets load, the collaborator calls
are an initial part of (and, when the sealing succeeds, all of): merge secrets,
render, bootstrap with the effective namespace if bootstrap is enabled, load the
cluster configuration, construct the sealer with the effective namespace and
controller name and the force-reseal flag, seal with the effective output
pattern; so the bootstrap precedes the sealer.  Once rendering succeeded the
bootstrap is invoked exactly when `Bootstrap` is unset or true.  The effective
values are the configured ones, or `kube-system`, `sealed-secrets-controller`,
true and the unit name when unset; an absent `SecretsConfig` or `SealedSecrets`
section gives all project-level defaults. -/
theorem runCmdSealForTarget_effective_settings (cmd : sealCmd) (env : SealEnv)
    (p : LoadedKluctlProject) (targetName : String) (ctx : commandCtx) (secrets : SecretBundle)
    (hctx : env.withProjectTargetCommandContext targetName = .ok ctx)
    (hload : loadSecrets env ctx ctx.Target =
      (.ok (), [.MergeSecretsIntoAllChildren secrets])) :
    (∃ cluster rest,
      (runCmdSealForTarget cmd env p targetName).2 ++ rest =
        expectedEvents cmd ctx (effectiveSettings p ctx targetName) secrets cluster ∧
      ((runCmdSealForTarget cmd env p targetName).1 = .ok () → rest = [])) ∧
      (env.RenderDeployments = none →
        ((∃ ns, SealEvent.BootstrapSealedSecrets ns ∈ (runCmdSealForTarget cmd env p targetName).2) ↔
          ((configuredSealedSecrets p).bind (fun ss => ss.Bootstrap) = none ∨
            (configuredSealedSecrets p).bind (fun ss => ss.Bootstrap) = some true))) ∧
      (∀ ss, configuredSealedSecrets p = some ss →
        (effectiveSettings p ctx targetName).Namespace = ss.Namespace.getD "kube-system" ∧
        (effectiveSettings p ctx targetName).ControllerName =
          ss.ControllerName.getD "sealed-secrets-controller" ∧
        (effectiveSettings p ctx targetName).Bootstrap = ss.Bootstrap.getD true) ∧
      ((p.SecretsConfig = none ∨ ∃ cfg, p.SecretsConfig = some cfg ∧ cfg.SealedSecrets = none) →
        (effectiveSettings p ctx targetName).Namespace = "kube-system" ∧
        (effectiveSettings p ctx targetName).ControllerName = "sealed-secrets-controller" ∧
        (effectiveSettings p ctx targetName).Bootstrap = true) ∧
      (effectiveSettings p ctx targetName).OutputPattern =
        (match ctx.SealedSecrets with
         | none => targetName
         | some ss =>
           match ss.OutputPattern with
           | none => targetName
           | some pattern => pattern) := by
  obtain ⟨hev, hboot⟩ := runCmdSealForTarget_events cmd env p targetName ctx secrets hctx hload
  obtain ⟨hns, hcn, hbe, hop⟩ := settings_eq p ctx targetName
  refine ⟨?_, ?_, ?_, ?_, ?_⟩
  · rw [hns, hcn, hbe, hop] at hev
    exact hev
  · intro hr
    rw [hboot hr, hbe]
    unfold effectiveSettings
    simp only
    cases (configuredSealedSecrets p).bind (fun ss => ss.Bootstrap) with
    | none => simp
    | some b => cases b <;> simp
  · intro ss hss
    simp [effectiveSettings, hss]
  · intro h
    have hnone : configuredSealedSecrets p = none := by
      rcases h with h | ⟨cfg, h1, h2⟩
      · simp [configuredSealedSecrets, h]
      · simp [configuredSealedSecrets, h1, h2]
    simp [effectiveSettings, hnone]
  · unfold effectiveSettings
    simp only
    cases ctx.SealedSecrets with
    | none => rfl
    | some ss => cases hp : ss.OutputPattern <;> simp [hp]

/-- C12 at the example project: with no `SealedSecrets` section every default
applies; with the namespace set and the bootstrap switched off the sealer gets
that namespace and no bootstrap call is made. -/
theorem runCmdSealForTarget_effective_settings_witness :
    exSealEnv.withProjectTargetCommandContext "prod" = .ok exCtx ∧
      loadSecrets exSealEnv exCtx exCtx.Target =
        (.ok (), [.MergeSecretsIntoAllChildren
          [("user", "root"), ("password", "p2"), ("token", "t")]]) ∧
      (∃ cluster rest,
        (runCmdSealForTarget exCmd exSealEnv exCtx.KluctlProject "prod").2 ++ rest =
          expectedEvents exCmd exCtx (effectiveSettings exCtx.KluctlProject exCtx "prod")
            [("user", "root"), ("password", "p2"), ("token", "t")] cluster ∧
        ((runCmdSealForTarget exCmd exSealEnv exCtx.KluctlProject "prod").1 = .ok () →
          rest = [])) ∧
      runCmdSealForTarget exCmd exSealEnv exCtx.KluctlProject "prod" =
        (.ok (),
          [.MergeSecretsIntoAllChildren [("user", "root"), ("password", "p2"), ("token", "t")],
           .RenderDeployments, .BootstrapSealedSecrets "kube-system",
           .LoadClusterConfig (some "c1"),
           .NewSealer "kube-system" "sealed-secrets-controller" "c1" false,
           .SealCommandRun "prod"]) ∧
      runCmdSealForTarget exCmd exSealEnv exProjectNoBootstrap "prod" =
        (.ok (),
          [.MergeSecretsIntoAllChildren [("user", "root"), ("password", "p2"), ("token", "t")],
           .RenderDeployments, .LoadClusterConfig (some "c1"),
           .NewSealer "sealing" "sealed-secrets-controller" "c1" false,
           .SealCommandRun "prod"]) :=
  ⟨rfl, by decide,
   (runCmdSealForTarget_effective_settings exCmd exSealEnv exCtx.KluctlProject "prod" exCtx
      [("user", "root"), ("password", "p2"), ("token", "t")] rfl (by decide)).1,
   by decide, by decide⟩

/-! ## Width of the last column -/

/-- C14: the code does not give the remaining space to the last column.  For
the two-column table `a | bbbb` on an 80-column terminal, with no limit widths
line 70 overwrites the width of column 0, the column at index
`len(limitWidths)`, and leaves the last column at 4; with one limit width it
does write the last column, but to 68, because `widthSum` already counts the
last column's own width 4: the remaining space is 80 - 1 - 3 - 4 = 72. -/
theorem Render_remaining_space_misplaced :
    computeWidths none exTable.rows 2 [] = some [68, 4] ∧
      computeWidths none exTable.rows 2 [5] = some [1, 68] ∧
      widthsFrom exTable.rows [] 0 2 = some [1, 4] ∧
      ((80 : Int) - 1 - (2 - 1) * 3 - 4 = 72) := by
  decide

/-! ## Stability of the row order -/

theorem rowLE_total (col : Int) (a b : Row) : rowLE col a b ∨ rowLE col b a := by
  unfold rowLE
  rcases lt_or_ge (sortKey col b) (sortKey col a) with h | h
  · right; exact not_lt.2 (le_of_lt h)
  · left; exact not_lt.2 h

theorem rowLE_trans (col : Int) (a b c : Row) (h1 : rowLE col a b) (h2 : rowLE col b c) :
    rowLE col a c := by
  unfold rowLE at *
  exact not_lt.2 (le_trans (not_lt.1 h1) (not_lt.1 h2))

theorem filter_orderedInsert (col : Int) (k : GoString) (a : Row) (l : List Row) :
    (l.orderedInsert (rowLE col) a).filter (fun r => decide (sortKey col r = k)) =
      (a :: l).filter (fun r => decide (sortKey col r = k)) := by
  induction l with
  | nil => rfl
  | cons b l ih =>
    rw [List.orderedInsert]
    split
    · rfl
    · rename_i hab
      by_cases ha : sortKey col a = k
      · by_cases hb : sortKey col b = k
        · exfalso
          apply hab
          unfold rowLE
          rw [ha, hb]
          exact lt_irrefl k
        · simp only [List.filter_cons, ha, hb, decide_True, decide_False, if_true, if_false,
            Bool.false_eq_true] at ih ⊢
          exact ih
      · by_cases hb : sortKey col b = k
        · simp only [List.filter_cons, ha, hb, decide_True, decide_False, if_true, if_false,
            Bool.false_eq_true] at ih ⊢
          rw [ih]
        · simp only [List.filter_cons, ha, hb, decide_True, decide_False, if_true, if_false,
            Bool.false_eq_true] at ih ⊢
          exact ih

theorem filter_insertionSort (col : Int) (k : GoString) (l : List Row) :
    (l.insertionSort (rowLE col)).filter (fun r => decide (sortKey col r = k)) =
      l.filter (fun r => decide (sortKey col r = k)) := by
  induction l with
  | nil => rfl
  | cons a l ih =>
    rw [List.insertionSort, filter_orderedInsert, List.filter_cons, List.filter_cons, ih]

/-! ## `SortRows` -/

/-- The order on cells is the byte-wise lexicographic one of Go's string
comparison: a proper prefix is less, and otherwise the first differing byte decides. -/
theorem goString_lt_iff (a b : Char) (as bs : GoString) :
    (([] : GoString) < b :: bs) ∧ ¬ (as < ([] : GoString)) ∧
      ((a :: as : GoString) < b :: bs ↔ a < b ∨ (a = b ∧ as < bs)) := by
  refine ⟨List.nil_lt_cons b bs, ?_, ?_⟩
  · intro h
    cases h
  · constructor
    · intro h
      cases h with
      | rel h => exact Or.inl h
      | cons h => exact Or.inr ⟨rfl, h⟩
    · rintro (h | ⟨rfl, h⟩)
      · exact List.Lex.rel h
      · exact List.Lex.cons h

/-- C17, as stated, fails for a negative column index.  Every row has more
than `-1` cells, yet with two or more rows behind the header the closure of
line 22 reads `t.rows[i+1][-1]` and `SortRows` panics instead of sorting. -/
theorem SortRows_negative_column :
    exSortTable.rows =
        ["name".toList, "kind".toList] ::
          [["x".toList, "b".toList], ["y".toList, "a".toList], ["z".toList, "b".toList]] ∧
      (∀ r ∈ [["x".toList, "b".toList], ["y".toList, "a".toList], ["z".toList, "b".toList]],
        (-1 : Int) < r.length) ∧
      exSortTable.SortRows (-1) = none ∧
      ¬ ∃ sorted, exSortTable.SortRows (-1) = some ⟨["name".toList, "kind".toList] :: sorted⟩ := by
  refine ⟨rfl, by decide, by decide, ?_⟩
  rintro ⟨sorted, h⟩
  have hnone : exSortTable.SortRows (-1) = none := by decide
  rw [hnone] at h
  cases h

/-- C17, amended: for a column index `col` that is not negative, on a table
with at least one row whose other rows all have more than `col` cells,
`SortRows` returns; it leaves the header row in place and replaces the other
rows by a permutation of themselves that is sorted in non-decreasing byte-wise
order of the cell in column `col` and keeps rows with equal cells in their
original relative order.  On a table with no rows it crashes, the slice
`t.rows[1:]` being out of range. -/
theorem SortRows_stable_sort (t : PrettyTable) (col : Int) (header : Row) (body : List Row)
    (hcol : 0 ≤ col) (hrows : t.rows = header :: body)
    (hcells : ∀ r ∈ body, col < r.length) :
    (∃ sorted, t.SortRows col = some ⟨header :: sorted⟩ ∧ sorted.Perm body ∧
        sorted.Pairwise (fun a b => ¬ (sortKey col b < sortKey col a)) ∧
        (∀ k : GoString, sorted.filter (fun r => decide (sortKey col r = k)) =
          body.filter (fun r => decide (sortKey col r = k))) ∧
        ∀ r ∈ body, r[col.toNat]? = some (sortKey col r)) ∧
      (PrettyTable.mk []).SortRows col = none := by
  refine ⟨?_, rfl⟩
  have hkey : ∀ r ∈ body, r[col.toNat]? = some (sortKey col r) := by
    intro r hr
    have := hcells r hr
    have hlt : col.toNat < r.length := by omega
    simp [sortKey, List.getD, List.getElem?_eq_getElem hlt]
  haveI : IsTotal Row (rowLE col) := ⟨rowLE_total col⟩
  haveI : IsTrans Row (rowLE col) := ⟨rowLE_trans col⟩
  unfold PrettyTable.SortRows SliceStable
  rw [hrows]
  simp only
  by_cases hlen : body.length ≤ 1
  · rw [if_pos hlen]
    refine ⟨body, rfl, List.Perm.refl _, ?_, fun _ => rfl, hkey⟩
    match body, hlen with
    | [], _ => exact List.Pairwise.nil
    | [r], _ => exact List.pairwise_singleton _ _
    | _ :: _ :: _, h => simp at h
  · rw [if_neg hlen]
    have hall : body.all (cellInRange col) = true := by
      rw [List.all_eq_true]
      intro r hr
      simp [cellInRange, hcol, hcells r hr]
    rw [if_pos hall]
    exact ⟨_, rfl, List.perm_insertionSort _ _, List.sorted_insertionSort (rowLE col) body,
      fun k => filter_insertionSort col k body, hkey⟩

/-- C17, amended, at an example table: the two rows with the key `b` keep their
order behind the row with the key `a`. -/
theorem SortRows_stable_sort_witness :
    (0 : Int) ≤ 1 ∧
      exSortTable.rows =
        ["name".toList, "kind".toList] ::
          [["x".toList, "b".toList], ["y".toList, "a".toList], ["z".toList, "b".toList]] ∧
      (∀ r ∈ [["x".toList, "b".toList], ["y".toList, "a".toList], ["z".toList, "b".toList]],
        (1 : Int) < r.length) ∧
      (∃ sorted, exSortTable.SortRows 1 = some ⟨["name".toList, "kind".toList] :: sorted⟩ ∧
        sorted.Perm
          [["x".toList, "b".toList], ["y".toList, "a".toList], ["z".toList, "b".toList]]) ∧
      exSortTable.SortRows 1 =
        some ⟨[["name".toList, "kind".toList], ["y".toList, "a".toList],
          ["x".toList, "b".toList], ["z".toList, "b".toList]]⟩ :=
  ⟨by decide, rfl, by decide,
   (let ⟨sorted, h1, h2, _⟩ :=
      (SortRows_stable_sort exSortTable 1 ["name".toList, "kind".toList]
        [["x".toList, "b".toList], ["y".toList, "a".toList], ["z".toList, "b".toList]]
        (by decide) rfl (by decide)).1
    ⟨sorted, h1, h2⟩),
   by decide⟩
/-! ## Lines and substrings -/

theorem splitLinesFrom_line (l : GoString) (hl : '\n' ∉ l) :
    ∀ (cur rest : GoString),
      splitLinesFrom cur (l ++ '\n' :: rest) = (cur ++ l) :: splitLinesFrom [] rest := by
  induction l with
  | nil => intro cur rest; simp [splitLinesFrom]
  | cons c l ih =>
    intro cur rest
    have hc : c ≠ '\n' := fun h => hl (by simp [h])
    have hl2 : '\n' ∉ l := fun h => hl (List.mem_cons_of_mem _ h)
    rw [List.cons_append, splitLinesFrom, if_neg hc, ih hl2]
    simp

theorem splitLines_unlines (ls : List GoString) (h : ∀ l ∈ ls, '\n' ∉ l) :
    splitLines (unlines ls) = ls := by
  induction ls with
  | nil => rfl
  | cons l ls ih =>
    unfold splitLines at ih ⊢
    rw [unlines, splitLinesFrom_line l (h l (List.mem_cons_self _ _)),
      ih (fun x hx => h x (List.mem_cons_of_mem _ hx))]
    simp

theorem unlines_append (a b : List GoString) : unlines (a ++ b) = unlines a ++ unlines b := by
  induction a with
  | nil => rfl
  | cons l ls ih => simp [unlines, ih]

theorem subStr_of_nonneg (cell : GoString) (pos : Nat) (w : Int) (hw : 0 ≤ w) :
    subStr cell pos (pos + w) = some ((cell.drop pos).take w.toNat) := by
  unfold subStr
  obtain ⟨n, rfl⟩ := Int.eq_ofNat_of_zero_le hw
  simp only [Int.toNat_ofNat]
  by_cases hp : pos > cell.length
  · have h1 : ((pos : Int) + (n : Int) > (cell.length : Int)) := by omega
    simp only [hp, if_true, h1, le_refl, Int.toNat_ofNat, Nat.sub_self, List.take_zero]
    simp [List.drop_eq_nil_of_le (show cell.length ≤ pos by omega)]
  · simp only [hp, if_false]
    by_cases h1 : ((pos : Int) + (n : Int) > (cell.length : Int))
    · have h2 : (pos : Int) ≤ (cell.length : Int) := by omega
      simp only [h1, if_true, h2, Int.toNat_ofNat]
      congr 1
      apply List.ext_getElem?
      intro i
      simp only [List.getElem?_take, List.getElem?_drop]
      by_cases hi : i < cell.length - pos
      · have : i < n := by omega
        simp [hi, this]
      · have : cell.length ≤ pos + i := by omega
        simp [hi, List.getElem?_eq_none this]
    · have h2 : (pos : Int) ≤ (pos : Int) + (n : Int) := by omega
      simp only [h1, if_false, h2, if_true]
      congr 2
      omega

theorem indexNewline_some (x : GoString) :
    ∀ nl, indexNewline x = some nl → nl < x.length ∧ '\n' ∉ x.take nl := by
  induction x with
  | nil => intro nl h; cases h
  | cons c rest ih =>
    intro nl h
    unfold indexNewline at h
    by_cases hc : c = '\n'
    · simp only [hc, if_true, Option.some.injEq] at h
      subst h
      simp
    · simp only [hc, if_false, Option.map_eq_some'] at h
      obtain ⟨i, hi, rfl⟩ := h
      obtain ⟨h1, h2⟩ := ih i hi
      refine ⟨by simp; omega, ?_⟩
      simp only [List.take_succ_cons, List.mem_cons, not_or]
      exact ⟨fun h => hc h.symm, h2⟩

theorem indexNewline_none (x : GoString) : indexNewline x = none → '\n' ∉ x := by
  induction x with
  | nil => intro _ h; cases h
  | cons c rest ih =>
    intro h
    unfold indexNewline at h
    by_cases hc : c = '\n'
    · simp [hc] at h
    · simp only [hc, if_false, Option.map_eq_none'] at h
      simp only [List.mem_cons, not_or]
      exact ⟨fun h' => hc h'.symm, ih h⟩

/-! ## One column of one pass -/

/-- One column of one pass: with a width that is not negative the code writes
exactly `w` bytes without newline, never moves the position back, and with a
width of at least 1 it moves the position of a column that has text left forward. -/
theorem wrapCell_spec (w : Int) (cell : GoString) (pos : Nat) (hw : 0 ≤ w) :
    ∃ txt pos1, wrapCell w cell pos = some (txt, pos1) ∧ txt.length = w.toNat ∧
      '\n' ∉ txt ∧ pos ≤ pos1 ∧ (1 ≤ w → pos < cell.length → pos < pos1) := by
  unfold wrapCell
  rw [subStr_of_nonneg cell pos w hw]
  simp only
  have hlen : ((cell.drop pos).take w.toNat).length = min w.toNat (cell.length - pos) := by
    simp
  cases hnl : indexNewline ((cell.drop pos).take w.toNat) with
  | some nl =>
    obtain ⟨h1, h2⟩ := indexNewline_some _ nl hnl
    have hnlw : nl < w.toNat := by omega
    have hxl : (((cell.drop pos).take w.toNat).take nl).length = nl := by
      rw [List.length_take]; omega
    simp only [hxl]
    have hpad : ¬ (w - (nl : Int) < 0) := by omega
    simp only [repeatByte, hpad, if_false]
    refine ⟨_, _, rfl, ?_, ?_, by omega, fun _ _ => by omega⟩
    · simp only [List.length_append, hxl, List.length_replicate]; omega
    · simp only [List.mem_append, not_or]
      exact ⟨h2, fun h => by simp [List.mem_replicate] at h⟩
  | none =>
    have h2 := indexNewline_none _ hnl
    simp only
    have hpad : ¬ (w - (((cell.drop pos).take w.toNat).length : Int) < 0) := by
      rw [hlen]; omega
    simp only [repeatByte, hpad, if_false]
    refine ⟨_, _, rfl, ?_, ?_, by omega, fun h1 h3 => ?_⟩
    · simp only [List.length_append, List.length_replicate]
      rw [hlen]; omega
    · simp only [List.mem_append, not_or]
      exact ⟨h2, fun h => by simp [List.mem_replicate] at h⟩
    · rw [hlen]; omega

/-- With a computed width of 0 no position advances. -/
theorem wrapCell_zero (cell : GoString) (pos : Nat) : wrapCell 0 cell pos = some ([], pos) := by
  unfold wrapCell
  rw [show ((pos : Int) + 0) = (pos : Int) + (0 : Int) from rfl,
    subStr_of_nonneg cell pos 0 (le_refl 0)]
  simp [indexNewline, repeatByte]

theorem anyLess_true (pos : List Nat) :
    ∀ (l : Row), anyLess pos l = some true → 0 < remaining pos l := by
  induction pos with
  | nil => intro l h; simp [anyLess] at h
  | cons p ps ih =>
    intro l h
    cases l with
    | nil => simp [anyLess] at h
    | cons cell cells =>
      simp only [anyLess, Option.map_eq_some'] at h
      obtain ⟨r, hr, hb⟩ := h
      simp only [remaining]
      cases r with
      | true => have := ih cells hr; omega
      | false =>
        simp only [Bool.or_false, decide_eq_true_eq] at hb
        omega

theorem anyLess_some (pos : List Nat) :
    ∀ (l : Row), pos.length ≤ l.length → ∃ b, anyLess pos l = some b := by
  induction pos with
  | nil => intro l _; exact ⟨false, rfl⟩
  | cons p ps ih =>
    intro l h
    cases l with
    | nil => simp at h
    | cons cell cells =>
      obtain ⟨b, hb⟩ := ih cells (by simpa using h)
      exact ⟨decide (p < cell.length) || b, by simp [anyLess, hb]⟩

/-! ## One pass and the loop over one row -/

/-- One pass over the columns: with widths that are not negative it writes a
line of the table's width without newline and moves no position back; with
widths of at least 1 the text left to print shrinks whenever some is left. -/
theorem wrapCells_spec (widths : List Int) :
    ∀ (l : Row) (pos : List Nat), (∀ w ∈ widths, 0 ≤ w) → pos.length = widths.length →
      widths.length ≤ l.length →
      ∃ line pos1, wrapCells widths l pos = some (line, pos1) ∧ pos1.length = widths.length ∧
        line.length = (widths.map Int.toNat).sum + 3 * (widths.length - 1) ∧ '\n' ∉ line ∧
        remaining pos1 l ≤ remaining pos l ∧
        ((∀ w ∈ widths, 1 ≤ w) → 0 < remaining pos l → remaining pos1 l < remaining pos l) := by
  induction widths with
  | nil =>
    intro l pos _ hp _
    have : pos = [] := List.length_eq_zero.1 (by simpa using hp)
    subst this
    exact ⟨[], [], rfl, rfl, rfl, by simp, le_refl _, fun _ h => by simp [remaining] at h⟩
  | cons w ws ih =>
    intro l pos hw hp hl
    cases l with
    | nil => simp at hl
    | cons cell cells =>
      cases pos with
      | nil => simp at hp
      | cons p ps =>
        obtain ⟨txt, p1, hc, htl, htn, hpp, hadv⟩ := wrapCell_spec w cell p
          (hw w (List.mem_cons_self _ _))
        obtain ⟨rest, ps1, hr, hpl, hrl, hrn, hrem, hstrict⟩ := ih cells ps
          (fun x hx => hw x (List.mem_cons_of_mem _ hx)) (by simpa using hp) (by simpa using hl)
        refine ⟨(txt ++ if ws.isEmpty = true then [] else " | ".toList) ++ rest, p1 :: ps1,
          by simp only [wrapCells, hc, hr], by simp [hpl], ?_, ?_, ?_, ?_⟩
        · simp only [List.length_append, htl, hrl, List.map_cons, List.sum_cons,
            List.length_cons]
          cases ws with
          | nil => simp
          | cons w2 ws2 => simp [List.length_cons]; omega
        · simp only [List.mem_append, not_or]
          refine ⟨⟨htn, ?_⟩, hrn⟩
          cases ws with
          | nil => simp
          | cons w2 ws2 => simp
        · simp only [remaining]; omega
        · intro hw1 hpos
          simp only [remaining] at hpos ⊢
          by_cases hlt : p < cell.length
          · have := hadv (hw1 w (List.mem_cons_self _ _)) hlt
            omega
          · have h0 : 0 < remaining ps cells := by omega
            have := hstrict (fun x hx => hw1 x (List.mem_cons_of_mem _ hx)) h0
            omega

/-- With widths of at least 1 the loop over one row ends: more passes than
there are bytes left to print are never needed. -/
theorem wrapLoop_done (widths : List Int) (l : Row) (hw : ∀ w ∈ widths, 1 ≤ w)
    (hl : widths.length ≤ l.length) :
    ∀ (m : Nat) (pos : List Nat) (buf : GoString), pos.length = widths.length →
      remaining pos l ≤ m →
      ∃ out, ∀ fuel, m < fuel → wrapLoop widths l fuel pos buf = .done out := by
  have hw0 : ∀ w ∈ widths, 0 ≤ w := fun w h => le_trans (by decide) (hw w h)
  intro m
  induction m with
  | zero =>
    intro pos buf hp hm
    obtain ⟨b, hb⟩ := anyLess_some pos l (by omega)
    cases b with
    | true => have := anyLess_true pos l hb; omega
    | false =>
      refine ⟨buf, fun fuel hf => ?_⟩
      obtain ⟨f, rfl⟩ : ∃ f, fuel = f + 1 := ⟨fuel - 1, by omega⟩
      simp only [wrapLoop, hb]
  | succ m ih =>
    intro pos buf hp hm
    obtain ⟨b, hb⟩ := anyLess_some pos l (by omega)
    cases b with
    | false =>
      refine ⟨buf, fun fuel hf => ?_⟩
      obtain ⟨f, rfl⟩ : ∃ f, fuel = f + 1 := ⟨fuel - 1, by omega⟩
      simp only [wrapLoop, hb]
    | true =>
      have hpos := anyLess_true pos l hb
      obtain ⟨line, pos1, hc, hpl, _, _, _, hstrict⟩ := wrapCells_spec widths l pos hw0 hp hl
      have hlt := hstrict hw hpos
      obtain ⟨out, hout⟩ := ih pos1 (buf ++ "| ".toList ++ line ++ " |\n".toList) hpl (by omega)
      refine ⟨out, fun fuel hf => ?_⟩
      obtain ⟨f, rfl⟩ : ∃ f, fuel = f + 1 := ⟨fuel - 1, by omega⟩
      simp only [wrapLoop, hb, hc]
      exact hout f (by omega)

/-! ## The loop over the rows and the column widths -/

theorem renderRows_done (widths : List Int) (hsep : GoString) (hw : ∀ w ∈ widths, 1 ≤ w)
    (rows : List Row) :
    (∀ r ∈ rows, widths.length ≤ r.length) → ∀ (buf : GoString),
      ∃ n out, ∀ fuel, n ≤ fuel → renderRows fuel widths hsep rows buf = .done out := by
  induction rows with
  | nil => intro _ buf; exact ⟨0, buf, fun _ _ => rfl⟩
  | cons l rest ih =>
    intro hl buf
    obtain ⟨out1, h1⟩ := wrapLoop_done widths l hw (hl l (List.mem_cons_self _ _))
      (remaining (List.replicate widths.length 0) l) (List.replicate widths.length 0) buf
      (by simp) (le_refl _)
    obtain ⟨n2, out, h2⟩ := ih (fun r hr => hl r (List.mem_cons_of_mem _ hr)) (out1 ++ hsep)
    refine ⟨max (remaining (List.replicate widths.length 0) l + 1) n2, out, fun fuel hf => ?_⟩
    simp only [renderRows, h1 fuel (by omega)]
    exact h2 fuel (by omega)

theorem maxWidthFrom_some (col : Nat) (maxW : Int) (rows : List Row) :
    (∀ r ∈ rows, col < r.length) → ∀ w, ∃ v, maxWidthFrom col maxW rows w = some v := by
  induction rows with
  | nil => intro _ w; exact ⟨w, rfl⟩
  | cons l rest ih =>
    intro h w
    have hl := h l (List.mem_cons_self _ _)
    simp only [maxWidthFrom, List.getElem?_eq_getElem hl]
    exact ih (fun r hr => h r (List.mem_cons_of_mem _ hr)) _

theorem widthsFrom_some (rows : List Row) (limitWidths : List Int) :
    ∀ (n i : Nat), (∀ r ∈ rows, i + n ≤ r.length) →
      ∃ ws, widthsFrom rows limitWidths i n = some ws ∧ ws.length = n := by
  intro n
  induction n with
  | zero => intro i _; exact ⟨[], rfl, rfl⟩
  | succ n ih =>
    intro i h
    obtain ⟨v, hv⟩ := maxWidthFrom_some i
      (if i < limitWidths.length then limitWidths.getD i (-1) else -1) rows
      (fun r hr => by have := h r hr; omega) 0
    obtain ⟨ws, hws, hlen⟩ := ih (i + 1) (fun r hr => by have := h r hr; omega)
    refine ⟨v :: ws, ?_, by simp [hlen]⟩
    simp only [widthsFrom, maxWidth, hv, hws]

theorem computeWidths_some (terminalWidth : Option Int) (rows : List Row) (cols : Nat)
    (limitWidths : List Int) (h : ∀ r ∈ rows, cols ≤ r.length) :
    ∃ widths, computeWidths terminalWidth rows cols limitWidths = some widths ∧
      widths.length = cols := by
  obtain ⟨ws, hws, hlen⟩ := widthsFrom_some rows limitWidths cols 0
    (fun r hr => by have := h r hr; omega)
  unfold computeWidths
  rw [hws]
  simp only
  split
  · exact ⟨_, rfl, by simp [hlen]⟩
  · exact ⟨_, rfl, hlen⟩

/-- The separator cells for widths that are not negative: as long as a line
of the table, without newline. -/
theorem hsepCells_spec (widths : List Int) (hw : ∀ w ∈ widths, 0 ≤ w) :
    ∃ cells, hsepCells widths = some cells ∧
      cells.length = (widths.map Int.toNat).sum + 3 * (widths.length - 1) ∧ '\n' ∉ cells := by
  induction widths with
  | nil => exact ⟨[], rfl, rfl, by simp⟩
  | cons w ws ih =>
    obtain ⟨rest, hr, hrl, hrn⟩ := ih (fun x hx => hw x (List.mem_cons_of_mem _ hx))
    have hw0 : ¬ (w < 0) := not_lt.2 (hw w (List.mem_cons_self _ _))
    refine ⟨(List.replicate w.toNat '-' ++ if ws.isEmpty = true then [] else "-+-".toList) ++ rest,
      by simp only [hsepCells, repeatByte, hw0, if_false, hr], ?_, ?_⟩
    · simp only [List.length_append, List.length_replicate, hrl, List.map_cons, List.sum_cons,
        List.length_cons]
      cases ws with
      | nil => simp
      | cons w2 ws2 => simp [List.length_cons]; omega
    · simp only [List.mem_append, not_or]
      refine ⟨⟨fun h => by simp [List.mem_replicate] at h, ?_⟩, hrn⟩
      cases ws with
      | nil => simp
      | cons w2 ws2 => simp

/-! ## Termination of `Render` -/

theorem wrapLoop_zero_width (fuel : Nat) :
    ∀ buf : GoString, wrapLoop [0] ["a".toList] fuel [0] buf = .outOfFuel := by
  induction fuel with
  | zero => intro buf; rfl
  | succ f ih =>
    intro buf
    have h1 : anyLess [0] ["a".toList] = some true := by decide
    have h2 : wrapCells [0] ["a".toList] [0] = some ([], [0]) := by decide
    simp only [wrapLoop, h1, h2]
    exact ih _

theorem exWrapTable_widths : computeWidths none exWrapTable.rows 2 [5, 3] = some [5, 3] := by
  decide

/-- C15: `Render` terminates when every row has at least as many cells as the
header row and every computed column width is at least 1: from some number of
passes on, the bound on passes is never reached and the same string is
returned.  Each pass moves the position of every column that has text left
forward.  With a computed width of 0 no position advances, and for the table
with the single cell `a` and the limit width 0 the loop never ends. -/
theorem Render_terminates (terminalWidth : Option Int) (t : PrettyTable)
    (limitWidths : List Int) (header : Row) (rest : List Row)
    (hrows : t.rows = header :: rest) (hcells : ∀ r ∈ t.rows, header.length ≤ r.length)
    (hwidths : ∀ widths, computeWidths terminalWidth t.rows header.length limitWidths =
      some widths → ∀ w ∈ widths, 1 ≤ w) :
    (∃ n out, ∀ fuel, n ≤ fuel → t.Render fuel terminalWidth limitWidths = .done out) ∧
      (∀ (w : Int) (cell : GoString) (pos : Nat), 1 ≤ w → pos < cell.length →
        ∃ txt pos1, wrapCell w cell pos = some (txt, pos1) ∧ pos < pos1) ∧
      (∀ (cell : GoString) (pos : Nat), wrapCell 0 cell pos = some ([], pos)) ∧
      (∀ fuel, exCellTable.Render fuel none [0] = .outOfFuel) ∧
      (∀ fuel, (PrettyTable.mk []).Render fuel terminalWidth limitWidths = .panic) := by
  refine ⟨?_, ?_, wrapCell_zero, ?_, fun _ => rfl⟩
  · obtain ⟨widths, hcw, hlen⟩ := computeWidths_some terminalWidth t.rows header.length
      limitWidths hcells
    have hw1 := hwidths widths hcw
    have hw0 : ∀ w ∈ widths, 0 ≤ w := fun w h => le_trans (by decide) (hw1 w h)
    obtain ⟨cells, hcells2, _, _⟩ := hsepCells_spec widths hw0
    obtain ⟨n, out, hout⟩ := renderRows_done widths ("+-".toList ++ cells ++ "-+\n".toList) hw1
      t.rows (fun r hr => by rw [hlen]; exact hcells r hr)
      ("+-".toList ++ cells ++ "-+\n".toList)
    refine ⟨n, out, fun fuel hf => ?_⟩
    have := hout fuel hf
    unfold PrettyTable.Render
    rw [hrows] at hcw this ⊢
    simp only [hcw, hsepLine, hcells2, Option.map_some']
    exact this
  · intro w cell pos hw hp
    obtain ⟨txt, pos1, h, _, _, _, hadv⟩ := wrapCell_spec w cell pos (le_trans (by decide) hw)
    exact ⟨txt, pos1, h, hadv hw hp⟩
  · intro fuel
    have h1 : computeWidths none exCellTable.rows 1 [0] = some [0] := by decide
    have h2 : hsepLine [0] = some "+--+\n".toList := by decide
    show (match exCellTable.rows with
      | [] => Exec.panic
      | header :: _ =>
        match computeWidths none exCellTable.rows header.length [0] with
        | none => Exec.panic
        | some widths =>
          match hsepLine widths with
          | none => Exec.panic
          | some hsep => renderRows fuel widths hsep exCellTable.rows hsep) = Exec.outOfFuel
    simp only [exCellTable, List.length_singleton] at h1 ⊢
    simp only [h1, h2, renderRows, List.length_singleton, List.replicate]
    rw [wrapLoop_zero_width]

/-- C15 at an example table with the widths 5 and 3: three passes per row suffice. -/
theorem Render_terminates_witness :
    exWrapTable.rows = ["a".toList, "bbbb".toList] :: [["hello world".toList, "x\ny".toList]] ∧
      (∀ r ∈ exWrapTable.rows, 2 ≤ r.length) ∧
      (∀ widths, computeWidths none exWrapTable.rows 2 [5, 3] = some widths →
        ∀ w ∈ widths, 1 ≤ w) ∧
      (∃ n out, ∀ fuel, n ≤ fuel → exWrapTable.Render fuel none [5, 3] = .done out) ∧
      exWrapTable.Render 4 none [5, 3] =
        .done ("+-------+-----+\n| a     | bbb |\n|       | b   |\n+-------+-----+\n" ++
          "| hello | x   |\n|  worl | y   |\n| d     |     |\n+-------+-----+\n").toList :=
  ⟨rfl, by decide,
   fun widths h => by rw [exWrapTable_widths] at h; cases h; decide,
   (Render_terminates none exWrapTable [5, 3] ["a".toList, "bbbb".toList]
      [["hello world".toList, "x\ny".toList]] rfl (by decide)
      (fun widths h => by
        have h2 : computeWidths none exWrapTable.rows 2 [5, 3] = some widths := h
        rw [exWrapTable_widths] at h2; cases h2; decide)).1,
   by decide⟩

/-! ## Lines written by `Render` -/

theorem wrapLoop_lines (widths : List Int) (l : Row) (hw : ∀ w ∈ widths, 0 ≤ w)
    (hl : widths.length ≤ l.length) :
    ∀ (fuel : Nat) (pos : List Nat) (buf out : GoString), pos.length = widths.length →
      wrapLoop widths l fuel pos buf = .done out →
      ∃ lines, out = buf ++ unlines lines ∧
        ∀ line ∈ lines, line.length = lineLength widths ∧ '\n' ∉ line := by
  intro fuel
  induction fuel with
  | zero => intro pos buf out _ h; simp [wrapLoop] at h
  | succ f ih =>
    intro pos buf out hp h
    obtain ⟨b, hb⟩ := anyLess_some pos l (by omega)
    cases b with
    | false =>
      simp only [wrapLoop, hb, Exec.done.injEq] at h
      exact ⟨[], by simp [unlines, h], by simp⟩
    | true =>
      obtain ⟨line0, pos1, hc, hpl, hlen, hnl, _, _⟩ := wrapCells_spec widths l pos hw hp hl
      simp only [wrapLoop, hb, hc] at h
      obtain ⟨lines, hout, hlines⟩ := ih pos1 _ out hpl h
      refine ⟨("| ".toList ++ line0 ++ " |".toList) :: lines, ?_, ?_⟩
      · rw [hout]
        simp [unlines]
      · intro line hline
        rcases List.mem_cons.1 hline with rfl | hmem
        · refine ⟨?_, ?_⟩
          · simp only [List.length_append, hlen, lineLength]
            simp
            omega
          · simp only [List.mem_append, not_or]
            exact ⟨⟨by decide, hnl⟩, by decide⟩
        · exact hlines line hmem

theorem mem_blocksLines (sep : GoString) (blocks : List (List GoString)) (line : GoString)
    (h : line ∈ blocksLines sep blocks) : line = sep ∨ ∃ b ∈ blocks, line ∈ b := by
  induction blocks with
  | nil => simp [blocksLines] at h
  | cons b bs ih =>
    simp only [blocksLines, List.mem_append, List.mem_cons] at h
    rcases h with h | h | h
    · exact Or.inr ⟨b, List.mem_cons_self _ _, h⟩
    · exact Or.inl h
    · rcases ih h with h1 | ⟨b2, hb2, h2⟩
      · exact Or.inl h1
      · exact Or.inr ⟨b2, List.mem_cons_of_mem _ hb2, h2⟩

theorem renderRows_lines (fuel : Nat) (widths : List Int) (sep : GoString)
    (hw : ∀ w ∈ widths, 0 ≤ w) (rows : List Row) :
    (∀ r ∈ rows, widths.length ≤ r.length) → ∀ (buf out : GoString),
      renderRows fuel widths (sep ++ "\n".toList) rows buf = .done out →
      ∃ blocks : List (List GoString), blocks.length = rows.length ∧
        out = buf ++ unlines (blocksLines sep blocks) ∧
        ∀ b ∈ blocks, ∀ line ∈ b, line.length = lineLength widths ∧ '\n' ∉ line := by
  induction rows with
  | nil =>
    intro _ buf out h
    simp only [renderRows, Exec.done.injEq] at h
    exact ⟨[], rfl, by simp [blocksLines, unlines, h], by simp⟩
  | cons l rest ih =>
    intro hl buf out h
    simp only [renderRows] at h
    cases h1 : wrapLoop widths l fuel (List.replicate widths.length 0) buf with
    | panic => rw [h1] at h; cases h
    | outOfFuel => rw [h1] at h; cases h
    | done buf1 =>
      rw [h1] at h
      simp only at h
      obtain ⟨lines, hb1, hlines⟩ := wrapLoop_lines widths l hw (hl l (List.mem_cons_self _ _))
        fuel _ buf buf1 (by simp) h1
      obtain ⟨blocks, hbl, hout, hblocks⟩ := ih (fun r hr => hl r (List.mem_cons_of_mem _ hr))
        _ out h
      refine ⟨lines :: blocks, by simp [hbl], ?_, ?_⟩
      · rw [hout, hb1]
        simp [blocksLines, unlines_append, unlines]
      · intro b hb line hline
        rcases List.mem_cons.1 hb with rfl | hmem
        · exact hlines line hline
        · exact hblocks b hmem line hline

theorem sum_toNat (widths : List Int) (hw : ∀ w ∈ widths, 0 ≤ w) :
    (((widths.map Int.toNat).sum : Nat) : Int) = widths.sum := by
  induction widths with
  | nil => rfl
  | cons w ws ih =>
    have h0 := hw w (List.mem_cons_self _ _)
    have := ih (fun x hx => hw x (List.mem_cons_of_mem _ hx))
    simp only [List.map_cons, List.sum_cons, Nat.cast_add, this]
    rw [Int.toNat_of_nonneg h0]

/-! ## Line length of the rendered table -/

/-- C18, as stated, fails for a table whose header row has no cell: every row
has at least 0 cells, there is no column width, `Render` returns two separator
lines of 4 bytes each, and 4 + 0 + 3*(0-1) is 1. -/
theorem Render_line_length_without_columns :
    exEmptyHeaderTable.Render 1 none [] = .done "+--+\n+--+\n".toList ∧
      computeWidths none exEmptyHeaderTable.rows 0 [] = some [] ∧
      splitLines "+--+\n+--+\n".toList = ["+--+".toList, "+--+".toList] ∧
      "+--+".toList.length = 4 ∧
      (4 : Int) + ([] : List Int).sum + 3 * ((0 : Int) - 1) = 1 := by
  decide

/-- C18, amended: for a table with at least one column whose rows all have at
least as many cells as the header row and whose computed column widths are not
negative, the string `Render` returns consists of lines of one byte length,
4 + (sum of the widths) + 3*(cols-1): it starts with the separator line, and
the lines of every row are followed by the separator line. -/
theorem Render_line_lengths (terminalWidth : Option Int) (t : PrettyTable)
    (limitWidths : List Int) (header : Row) (rest : List Row) (fuel : Nat) (out : GoString)
    (hrows : t.rows = header :: rest) (hcols : 1 ≤ header.length)
    (hcells : ∀ r ∈ t.rows, header.length ≤ r.length)
    (hwidths : ∀ widths, computeWidths terminalWidth t.rows header.length limitWidths =
      some widths → ∀ w ∈ widths, 0 ≤ w)
    (hout : t.Render fuel terminalWidth limitWidths = .done out) :
    ∃ (widths : List Int) (sep : GoString) (blocks : List (List GoString)),
      computeWidths terminalWidth t.rows header.length limitWidths = some widths ∧
      hsepLine widths = some (sep ++ "\n".toList) ∧
      blocks.length = t.rows.length ∧
      out = unlines (sep :: blocksLines sep blocks) ∧
      splitLines out = sep :: blocksLines sep blocks ∧
      ∀ line ∈ sep :: blocksLines sep blocks,
        (line.length : Int) = 4 + widths.sum + 3 * ((header.length : Int) - 1) ∧
          '\n' ∉ line := by
  obtain ⟨widths, hcw, hlen⟩ := computeWidths_some terminalWidth t.rows header.length
    limitWidths hcells
  have hw0 := hwidths widths hcw
  obtain ⟨cells, hcells2, hcl, hcn⟩ := hsepCells_spec widths hw0
  have hsep : hsepLine widths = some (("+-".toList ++ cells ++ "-+".toList) ++ "\n".toList) := by
    simp [hsepLine, hcells2]
  have hout2 : renderRows fuel widths (("+-".toList ++ cells ++ "-+".toList) ++ "\n".toList)
      t.rows (("+-".toList ++ cells ++ "-+".toList) ++ "\n".toList) = .done out := by
    unfold PrettyTable.Render at hout
    rw [hrows] at hout hcw ⊢
    simp only [hcw, hsep] at hout
    exact hout
  obtain ⟨blocks, hbl, hblocks, hlines⟩ := renderRows_lines fuel widths
    ("+-".toList ++ cells ++ "-+".toList) hw0 t.rows
    (fun r hr => by rw [hlen]; exact hcells r hr) _ out hout2
  have hall : ∀ line ∈ ("+-".toList ++ cells ++ "-+".toList) ::
      blocksLines ("+-".toList ++ cells ++ "-+".toList) blocks,
      line.length = lineLength widths ∧ '\n' ∉ line := by
    have hs : ("+-".toList ++ cells ++ "-+".toList).length = lineLength widths ∧
        '\n' ∉ ("+-".toList ++ cells ++ "-+".toList) := by
      refine ⟨?_, ?_⟩
      · simp only [List.length_append, hcl, lineLength]
        simp
        omega
      · simp only [List.mem_append, not_or]
        exact ⟨⟨by decide, hcn⟩, by decide⟩
    intro line hline
    rcases List.mem_cons.1 hline with rfl | hmem
    · exact hs
    · rcases mem_blocksLines _ _ _ hmem with rfl | ⟨b, hb, hlb⟩
      · exact hs
      · exact hlines b hb line hlb
  have houteq : out = unlines (("+-".toList ++ cells ++ "-+".toList) ::
      blocksLines ("+-".toList ++ cells ++ "-+".toList) blocks) := by
    rw [hblocks]
    simp [unlines]
  refine ⟨widths, "+-".toList ++ cells ++ "-+".toList, blocks, hcw, hsep, hbl, houteq, ?_, ?_⟩
  · rw [houteq]
    exact splitLines_unlines _ (fun l hl => (hall l hl).2)
  · intro line hline
    obtain ⟨h1, h2⟩ := hall line hline
    refine ⟨?_, h2⟩
    rw [h1, lineLength, hlen]
    have hsum := sum_toNat widths hw0
    have hsub : ((header.length - 1 : Nat) : Int) = (header.length : Int) - 1 := by omega
    have hcast : ((4 + (widths.map Int.toNat).sum + 3 * (header.length - 1) : Nat) : Int) =
        4 + (((widths.map Int.toNat).sum : Nat) : Int) +
          3 * ((header.length - 1 : Nat) : Int) := by
      simp only [Nat.cast_add, Nat.cast_mul, Nat.cast_ofNat]
    rw [hcast, hsum, hsub]

/-- C18, amended, at an example table: every line has 4 + (5 + 3) + 3 = 15 bytes. -/
theorem Render_line_lengths_witness :
    exWrapTable.rows = ["a".toList, "bbbb".toList] :: [["hello world".toList, "x\ny".toList]] ∧
      (∀ r ∈ exWrapTable.rows, 2 ≤ r.length) ∧
      (∃ (widths : List Int) (sep : GoString) (blocks : List (List GoString)),
        computeWidths none exWrapTable.rows 2 [5, 3] = some widths ∧
        hsepLine widths = some (sep ++ "\n".toList) ∧
        blocks.length = exWrapTable.rows.length ∧
        (("+-------+-----+\n| a     | bbb |\n|       | b   |\n+-------+-----+\n" ++
          "| hello | x   |\n|  worl | y   |\n| d     |     |\n+-------+-----+\n").toList) =
          unlines (sep :: blocksLines sep blocks) ∧
        splitLines
          (("+-------+-----+\n| a     | bbb |\n|       | b   |\n+-------+-----+\n" ++
            "| hello | x   |\n|  worl | y   |\n| d     |     |\n+-------+-----+\n").toList) =
          sep :: blocksLines sep blocks ∧
        ∀ line ∈ sep :: blocksLines sep blocks,
          (line.length : Int) = 4 + widths.sum + 3 * ((2 : Int) - 1) ∧ '\n' ∉ line) ∧
      (4 : Int) + ([5, 3] : List Int).sum + 3 * ((2 : Int) - 1) = 15 :=
  ⟨rfl, by decide,
   Render_line_lengths none exWrapTable [5, 3] ["a".toList, "bbbb".toList]
      [["hello world".toList, "x\ny".toList]] 4 _ rfl (by decide) (by decide)
      (fun widths h => by
        have h2 : computeWidths none exWrapTable.rows 2 [5, 3] = some widths := h
        rw [exWrapTable_widths] at h2; cases h2; decide)
      (by decide),
   by decide⟩

end Kluctl
